import Mathlib

/-!
# FastOsuParser: a shallow embedding of `FastOsuParser.h`

The parser `FastOsuParser__Parse` walks a byte buffer with a cursor `char* i`.

Conventions of the embedding.

* A byte is a `Nat` (its unsigned value); the file contents are a `List Nat`.
* The file-loading part of the function (`fopen` .. `fclose`) is left out: the
  embedding starts from the loaded `beatmap_file_contents`.
* Every C read `*(i + k)` is a lookup in the bytes from the cursor on
  (`buf.drop i`).  A read outside the buffer is undefined behaviour in C; the
  embedding returns `none` (and `Res.undefined` at the top level) for it.
* `malloc` and `realloc` are assumed to succeed (the source never tests them).
* `sizeof("...")` of a string literal is its length plus one (the NUL byte).
-/

namespace FastOsuParser

/-! ## Data model -/

/-- Decimal number `mant * 10 ^ exp`: the value a decimal literal denotes.  The
fields of type `float` and `double` hold this value rounded to the nearest
representable number; the rounding is not modelled. -/
structure Decimal where
  mant : Int
  exp : Int
deriving DecidableEq, Repr

/-- One entry of `out->timing_points`. -/
structure TimingPoint where
  time : Int
  beat_length : Decimal
  meter : Int
  b_uninherited : Int
deriving DecidableEq, Repr

/-- One entry of `curve_points`. -/
structure CurvePoint where
  x : Int
  y : Int
deriving DecidableEq, Repr

/-- The union `object_params`: `unset` when the parser wrote none of its
members, `slider` when it wrote the slider struct, `spinner` when it wrote
`end_time`. -/
inductive ObjectParams where
  | unset
  | slider (curve_type : Nat) (curve_points : List CurvePoint) (curve_points_count : Nat)
      (slides : Int) (length : Decimal)
  | spinner (end_time : Int)
deriving DecidableEq, Repr

/-- One entry of `out->hit_objects`. -/
structure HitObject where
  x : Int
  y : Int
  time : Int
  type : Int
  object_params : ObjectParams
deriving DecidableEq, Repr

/-- The record `FastOsuParser__Beatmap`.  The `char[256]` arrays are lists of
bytes; `timing_points` and `hit_objects` list the entries written so far into
the allocated arrays, in index order; `_total_curve_points` lists the blocks
registered so far. -/
structure Beatmap where
  audio_file_name : List Nat
  audio_file_name_size : Nat
  audio_lead_in : Int
  countdown : Int
  stack_leniency : Decimal
  mode : Int
  countdown_offset : Int
  title : List Nat
  title_size : Nat
  artist : List Nat
  artist_size : Nat
  creator : List Nat
  creator_size : Nat
  version : List Nat
  version_size : Nat
  beatmap_id : Int
  beatmap_set_id : Int
  hp_drain_rate : Decimal
  circle_size : Decimal
  overall_difficulty : Decimal
  approach_rate : Decimal
  slider_multiplier : Decimal
  slider_tick_rate : Decimal
  timing_points : List TimingPoint
  timing_points_count : Nat
  hit_objects : List HitObject
  hit_objects_count : Nat
  _total_curve_points : List (List CurvePoint)
  _total_curve_points_count : Nat
deriving DecidableEq, Repr

/-- The enum `FastOsuParser__Error`. -/
inductive Error where
  | SUCCESS
  | ERROR_FAILED_TO_OPEN_FILE
  | ERROR_FAILED_TO_SEEK_FILE_END
  | ERROR_FAILED_TO_TELL_FILE
  | ERROR_FAILED_TO_SEEK_FILE_START
  | ERROR_FAILED_TO_ALLOCATE_MEMORY
  | ERROR_FAILED_TO_READ_FILE
  | ERROR_FAILED_TO_CLOSE_FILE
  | ERROR_SECTION_GENERAL_AUDIOFILENAME_TOO_LONG
  | ERROR_SECTION_METADATA_TITLE_TOO_LONG
  | ERROR_SECTION_METADATA_ARTIST_TOO_LONG
  | ERROR_SECTION_METADATA_CREATOR_TOO_LONG
  | ERROR_SECTION_METADATA_VERSION_TOO_LONG
deriving DecidableEq, Repr

/-- The local enum of `FastOsuParser__Parse` behind `current_section`. -/
inductive Section where
  | SECTION_NONE
  | SECTION_GENERAL
  | SECTION_METADATA
  | SECTION_DIFFICULTY
  | SECTION_TIMING_POINTS
  | SECTION_HIT_OBJECTS
deriving DecidableEq, Repr

/-- A record as the caller must pass it: all bytes zero. -/
def zeroBeatmap : Beatmap where
  audio_file_name := List.replicate 256 0
  audio_file_name_size := 0
  audio_lead_in := 0
  countdown := 0
  stack_leniency := ⟨0, 0⟩
  mode := 0
  countdown_offset := 0
  title := List.replicate 256 0
  title_size := 0
  artist := List.replicate 256 0
  artist_size := 0
  creator := List.replicate 256 0
  creator_size := 0
  version := List.replicate 256 0
  version_size := 0
  beatmap_id := 0
  beatmap_set_id := 0
  hp_drain_rate := ⟨0, 0⟩
  circle_size := ⟨0, 0⟩
  overall_difficulty := ⟨0, 0⟩
  approach_rate := ⟨0, 0⟩
  slider_multiplier := ⟨0, 0⟩
  slider_tick_rate := ⟨0, 0⟩
  timing_points := []
  timing_points_count := 0
  hit_objects := []
  hit_objects_count := 0
  _total_curve_points := []
  _total_curve_points_count := 0

/-! ## Primitives of the C language and library -/

/-- The bytes of an ASCII string literal. -/
def bytes (s : String) : List Nat := s.data.map Char.toNat

/-- C `sizeof` of a string literal: its length and the terminating NUL. -/
def sizeof (s : String) : Nat := s.length + 1

/-- Loop `while (*(p + k) != c) k++;`: the offset of the first byte `c` at or
after the cursor, `none` when the loop leaves the buffer. -/
def scanTo (c : Nat) : List Nat → Option Nat
  | [] => none
  | b :: bs => if b = c then some 0 else (scanTo c bs).map (· + 1)

/-- Statement pair `while (*i != ',') i++; i++;`: the cursor advance. -/
def skipComma (p : List Nat) : Option Nat := (scanTo 44 p).map (· + 1)

/-- Statement pair `while (*i != '\n') i++; i++;`: the cursor advance. -/
def skipLine (p : List Nat) : Option Nat := (scanTo 10 p).map (· + 1)

/-- C `isspace` in the "C" locale. -/
def isspace (c : Nat) : Bool := c = 32 || (9 ≤ c && c ≤ 13)

/-- C `isdigit`, on the unsigned value of the byte (bytes from 128 on are no digits). -/
def isdigit (c : Nat) : Bool := 48 ≤ c && c ≤ 57

/-- Leading white space skipped by `atoi` and `atof`. -/
def skipSpaces : List Nat → List Nat
  | [] => []
  | c :: cs => if isspace c then skipSpaces cs else c :: cs

/-- The run of digits at the cursor and the bytes after it; `none` when the
run reaches the end of the buffer (the byte after it is then read outside). -/
def spanDigits : List Nat → Option (List Nat × List Nat)
  | [] => none
  | c :: cs =>
    if isdigit c then (spanDigits cs).map (fun r => (c :: r.1, r.2)) else some ([], c :: cs)

/-- Value of a run of decimal digits. -/
def decVal (ds : List Nat) : Nat := ds.foldl (fun a c => a * 10 + (c - 48)) 0

/-- An optional sign at the cursor: whether it is `-`, and the bytes after it;
`none` when the cursor is outside the buffer. -/
def readSign : List Nat → Option (Bool × List Nat)
  | [] => none
  | c :: cs => if c = 45 then some (true, cs) else if c = 43 then some (false, cs) else some (false, c :: cs)

/-- C `atoi` on the bytes at the cursor: white space, an optional sign, a run
of digits.  `none` when the behaviour is undefined: the scan leaves the buffer
or the value is not representable in `int`. -/
def atoi (p : List Nat) : Option Int :=
  match readSign (skipSpaces p) with
  | none => none
  | some (neg, q) =>
    match spanDigits q with
    | none => none
    | some (ds, _) =>
      let v : Int := if neg then -(decVal ds : Int) else (decVal ds : Int)
      if -2147483648 ≤ v ∧ v ≤ 2147483647 then some v else none

/-- The exponent part of a decimal floating literal, read after the mantissa:
`e` or `E`, an optional sign and at least one digit; 0 when there is none. -/
def readExponent : List Nat → Option Int
  | [] => none
  | c :: cs =>
    if c = 101 ∨ c = 69 then
      match readSign cs with
      | none => none
      | some (neg, q) =>
        match spanDigits q with
        | none => none
        | some (ds, _) =>
          if ds = [] then some 0
          else some (if neg then -(decVal ds : Int) else (decVal ds : Int))
    else some 0

/-- C `atof` on the bytes at the cursor, for decimal literals: white space, an
optional sign, digits, an optional `.` and digits, an optional exponent.  The
result is the exact decimal value (see `Decimal`); the hexadecimal, infinity
and NaN spellings of `strtod` are not modelled.  `none` when the scan leaves
the buffer. -/
def atof (p : List Nat) : Option Decimal :=
  match readSign (skipSpaces p) with
  | none => none
  | some (neg, q) =>
    match spanDigits q with
    | none => none
    | some (ip, r) =>
      let sgn : Int := if neg then -1 else 1
      match r with
      | 46 :: r1 =>
        match spanDigits r1 with
        | none => none
        | some (fp, r2) =>
          if ip = [] ∧ fp = [] then some ⟨0, 0⟩
          else
            match readExponent r2 with
            | none => none
            | some e => some ⟨sgn * (decVal (ip ++ fp) : Int), e - (fp.length : Int)⟩
      | _ =>
        if ip = [] then some ⟨0, 0⟩
        else
          match readExponent r with
          | none => none
          | some e => some ⟨sgn * (decVal ip : Int), e⟩

/-- C `memcpy(dst, src, n)` on a byte array `dst`. -/
def memcpy (dst src : List Nat) (n : Nat) : List Nat := src.take n ++ dst.drop n

/-- Conversion of an `int` to `char` (8 bits, two's complement). -/
def toChar (v : Int) : Int := (v + 128) % 256 - 128

/-- Test `v & mask` of an `int` against a non-negative mask, as a truth value. -/
def bitAnd (v : Int) (mask : Nat) : Bool := ((v % 4294967296).toNat &&& mask) != 0

/-! ## The parser -/

/-- How one pass through the body of the `for` loop leaves the `switch` on
`current_section`: `next` when control reaches the statement after the
`switch` (with the section then current, the cursor advance and the record),
`ret` for a `return` or the `goto` to the end of the function. -/
inductive Step where
  | next (current_section : Section) (adv : Nat) (out : Beatmap)
  | ret (e : Error) (out : Beatmap)
deriving DecidableEq, Repr

/-- Block of the bounded string keys, after the key was skipped: the loop
`while (*(i+content_size) != '\r') content_size++;`. -/
def contentSize (p : List Nat) : Option Nat := scanTo 13 p

/-- Block of the integer keys: skip `k` bytes to the content, measure
`content_size`, read `atoi(i)`, advance by `content_size+1`.  The value and
the whole advance. -/
def intKey (p : List Nat) (k : Nat) : Option (Int × Nat) :=
  match contentSize (p.drop k), atoi (p.drop k) with
  | some content_size, some v => some (v, k + (content_size + 1))
  | _, _ => none

/-- Block of the floating keys: as `intKey`, with `atof(i)`. -/
def floatKey (p : List Nat) (k : Nat) : Option (Decimal × Nat) :=
  match contentSize (p.drop k), atof (p.drop k) with
  | some content_size, some v => some (v, k + (content_size + 1))
  | _, _ => none

/-- Switch `case 'G'` .. `default` on the byte after `[`: the new section and
the cursor advance, counted from the `[`. -/
def sectionHeader (c : Nat) : Section × Nat :=
  if c = 71 then (.SECTION_GENERAL, 1 + sizeof "eneral]\r\n")
  else if c = 77 then (.SECTION_METADATA, 1 + sizeof "etadata]\r\n")
  else if c = 68 then (.SECTION_DIFFICULTY, 1 + sizeof "ifficulty]\r\n")
  else if c = 84 then (.SECTION_TIMING_POINTS, 1 + sizeof "imingPoints]\r\n")
  else if c = 72 then (.SECTION_HIT_OBJECTS, 1 + sizeof "itObjects]\r\n")
  else (.SECTION_NONE, 1)

/-- Statement `if (*i == '[') { i++; switch (*i) ... }` at the head of the loop
body: the section then current and the cursor advance. -/
def newSection (current_section : Section) (p : List Nat) : Option (Section × Nat) :=
  match p[0]? with
  | none => none
  | some c =>
    if c = 91 then
      match p[1]? with
      | none => none
      | some c1 => some (sectionHeader c1)
    else some (current_section, 0)

/-- Body of `case SECTION_GENERAL`. -/
def caseGeneral (p : List Nat) (out : Beatmap) : Option Step :=
  match p[0]? with
  | none => none
  | some c =>
    if c = 65 then
      match p[sizeof "udio"]? with
      | none => none
      | some c1 =>
        if c1 = 70 then
          let k := sizeof "udio" + sizeof "ilename: "
          match contentSize (p.drop k) with
          | none => none
          | some content_size =>
            if content_size > 255 then
              some (.ret .ERROR_SECTION_GENERAL_AUDIOFILENAME_TOO_LONG out)
            else
              some (.next .SECTION_GENERAL (k + (content_size + 1))
                { out with
                  audio_file_name := memcpy out.audio_file_name (p.drop k) content_size
                  audio_file_name_size := content_size })
        else if c1 = 76 then
          match intKey p (sizeof "udio" + sizeof "eadIn: ") with
          | none => none
          | some (v, k) => some (.next .SECTION_GENERAL k { out with audio_lead_in := v })
        else some (.next .SECTION_GENERAL (sizeof "udio") out)
    else if c = 67 then
      match p[sizeof "ountdown"]? with
      | none => none
      | some c1 =>
        if c1 = 58 then
          match intKey p (sizeof "ountdown" + sizeof " ") with
          | none => none
          | some (v, k) => some (.next .SECTION_GENERAL k { out with countdown := v })
        else if c1 = 79 then
          match intKey p (sizeof "ountdown" + sizeof "ffset: ") with
          | none => none
          | some (v, k) => some (.next .SECTION_GENERAL k { out with countdown_offset := v })
        else some (.next .SECTION_GENERAL (sizeof "ountdown") out)
    else if c = 83 then
      match p[7]? with
      | none => none
      | some c1 =>
        if c1 = 110 then
          match floatKey p (7 + sizeof "iency: ") with
          | none => none
          | some (v, k) => some (.next .SECTION_GENERAL k { out with stack_leniency := v })
        else some (.next .SECTION_GENERAL 7 out)
    else if c = 77 then
      match atoi (p.drop (sizeof "ode: ")) with
      | none => none
      | some v => some (.next .SECTION_GENERAL (sizeof "ode: " + 2) { out with mode := v })
    else some (.next .SECTION_GENERAL 0 out)

/-- Body of `case SECTION_METADATA`. -/
def caseMetadata (p : List Nat) (out : Beatmap) : Option Step :=
  match p[0]? with
  | none => none
  | some c =>
    if c = 84 then
      match p[1]? with
      | none => none
      | some c1 =>
        if c1 = 105 then
          match p[1 + sizeof "tle"]? with
          | none => none
          | some c2 =>
            if c2 = 85 then some (.next .SECTION_METADATA 1 out)
            else
              let k := 1 + sizeof "tle:"
              match contentSize (p.drop k) with
              | none => none
              | some content_size =>
                if content_size > 255 then
                  some (.ret .ERROR_SECTION_METADATA_TITLE_TOO_LONG out)
                else
                  some (.next .SECTION_METADATA (k + (content_size + 1))
                    { out with
                      title := memcpy out.title (p.drop k) content_size
                      title_size := content_size })
        else some (.next .SECTION_METADATA 1 out)
    else if c = 65 then
      match p[sizeof "rtist"]? with
      | none => none
      | some c2 =>
        if c2 = 85 then some (.next .SECTION_METADATA 0 out)
        else
          let k := sizeof "rtist:"
          match contentSize (p.drop k) with
          | none => none
          | some content_size =>
            if content_size > 255 then
              some (.ret .ERROR_SECTION_METADATA_ARTIST_TOO_LONG out)
            else
              some (.next .SECTION_METADATA (k + (content_size + 1))
                { out with
                  artist := memcpy out.artist (p.drop k) content_size
                  artist_size := content_size })
    else if c = 67 then
      let k := sizeof "reator:"
      match contentSize (p.drop k) with
      | none => none
      | some content_size =>
        if content_size > 255 then
          some (.ret .ERROR_SECTION_METADATA_CREATOR_TOO_LONG out)
        else
          some (.next .SECTION_METADATA (k + (content_size + 1))
            { out with
              creator := memcpy out.creator (p.drop k) content_size
              creator_size := content_size })
    else if c = 86 then
      let k := sizeof "ersion:"
      match contentSize (p.drop k) with
      | none => none
      | some content_size =>
        if content_size > 255 then
          some (.ret .ERROR_SECTION_METADATA_VERSION_TOO_LONG out)
        else
          some (.next .SECTION_METADATA (k + (content_size + 1))
            { out with
              version := memcpy out.version (p.drop k) content_size
              version_size := content_size })
    else if c = 66 then
      match p[sizeof "eatmap"]? with
      | none => none
      | some c1 =>
        if c1 = 73 then
          match intKey p (sizeof "eatmap" + sizeof "D:") with
          | none => none
          | some (v, k) => some (.next .SECTION_METADATA k { out with beatmap_id := v })
        else if c1 = 83 then
          match intKey p (sizeof "eatmap" + sizeof "etID:") with
          | none => none
          | some (v, k) => some (.next .SECTION_METADATA k { out with beatmap_set_id := v })
        else some (.next .SECTION_METADATA (sizeof "eatmap") out)
    else some (.next .SECTION_METADATA 0 out)

/-- Body of `case SECTION_DIFFICULTY`. -/
def caseDifficulty (p : List Nat) (out : Beatmap) : Option Step :=
  match p[0]? with
  | none => none
  | some c =>
    if c = 72 then
      match floatKey p (sizeof "PDrainRate:") with
      | none => none
      | some (v, k) => some (.next .SECTION_DIFFICULTY k { out with hp_drain_rate := v })
    else if c = 67 then
      match floatKey p (sizeof "ircleSize:") with
      | none => none
      | some (v, k) => some (.next .SECTION_DIFFICULTY k { out with circle_size := v })
    else if c = 79 then
      match floatKey p (sizeof "verallDifficulty:") with
      | none => none
      | some (v, k) => some (.next .SECTION_DIFFICULTY k { out with overall_difficulty := v })
    else if c = 65 then
      match floatKey p (sizeof "pproachRate:") with
      | none => none
      | some (v, k) => some (.next .SECTION_DIFFICULTY k { out with approach_rate := v })
    else if c = 83 then
      match p[sizeof "lider"]? with
      | none => none
      | some c1 =>
        if c1 = 77 then
          match floatKey p (sizeof "lider" + sizeof "ultiplier:") with
          | none => none
          | some (v, k) => some (.next .SECTION_DIFFICULTY k { out with slider_multiplier := v })
        else if c1 = 84 then
          match floatKey p (sizeof "lider" + sizeof "ickRate:") with
          | none => none
          | some (v, k) => some (.next .SECTION_DIFFICULTY k { out with slider_tick_rate := v })
        else some (.next .SECTION_DIFFICULTY (sizeof "lider") out)
    else some (.next .SECTION_DIFFICULTY 0 out)

/-- Pre-scan of `case SECTION_TIMING_POINTS`:
`for (line_offset = 0; *(i+line_offset) != '\r'; line_offset++)
   { while (*(i+line_offset) != '\n') line_offset++; timing_points_count++; }`.
The argument list is the bytes from `i+line_offset` on; the flag tells whether
the `for` condition is tested next (at the start of a line) or the inner
`while` is running; the number is the count so far. -/
def countTimingPoints : List Nat → Bool → Nat → Option Nat
  | [], _, _ => none
  | c :: cs, true, n =>
    if c = 13 then some n
    else if c = 10 then countTimingPoints cs true (n + 1)
    else countTimingPoints cs false n
  | c :: cs, false, n =>
    if c = 10 then countTimingPoints cs true (n + 1)
    else countTimingPoints cs false n

/-- One pass through the body of the loop over `tp`: the entry written and
the cursor advance. -/
def timingPoint (p : List Nat) : Option (TimingPoint × Nat) :=
  match atoi p, skipComma p with
  | some time, some k1 =>
    match atof (p.drop k1), skipComma (p.drop k1) with
    | some beat_length, some k2 =>
      match atoi (p.drop (k1 + k2)), skipComma (p.drop (k1 + k2)) with
      | some meter, some k3 =>
        match skipComma (p.drop (k1 + k2 + k3)) with
        | some k4 =>
          match skipComma (p.drop (k1 + k2 + k3 + k4)) with
          | some k5 =>
            match skipComma (p.drop (k1 + k2 + k3 + k4 + k5)) with
            | some k6 =>
              match atoi (p.drop (k1 + k2 + k3 + k4 + k5 + k6)),
                  skipLine (p.drop (k1 + k2 + k3 + k4 + k5 + k6)) with
              | some u, some k7 =>
                some (⟨time, beat_length, meter, toChar u⟩, k1 + k2 + k3 + k4 + k5 + k6 + k7)
              | _, _ => none
            | none => none
          | none => none
        | none => none
      | _, _ => none
    | _, _ => none
  | _, _ => none

/-- Loop `for (tp = 0; tp < timing_points_count; tp++)` with `n` passes left:
the entries written and the cursor advance. -/
def fillTimingPoints : Nat → List Nat → Option (List TimingPoint × Nat)
  | 0, _ => some ([], 0)
  | n + 1, p =>
    match timingPoint p with
    | none => none
    | some (tp, k) =>
      match fillTimingPoints n (p.drop k) with
      | none => none
      | some (tps, k1) => some (tp :: tps, k + k1)

/-- Body of `case SECTION_TIMING_POINTS`. -/
def caseTimingPoints (p : List Nat) (out : Beatmap) : Option Step :=
  match countTimingPoints p true 0 with
  | none => none
  | some timing_points_count =>
    match fillTimingPoints timing_points_count p with
    | none => none
    | some (tps, k) =>
      some (.next .SECTION_NONE k
        { out with timing_points := tps, timing_points_count := timing_points_count })

/-- Pre-scan of `case SECTION_HIT_OBJECTS`:
`for (line_offset = 0; line_offset < beatmap_file_size-(i-beatmap_file_contents); line_offset++)
   { while (*(i+line_offset) != '\n') line_offset++; hit_objects_count++; }`.
Arguments as for `countTimingPoints`; the `for` condition fails when no byte
is left. -/
def countHitObjects : List Nat → Bool → Nat → Option Nat
  | [], true, n => some n
  | [], false, _ => none
  | c :: cs, _, n =>
    if c = 10 then countHitObjects cs true (n + 1)
    else countHitObjects cs false n

/-- Loop `for (; *(i+content_size) != ','; content_size++) if (*(i+content_size) == ':')
curve_points_count++;`: the count. -/
def countCurvePoints : List Nat → Option Nat
  | [] => none
  | c :: cs =>
    if c = 44 then some 0
    else (countCurvePoints cs).map (fun n => if c = 58 then n + 1 else n)

/-- Statement pair `while (isdigit(*i)) i++; i++;`: the cursor advance. -/
def skipDigits : List Nat → Option Nat
  | [] => none
  | c :: cs => if isdigit c then (skipDigits cs).map (· + 1) else some 1

/-- Loop `for (cp = 0; cp < curve_points_count; cp++)` with `n` passes left:
the points written and the cursor advance. -/
def fillCurvePoints : Nat → List Nat → Option (List CurvePoint × Nat)
  | 0, _ => some ([], 0)
  | n + 1, p =>
    match atoi p, skipDigits p with
    | some x, some k1 =>
      match atoi (p.drop k1), skipDigits (p.drop k1) with
      | some y, some k2 =>
        match fillCurvePoints n (p.drop (k1 + k2)) with
        | none => none
        | some (cps, k) => some (⟨x, y⟩ :: cps, k1 + k2 + k)
      | _, _ => none
    | _, _ => none

/-- The slider branch `if (type & 0b00000010) { ... }`, entered with the
cursor on `curveType`: the payload written and the cursor advance. -/
def sliderParams (p : List Nat) : Option (ObjectParams × Nat) :=
  match p[0]? with
  | none => none
  | some curve_type =>
    match countCurvePoints (p.drop 2) with
    | none => none
    | some curve_points_count =>
      match fillCurvePoints curve_points_count (p.drop 2) with
      | none => none
      | some (cps, k) =>
        match atoi (p.drop (2 + k)), skipComma (p.drop (2 + k)) with
        | some slides, some k1 =>
          match atof (p.drop (2 + k + k1)) with
          | none => none
          | some length =>
            some (.slider curve_type cps curve_points_count slides length, 2 + k + k1)
        | _, _ => none

/-- The block `// Get objectParams if slider or spinner`: the payload written
and the cursor advance. -/
def objectParams (type : Int) (p : List Nat) : Option (ObjectParams × Nat) :=
  if bitAnd type 0b00000010 then sliderParams p
  else if bitAnd type 0b00001000 then
    match atoi p with
    | none => none
    | some end_time => some (.spinner end_time, 0)
  else some (.unset, 0)

/-- One pass through the body of the loop over `ho`: the entry written and
the cursor advance. -/
def hitObject (p : List Nat) : Option (HitObject × Nat) :=
  match atoi p, skipComma p with
  | some x, some k1 =>
    match atoi (p.drop k1), skipComma (p.drop k1) with
    | some y, some k2 =>
      match atoi (p.drop (k1 + k2)), skipComma (p.drop (k1 + k2)) with
      | some time, some k3 =>
        match atoi (p.drop (k1 + k2 + k3)), skipComma (p.drop (k1 + k2 + k3)) with
        | some type, some k4 =>
          match skipComma (p.drop (k1 + k2 + k3 + k4)) with
          | some k5 =>
            match objectParams type (p.drop (k1 + k2 + k3 + k4 + k5)) with
            | some (params, k6) =>
              match skipLine (p.drop (k1 + k2 + k3 + k4 + k5 + k6)) with
              | some k7 => some (⟨x, y, time, type, params⟩, k1 + k2 + k3 + k4 + k5 + k6 + k7)
              | none => none
            | none => none
          | none => none
        | _, _ => none
      | _, _ => none
    | _, _ => none
  | _, _ => none

/-- Loop `for (ho = 0; ho < hit_objects_count; ho++)` with `n` passes left:
the entries written and the cursor advance. -/
def fillHitObjects : Nat → List Nat → Option (List HitObject × Nat)
  | 0, _ => some ([], 0)
  | n + 1, p =>
    match hitObject p with
    | none => none
    | some (h, k) =>
      match fillHitObjects n (p.drop k) with
      | none => none
      | some (hs, k1) => some (h :: hs, k + k1)

/-- The curve-point blocks the slider entries registered in
`_total_curve_points`, in order. -/
def curveBlocks : List HitObject → List (List CurvePoint)
  | [] => []
  | h :: hs =>
    match h.object_params with
    | .slider _ cps _ _ _ => cps :: curveBlocks hs
    | _ => curveBlocks hs

/-- Body of `case SECTION_HIT_OBJECTS`, which ends in `goto _FastOsuParser__Parse_END`. -/
def caseHitObjects (p : List Nat) (out : Beatmap) : Option Step :=
  match countHitObjects p true 0 with
  | none => none
  | some hit_objects_count =>
    match fillHitObjects hit_objects_count p with
    | none => none
    | some (hs, _) =>
      some (.ret .SUCCESS
        { out with
          hit_objects := hs
          hit_objects_count := hit_objects_count
          _total_curve_points := out._total_curve_points ++ curveBlocks hs
          _total_curve_points_count := out._total_curve_points_count + (curveBlocks hs).length })

/-- Statement `switch (current_section) { ... }`. -/
def caseSection (current_section : Section) (p : List Nat) (out : Beatmap) : Option Step :=
  match current_section with
  | .SECTION_NONE => some (.next .SECTION_NONE 0 out)
  | .SECTION_GENERAL => caseGeneral p out
  | .SECTION_METADATA => caseMetadata p out
  | .SECTION_DIFFICULTY => caseDifficulty p out
  | .SECTION_TIMING_POINTS => caseTimingPoints p out
  | .SECTION_HIT_OBJECTS => caseHitObjects p out

/-- The variables of the `for` loop: the section, the cursor (an index into the
buffer) and the record. -/
structure State where
  current_section : Section
  i : Nat
  out : Beatmap
deriving DecidableEq, Repr

/-- Result of the parser, or of one pass of its loop. -/
inductive Res where
  | next (s : State)
  | ret (e : Error) (out : Beatmap)
  | undefined
  | timeout
deriving DecidableEq, Repr

/-- One pass of the `for` loop from state `s` (with `s.i` inside the buffer):
the header test, the `switch`, `while (*i != '\n') i++;` and the `i++` of the
loop.  `next` carries the state at the next test of the loop condition. -/
def iteration (buf : List Nat) (s : State) : Res :=
  match newSection s.current_section (buf.drop s.i) with
  | none => .undefined
  | some (sec, k) =>
    match caseSection sec (buf.drop (s.i + k)) s.out with
    | none => .undefined
    | some (.ret e out) => .ret e out
    | some (.next sec1 k1 out) =>
      match skipLine (buf.drop (s.i + k + k1)) with
      | none => .undefined
      | some k2 => .next ⟨sec1, s.i + k + k1 + k2, out⟩

/-- The loop `for (; i < beatmap_file_contents+beatmap_file_size; i++)`, run for
at most `fuel` passes; leaving the loop leads to `return FastOsuParser__SUCCESS`. -/
def run (buf : List Nat) : Nat → State → Res
  | 0, s => if s.i < buf.length then .timeout else .ret .SUCCESS s.out
  | fuel + 1, s =>
    if s.i < buf.length then
      match iteration buf s with
      | .next s1 => run buf fuel s1
      | r => r
    else .ret .SUCCESS s.out

/-- The statements before the loop: `out->_total_curve_points = malloc(0);`,
`current_section = SECTION_NONE`, and `while (*i != '[') i++;` from the first
byte of the buffer. -/
def start (buf : List Nat) (out : Beatmap) : Option State :=
  match scanTo 91 buf with
  | none => none
  | some k => some ⟨.SECTION_NONE, k, { out with _total_curve_points := [] }⟩

/-- The function `FastOsuParser__Parse`, from the loaded file contents on.
Every pass of the loop moves the cursor forward, so
`beatmap_file_contents.length` passes are enough (`run_fuel`, `parse_ne_timeout`). -/
def FastOsuParser__Parse (beatmap_file_contents : List Nat) (out : Beatmap) : Res :=
  match start beatmap_file_contents out with
  | none => .undefined
  | some s => run beatmap_file_contents beatmap_file_contents.length s

/-- The state after `n` passes of the loop from state `s`, or the way the loop
ended before. -/
def passes (buf : List Nat) : Nat → State → Res
  | 0, s => .next s
  | n + 1, s =>
    if s.i < buf.length then
      match iteration buf s with
      | .next s1 => passes buf n s1
      | r => r
    else .ret .SUCCESS s.out

/-- The parse of `buf` into `out` comes to test the loop condition in state `s`. -/
def Reaches (buf : List Nat) (out : Beatmap) (s : State) : Prop :=
  ∃ s0 n, start buf out = some s0 ∧ passes buf n s0 = .next s

/-! ## Vocabulary of the statements -/

/-- The five keys whose value is a bounded string. -/
inductive StrKey where
  | AudioFilename
  | Title
  | Artist
  | Creator
  | Version
deriving DecidableEq, Repr

/-- A key with its delimiter, as a line of the file starts. -/
def StrKey.text : StrKey → String
  | .AudioFilename => "AudioFilename: "
  | .Title => "Title:"
  | .Artist => "Artist:"
  | .Creator => "Creator:"
  | .Version => "Version:"

/-- The section a key belongs to. -/
def StrKey.sec : StrKey → Section
  | .AudioFilename => .SECTION_GENERAL
  | _ => .SECTION_METADATA

/-- The error code named after the key. -/
def StrKey.tooLong : StrKey → Error
  | .AudioFilename => .ERROR_SECTION_GENERAL_AUDIOFILENAME_TOO_LONG
  | .Title => .ERROR_SECTION_METADATA_TITLE_TOO_LONG
  | .Artist => .ERROR_SECTION_METADATA_ARTIST_TOO_LONG
  | .Creator => .ERROR_SECTION_METADATA_CREATOR_TOO_LONG
  | .Version => .ERROR_SECTION_METADATA_VERSION_TOO_LONG

/-- The `char[256]` field of a key. -/
def StrKey.buffer : StrKey → Beatmap → List Nat
  | .AudioFilename, out => out.audio_file_name
  | .Title, out => out.title
  | .Artist, out => out.artist
  | .Creator, out => out.creator
  | .Version, out => out.version

/-- The size field of a key. -/
def StrKey.size : StrKey → Beatmap → Nat
  | .AudioFilename, out => out.audio_file_name_size
  | .Title, out => out.title_size
  | .Artist, out => out.artist_size
  | .Creator, out => out.creator_size
  | .Version, out => out.version_size

/-- The record with `content` copied to the front of the field of a key and
its length recorded as the size. -/
def StrKey.store : StrKey → Beatmap → List Nat → Beatmap
  | .AudioFilename, out, content =>
    { out with
      audio_file_name := content ++ out.audio_file_name.drop content.length
      audio_file_name_size := content.length }
  | .Title, out, content =>
    { out with title := content ++ out.title.drop content.length, title_size := content.length }
  | .Artist, out, content =>
    { out with artist := content ++ out.artist.drop content.length, artist_size := content.length }
  | .Creator, out, content =>
    { out with
      creator := content ++ out.creator.drop content.length, creator_size := content.length }
  | .Version, out, content =>
    { out with
      version := content ++ out.version.drop content.length, version_size := content.length }

/-- The number of bytes from the start of a line to the content of a key: the
length of the key with its delimiter. -/
def StrKey.skip : StrKey → Nat
  | .AudioFilename => 15
  | .Title => 6
  | .Artist => 7
  | .Creator => 8
  | .Version => 8

/-- The bytes of a line `p` that make the parser take the branch of a key. -/
def StrKey.selects : StrKey → List Nat → Prop
  | .AudioFilename, p => p[0]? = some 65 ∧ p[5]? = some 70
  | .Title, p => p[0]? = some 84 ∧ p[1]? = some 105 ∧ p[5]? ≠ some 85
  | .Artist, p => p[0]? = some 65 ∧ p[6]? ≠ some 85
  | .Creator, p => p[0]? = some 67
  | .Version, p => p[0]? = some 86

/-- The field of key `k` in `out` holds the content of a line of `buf`: some
line in the section of the key, starting at index `i`, selects the key; its
content, the bytes `content` between the key delimiter and the carriage
return, has the recorded size, at most 255 bytes, and is the front of the
field. -/
def Populated (buf : List Nat) (k : StrKey) (out : Beatmap) : Prop :=
  ∃ i content rest, k.selects (buf.drop i) ∧
    buf.drop (i + k.skip) = content ++ 13 :: rest ∧ 13 ∉ content ∧
    k.size out = content.length ∧ content.length ≤ 255 ∧
    (k.buffer out).take (k.size out) = content

/-- A decimal integer as written in the file: an optional `-` and digits. -/
structure IntLit where
  neg : Bool
  digits : List Nat
deriving DecidableEq, Repr

/-- The bytes of an integer literal. -/
def IntLit.text (l : IntLit) : List Nat := (if l.neg then [45] else []) ++ l.digits

/-- The integer a literal denotes. -/
def IntLit.val (l : IntLit) : Int :=
  if l.neg then -(decVal l.digits : Int) else (decVal l.digits : Int)

/-- A literal is well formed when it has at least one digit, only digits, and
a magnitude that fits `int`. -/
def IntLit.wf (l : IntLit) : Prop :=
  l.digits ≠ [] ∧ l.digits.all isdigit = true ∧ decVal l.digits ≤ 2147483647

instance (l : IntLit) : Decidable l.wf := by
  unfold IntLit.wf
  infer_instance

/-- A comma-separated field of a line that the parser skips: bytes other than
the comma and the line feed. -/
def isField (f : List Nat) : Prop := 44 ∉ f ∧ 10 ∉ f

/-- What may follow the last decoded field of a line, before the line
terminator: nothing, or a comma and further bytes of the line. -/
def isTail (t : List Nat) : Prop := (t = [] ∨ t.head? = some 44) ∧ 10 ∉ t

instance (f : List Nat) : Decidable (isField f) := by
  unfold isField
  infer_instance

instance (t : List Nat) : Decidable (isTail t) := by
  unfold isTail
  infer_instance

/-- A line of the `[TimingPoints]` section in the format
`time,beatLength,meter,sampleSet,sampleIndex,volume,uninherited[,...]`. -/
structure TimingLine where
  time : IntLit
  beat_length : List Nat
  meter : IntLit
  sample_set : List Nat
  sample_index : List Nat
  volume : List Nat
  uninherited : IntLit
  tail : List Nat
deriving DecidableEq, Repr

/-- The bytes of a timing-point line, with its CRLF terminator. -/
def TimingLine.text (l : TimingLine) : List Nat :=
  l.time.text ++ 44 :: (l.beat_length ++ 44 :: (l.meter.text ++ 44 :: (l.sample_set ++ 44 ::
    (l.sample_index ++ 44 :: (l.volume ++ 44 :: (l.uninherited.text ++ (l.tail ++ [13, 10])))))))

/-- A timing-point line is well formed when its three integers are, and no
field holds a comma or a line feed. -/
def TimingLine.wf (l : TimingLine) : Prop :=
  l.time.wf ∧ isField l.beat_length ∧ l.meter.wf ∧ isField l.sample_set ∧
    isField l.sample_index ∧ isField l.volume ∧ l.uninherited.wf ∧ isTail l.tail

instance (l : TimingLine) : Decidable l.wf := by
  unfold TimingLine.wf
  infer_instance

/-- No later line of `p` holds `[T`, the bytes that start the timing-point
builder. -/
def noTimingHeader : List Nat → Bool
  | [] => true
  | c :: r => !(c == 91 && r.head? == some 84) && noTimingHeader r

/-- What one pass may do to the bounded strings: nothing, or store the content
of the line at `p` in the field of the key the line selects. -/
def StrFrame (p : List Nat) (out r : Beatmap) : Prop :=
  (∀ k : StrKey, k.buffer r = k.buffer out ∧ k.size r = k.size out) ∨
  ∃ (k : StrKey) (content rest : List Nat), k.selects p ∧ p.drop k.skip = content ++ 13 :: rest ∧
    13 ∉ content ∧ content.length ≤ 255 ∧ r = k.store out content

/-- The record a step carries. -/
def Step.out : Step → Beatmap
  | .next _ _ out => out
  | .ret _ out => out

/-- Invariant of the loop on the bounded strings: each field is as the caller
passed it or holds the content of a line. -/
def StrInv (buf : List Nat) (b out : Beatmap) : Prop :=
  ∀ k : StrKey, (k.buffer out = k.buffer b ∧ k.size out = k.size b) ∨ Populated buf k out

/-- The bytes after the first comma of `p`. -/
def afterComma (p : List Nat) : List Nat := (p.dropWhile (· != 44)).drop 1

/-- The curve-point field of the hit-object line at `p`, read off the format
`x,y,time,type,hitSound,curveType|x:y|...,slides,...`: after the fifth comma
come `curveType` and `|`; the field is the span from the next byte up to the
next comma. -/
def curvePointField (p : List Nat) : List Nat :=
  ((afterComma (afterComma (afterComma (afterComma (afterComma p))))).drop 2).takeWhile (· != 44)

/-- Invariant of the loop on `hit_objects`: the list is as the caller passed
it, or it was filled by the loop over `ho` from some cursor. -/
def HitInv (buf : List Nat) (b out : Beatmap) : Prop :=
  out.hit_objects = b.hit_objects ∨
  ∃ i n k, fillHitObjects n (buf.drop i) = some (out.hit_objects, k)

/-- The state in which the parse of `buf` into `out` tests the loop condition
for the `n`-th time after the first, when it gets that far. -/
def reached (buf : List Nat) (out : Beatmap) (n : Nat) : Option State :=
  match start buf out with
  | none => none
  | some s0 =>
    match passes buf n s0 with
    | .next s => some s
    | _ => none

/-- The parse of `buf` into `b` comes to execute `switch (current_section)`
with section `sec`, the cursor at index `j` and the record `out`: in a pass of
the loop, after the header test. -/
def Switches (buf : List Nat) (b : Beatmap) (sec : Section) (j : Nat) (out : Beatmap) : Prop :=
  ∃ s k, Reaches buf b s ∧ s.i < buf.length ∧
    newSection s.current_section (buf.drop s.i) = some (sec, k) ∧ j = s.i + k ∧ out = s.out

/-- A decimal number as written in the file: an optional `-`, digits, and
optionally `.` and further digits. -/
structure DecLit where
  neg : Bool
  ip : List Nat
  fp : Option (List Nat)
deriving DecidableEq, Repr

/-- The bytes of a decimal literal. -/
def DecLit.text (l : DecLit) : List Nat :=
  (if l.neg then [45] else []) ++ l.ip ++
    (match l.fp with
     | none => []
     | some f => 46 :: f)

/-- The number a decimal literal denotes. -/
def DecLit.val (l : DecLit) : Decimal :=
  match l.fp with
  | none => ⟨(if l.neg then -1 else 1) * (decVal l.ip : Int), 0⟩
  | some f => ⟨(if l.neg then -1 else 1) * (decVal (l.ip ++ f) : Int), 0 - (f.length : Int)⟩

/-- A decimal literal is well formed when it has at least one digit before the
point and only digits around it. -/
def DecLit.wf (l : DecLit) : Prop :=
  l.ip ≠ [] ∧ l.ip.all isdigit = true ∧
    match l.fp with
    | none => True
    | some f => f.all isdigit = true

instance (l : DecLit) : Decidable l.wf := by
  unfold DecLit.wf
  cases l.fp <;> infer_instance

/-- The curve-point field of a slider line with its terminating comma:
`x:y|x:y|...|x:y,`. -/
def pointsField : List (IntLit × IntLit) → List Nat
  | [] => []
  | [p] => p.1.text ++ 58 :: (p.2.text ++ [44])
  | p :: q :: ps => p.1.text ++ 58 :: (p.2.text ++ 124 :: pointsField (q :: ps))

/-- The object parameters of a hit-object line, by kind. -/
inductive LineParams where
  | circle (rest : List Nat)
  | slider (curve_type sep : Nat) (points : List (IntLit × IntLit)) (slides : IntLit)
      (length : DecLit) (tail : List Nat)
  | spinner (end_time : IntLit) (tail : List Nat)
deriving DecidableEq, Repr

/-- The bytes of the object parameters: all that follows the fifth comma of the
line, up to the line terminator. -/
def LineParams.text : LineParams → List Nat
  | .circle rest => rest
  | .slider curve_type sep points slides length tail =>
    curve_type :: sep :: (pointsField points ++ (slides.text ++ 44 :: (length.text ++ tail)))
  | .spinner end_time tail => end_time.text ++ tail

/-- The payload the object parameters denote. -/
def LineParams.decoded : LineParams → ObjectParams
  | .circle _ => .unset
  | .slider curve_type _ points slides length _ =>
    .slider curve_type (points.map fun p => ⟨p.1.val, p.2.val⟩) points.length slides.val length.val
  | .spinner end_time _ => .spinner end_time.val

/-- A line of the `[HitObjects]` section in the format
`x,y,time,type,hitSound,objectParams...`, with a comma after `hitSound`. -/
structure HitLine where
  x : IntLit
  y : IntLit
  time : IntLit
  type : IntLit
  hit_sound : List Nat
  params : LineParams
deriving DecidableEq, Repr

/-- The bytes of a hit-object line, with its CRLF terminator. -/
def HitLine.text (l : HitLine) : List Nat :=
  l.x.text ++ 44 :: (l.y.text ++ 44 :: (l.time.text ++ 44 :: (l.type.text ++ 44 ::
    (l.hit_sound ++ 44 :: (l.params.text ++ [13, 10])))))

/-- The entry a hit-object line denotes. -/
def HitLine.decoded (l : HitLine) : HitObject :=
  ⟨l.x.val, l.y.val, l.time.val, l.type.val, l.params.decoded⟩

/-- The object parameters fit the type bits and are well formed: a slider has
at least one curve point, unsigned coordinates and well-formed numbers. -/
def LineParams.wf (type : Int) : LineParams → Prop
  | .circle rest => bitAnd type 2 = false ∧ bitAnd type 8 = false ∧ 10 ∉ rest
  | .slider curve_type sep points slides length tail =>
    bitAnd type 2 = true ∧ curve_type ≠ 10 ∧ sep ≠ 10 ∧ points ≠ [] ∧
      (∀ p ∈ points, p.1.neg = false ∧ p.1.wf ∧ p.2.neg = false ∧ p.2.wf) ∧
      slides.wf ∧ length.wf ∧ isTail tail
  | .spinner end_time tail =>
    bitAnd type 2 = false ∧ bitAnd type 8 = true ∧ end_time.wf ∧ isTail tail

instance (type : Int) (p : LineParams) : Decidable (p.wf type) := by
  cases p <;> unfold LineParams.wf <;> infer_instance

/-- A hit-object line is well formed. -/
def HitLine.wf (l : HitLine) : Prop :=
  l.x.wf ∧ l.y.wf ∧ l.time.wf ∧ l.type.wf ∧ isField l.hit_sound ∧ l.params.wf l.type.val

instance (l : HitLine) : Decidable l.wf := by
  unfold HitLine.wf
  infer_instance

/-- The slider struct of the union was written. -/
def ObjectParams.isSlider : ObjectParams → Bool
  | .slider _ _ _ _ _ => true
  | _ => false

/-- The member `end_time` of the union was written. -/
def ObjectParams.isSpinner : ObjectParams → Bool
  | .spinner _ => true
  | _ => false

/-- No member of the union was written. -/
def ObjectParams.isUnset : ObjectParams → Bool
  | .unset => true
  | _ => false

/-- The byte at the `curveType` position of the hit-object line at `p`: the
first byte after the fifth comma. -/
def curveTypeByte (p : List Nat) : Option Nat :=
  (afterComma (afterComma (afterComma (afterComma (afterComma p))))).head?

/-- A line of the `[TimingPoints]` section whose second field is a decimal
literal. -/
structure TimingRow where
  time : IntLit
  beat_length : DecLit
  meter : IntLit
  sample_set : List Nat
  sample_index : List Nat
  volume : List Nat
  uninherited : IntLit
  tail : List Nat
deriving DecidableEq, Repr

/-- The row as a timing-point line. -/
def TimingRow.line (r : TimingRow) : TimingLine :=
  ⟨r.time, r.beat_length.text, r.meter, r.sample_set, r.sample_index, r.volume, r.uninherited,
    r.tail⟩

/-- The row is well formed: its line is, and its second field is a well-formed
decimal literal. -/
def TimingRow.wf (r : TimingRow) : Prop := r.line.wf ∧ r.beat_length.wf

instance (r : TimingRow) : Decidable r.wf := by
  unfold TimingRow.wf
  infer_instance

/-- The entry a row denotes: fields 1 to 3 as numbers, and field 7 converted
to `char`. -/
def TimingRow.decoded (r : TimingRow) : TimingPoint :=
  ⟨r.time.val, r.beat_length.val, r.meter.val, toChar r.uninherited.val⟩

/-- The two keys of `[Metadata]` that have a `...Unicode` sibling. -/
inductive UniKey where
  | Title
  | Artist
deriving DecidableEq, Repr

/-- The bounded string key. -/
def UniKey.key : UniKey → StrKey
  | .Title => .Title
  | .Artist => .Artist

/-- The sibling key with its delimiter, as a line of the file starts. -/
def UniKey.unicodeText : UniKey → String
  | .Title => "TitleUnicode:"
  | .Artist => "ArtistUnicode:"

/-- The byte after `[` is the first letter of one of the five section names. -/
def isSectionLetter (c : Nat) : Bool := c == 71 || c == 77 || c == 68 || c == 84 || c == 72

/-- A line, without its line feed, that the loop skips in the none state:
bytes other than the line feed, not starting with `[`. -/
def isSkipped (body : List Nat) : Prop := 10 ∉ body ∧ body.head? ≠ some 91

instance (body : List Nat) : Decidable (isSkipped body) := by
  unfold isSkipped
  infer_instance

/-- The section the specification assigns to the byte after `[`. -/
def sectionOfLetter (c : Nat) : Section :=
  if c = 71 then .SECTION_GENERAL
  else if c = 77 then .SECTION_METADATA
  else if c = 68 then .SECTION_DIFFICULTY
  else if c = 84 then .SECTION_TIMING_POINTS
  else if c = 72 then .SECTION_HIT_OBJECTS
  else .SECTION_NONE

/-- The integer keys that share a stem with another key of their section. -/
inductive IntKey where
  | Countdown
  | CountdownOffset
  | BeatmapID
  | BeatmapSetID
deriving DecidableEq, Repr

/-- An integer key with its delimiter, as a line of the file starts. -/
def IntKey.text : IntKey → String
  | .Countdown => "Countdown: "
  | .CountdownOffset => "CountdownOffset: "
  | .BeatmapID => "BeatmapID:"
  | .BeatmapSetID => "BeatmapSetID:"

/-- The section an integer key belongs to. -/
def IntKey.sec : IntKey → Section
  | .Countdown => .SECTION_GENERAL
  | .CountdownOffset => .SECTION_GENERAL
  | .BeatmapID => .SECTION_METADATA
  | .BeatmapSetID => .SECTION_METADATA

/-- The field of the record named after an integer key. -/
def IntKey.field : IntKey → Beatmap → Int
  | .Countdown, out => out.countdown
  | .CountdownOffset, out => out.countdown_offset
  | .BeatmapID, out => out.beatmap_id
  | .BeatmapSetID, out => out.beatmap_set_id

/-- The record with the field of an integer key set to `v`. -/
def IntKey.set : IntKey → Beatmap → Int → Beatmap
  | .Countdown, out, v => { out with countdown := v }
  | .CountdownOffset, out, v => { out with countdown_offset := v }
  | .BeatmapID, out, v => { out with beatmap_id := v }
  | .BeatmapSetID, out, v => { out with beatmap_set_id := v }

/-- The key that shares the stem. -/
def IntKey.sibling : IntKey → IntKey
  | .Countdown => .CountdownOffset
  | .CountdownOffset => .Countdown
  | .BeatmapID => .BeatmapSetID
  | .BeatmapSetID => .BeatmapID

/-- The byte at offset `k` of the line `l` exists and is none of the bytes `cs`. -/
def otherAt (l : List Nat) (k : Nat) (cs : List Nat) : Bool :=
  match l[k]? with
  | none => false
  | some c => !cs.contains c

/-- A line `l` (with its line feed) that the dispatcher of a key section takes
for none of the keys of the section: its first byte starts no key, or the
byte at which the keys with that first byte differ lies on the line and
belongs to none of them (for `Title` and `Artist`, is the `U` of the
`...Unicode` sibling). -/
def unmatched (sec : Section) (l : List Nat) : Bool :=
  match sec, l[0]? with
  | .SECTION_GENERAL, some c =>
    if c = 65 then otherAt l 5 [70, 76]
    else if c = 67 then otherAt l 9 [58, 79]
    else if c = 83 then otherAt l 7 [110]
    else c != 77
  | .SECTION_METADATA, some c =>
    if c = 84 then otherAt l 1 [105] || l[5]? == some 85
    else if c = 65 then l[6]? == some 85
    else if c = 66 then otherAt l 7 [73, 83]
    else c != 67 && c != 86
  | .SECTION_DIFFICULTY, some c =>
    if c = 83 then otherAt l 6 [77, 84]
    else c != 72 && c != 67 && c != 79 && c != 65
  | _, _ => false

/-- The first letter of the name of a section, the byte the header dispatch
tests; the none state has no header. -/
def headerLetter : Section → Option Nat
  | .SECTION_NONE => none
  | .SECTION_GENERAL => some 71
  | .SECTION_METADATA => some 77
  | .SECTION_DIFFICULTY => some 68
  | .SECTION_TIMING_POINTS => some 84
  | .SECTION_HIT_OBJECTS => some 72

/-- No line of the input after the first starts with `[` followed by `c`. -/
def noHeaderAfter (c : Nat) : List Nat → Bool
  | [] => true
  | a :: r => !(a == 10 && r[0]? == some 91 && r[1]? == some c) && noHeaderAfter c r

/-- The input has no header line `[c...`: neither the first `[` of the input,
at which the parse starts, nor a `[` at the start of a line is followed by
`c`. -/
def noHeaderLine (c : Nat) (buf : List Nat) : Bool :=
  (buf.dropWhile (· != 91))[1]? != some c && noHeaderAfter c buf

/-- The fields of a record that the lines of a section fill, the other fields
zeroed. -/
def sectionPart : Section → Beatmap → Beatmap
  | .SECTION_NONE, _ => zeroBeatmap
  | .SECTION_GENERAL, b =>
    { zeroBeatmap with
      audio_file_name := b.audio_file_name
      audio_file_name_size := b.audio_file_name_size
      audio_lead_in := b.audio_lead_in
      countdown := b.countdown
      stack_leniency := b.stack_leniency
      mode := b.mode
      countdown_offset := b.countdown_offset }
  | .SECTION_METADATA, b =>
    { zeroBeatmap with
      title := b.title
      title_size := b.title_size
      artist := b.artist
      artist_size := b.artist_size
      creator := b.creator
      creator_size := b.creator_size
      version := b.version
      version_size := b.version_size
      beatmap_id := b.beatmap_id
      beatmap_set_id := b.beatmap_set_id }
  | .SECTION_DIFFICULTY, b =>
    { zeroBeatmap with
      hp_drain_rate := b.hp_drain_rate
      circle_size := b.circle_size
      overall_difficulty := b.overall_difficulty
      approach_rate := b.approach_rate
      slider_multiplier := b.slider_multiplier
      slider_tick_rate := b.slider_tick_rate }
  | .SECTION_TIMING_POINTS, b =>
    { zeroBeatmap with
      timing_points := b.timing_points, timing_points_count := b.timing_points_count }
  | .SECTION_HIT_OBJECTS, b =>
    { zeroBeatmap with hit_objects := b.hit_objects, hit_objects_count := b.hit_objects_count }

/-- The cursor `i` stands at the start of a line: the byte before it is a
line feed. -/
def AtLine (buf : List Nat) (i : Nat) : Prop := ∃ i0, i = i0 + 1 ∧ buf[i0]? = some 10

/-- The curve-point list of a hit object, empty when it is no slider. -/
def curvePointsOf (ho : HitObject) : List CurvePoint :=
  match ho.object_params with
  | .slider _ cps _ _ _ => cps
  | _ => []

/-- The loop `for (int i = 0; i < beatmap->_total_curve_points_count; i++)
free(beatmap->_total_curve_points[i]);` of `FastOsuParser__Free`: the blocks
passed to `free`, in order; `none` when the count exceeds the registered
blocks, so that the loop reads outside the registry. -/
def FastOsuParser__Free (beatmap : Beatmap) : Option (List (List CurvePoint)) :=
  if beatmap._total_curve_points_count ≤ beatmap._total_curve_points.length then
    some (beatmap._total_curve_points.take beatmap._total_curve_points_count)
  else none

/-- A decimal integer has at least one digit and only digits after the
optional sign. -/
def IntLit.isDecimal (l : IntLit) : Prop := l.digits ≠ [] ∧ l.digits.all isdigit = true

instance (l : IntLit) : Decidable l.isDecimal := by
  unfold IntLit.isDecimal
  infer_instance

/-- The value of a decimal integer is representable in `int` (32 bits). -/
def IntLit.inInt (l : IntLit) : Prop := -2147483648 ≤ l.val ∧ l.val ≤ 2147483647

instance (l : IntLit) : Decidable l.inInt := by
  unfold IntLit.inInt
  infer_instance

/-- The text of the header line of a key section, with its CRLF, as the skip
`i += sizeof(...)` after the first letter assumes it. -/
def headerText : Section → String
  | .SECTION_GENERAL => "[General]\r\n"
  | .SECTION_METADATA => "[Metadata]\r\n"
  | .SECTION_DIFFICULTY => "[Difficulty]\r\n"
  | _ => ""

/-- The sections whose lines are `key:value` lines. -/
def isKeySection (sec : Section) : Bool :=
  sec == .SECTION_GENERAL || sec == .SECTION_METADATA || sec == .SECTION_DIFFICULTY

/-- The input of the concrete scenario. -/
def scenario : List Nat :=
  bytes ("[General]\r\nAudioFilename: song.mp3\r\nMode: 0\r\n\r\n" ++
    "[Metadata]\r\nTitle:Song\r\nArtist:Someone\r\nCreator:Mapper\r\nVersion:Hard\r\n" ++
    "BeatmapID:1\r\nBeatmapSetID:2\r\n\r\n" ++
    "[Difficulty]\r\nHPDrainRate:5\r\nCircleSize:4\r\nOverallDifficulty:6\r\nApproachRate:7\r\n" ++
    "SliderMultiplier:1.4\r\nSliderTickRate:1\r\n\r\n" ++
    "[TimingPoints]\r\n0,500,4,2,0,100,1\r\n\r\n" ++
    "[HitObjects]\r\n100,100,1000,1,0\r\n200,200,2000,8,0,3000\r\n")

/-- A `[HitObjects]` section alone, with the two lines of the scenario. -/
def twoHitObjects : List Nat :=
  bytes "[HitObjects]\r\n100,100,1000,1,0\r\n200,200,2000,8,0,3000\r\n"

/-- A `[HitObjects]` section with a circle line and a slider line. -/
def circleThenSlider : List Nat :=
  bytes "[HitObjects]\r\n64,64,500,1,0\r\n256,192,3000,2,0,B|300:200,1,140\r\n"

/-- A `[HitObjects]` section with one slider line of two curve points. -/
def oneSlider : List Nat :=
  bytes "[HitObjects]\r\n256,192,3000,2,0,B|300:200|350:220,1,140.5\r\n"

/-- The hit object decoded from the line of `oneSlider`. -/
def oneSliderHit : HitObject :=
  ⟨256, 192, 3000, 2, .slider 66 [⟨300, 200⟩, ⟨350, 220⟩] 2 1 ⟨1405, -1⟩⟩

/-- The record after the parse of `oneSlider` into a zeroed record. -/
def oneSliderRecord : Beatmap :=
  { zeroBeatmap with
    hit_objects := [oneSliderHit]
    hit_objects_count := 1
    _total_curve_points := [[⟨300, 200⟩, ⟨350, 220⟩]]
    _total_curve_points_count := 1 }

/-- A `[General]` section with `AudioFilename` and `Mode`, then a `[Metadata]`
section whose `Title` line carries 256 content bytes. -/
def longTitle : List Nat :=
  bytes "[General]\r\nAudioFilename: song.mp3\r\nMode: 1\r\n\r\n[Metadata]\r\nTitle:" ++
    List.replicate 256 97 ++ bytes "\r\n"

/-- The record the parse of `longTitle` into a zeroed record leaves behind. -/
def longTitleRecord : Beatmap :=
  { zeroBeatmap with
    audio_file_name := bytes "song.mp3" ++ List.replicate 248 0
    audio_file_name_size := 8
    mode := 1 }

/-- A `[General]` section whose `AudioFilename` line carries 256 content bytes. -/
def longAudio : List Nat :=
  bytes "[General]\r\nAudioFilename: " ++ List.replicate 256 97 ++ bytes "\r\n"

/-- A `[Metadata]` section with a `Title` line. -/
def shortTitle : List Nat := bytes "[Metadata]\r\nTitle:Song\r\n"

/-- The record after the parse of `shortTitle` into a zeroed record. -/
def shortTitleRecord : Beatmap :=
  { zeroBeatmap with title := bytes "Song" ++ List.replicate 252 0, title_size := 4 }

/-- The line `0,500,4,2,0,100,1` of the scenario. -/
def scenarioTimingLine : TimingLine :=
  ⟨⟨false, bytes "0"⟩, bytes "500", ⟨false, bytes "4"⟩, bytes "2", bytes "0", bytes "100",
    ⟨false, bytes "1"⟩, []⟩

/-- A `[TimingPoints]` section with the line of the scenario, a blank line and a
`[Colours]` section. -/
def timingOnly : List Nat :=
  bytes "[TimingPoints]\r\n0,500,4,2,0,100,1\r\n\r\n[Colours]\r\nCombo1 : 255,0,0\r\n"

/-- A `[HitObjects]` section with a circle line that has a field after
`hitSound`, a spinner line and a slider line. -/
def threeHitObjects : List Nat :=
  bytes ("[HitObjects]\r\n100,100,1000,1,0,0:0:0:0:\r\n200,200,2000,8,0,3000\r\n" ++
    "256,192,3000,2,0,B|300:200|350:220,1,140.5\r\n")

/-- The lines of `threeHitObjects`. -/
def threeHitLines : List HitLine :=
  [⟨⟨false, bytes "100"⟩, ⟨false, bytes "100"⟩, ⟨false, bytes "1000"⟩, ⟨false, bytes "1"⟩,
      bytes "0", .circle (bytes "0:0:0:0:")⟩,
    ⟨⟨false, bytes "200"⟩, ⟨false, bytes "200"⟩, ⟨false, bytes "2000"⟩, ⟨false, bytes "8"⟩,
      bytes "0", .spinner ⟨false, bytes "3000"⟩ []⟩,
    ⟨⟨false, bytes "256"⟩, ⟨false, bytes "192"⟩, ⟨false, bytes "3000"⟩, ⟨false, bytes "2"⟩,
      bytes "0",
      .slider 66 124 [(⟨false, bytes "300"⟩, ⟨false, bytes "200"⟩),
        (⟨false, bytes "350"⟩, ⟨false, bytes "220"⟩)] ⟨false, bytes "1"⟩
        ⟨false, bytes "140", some (bytes "5")⟩ []⟩]

/-- A `[HitObjects]` section with one slider line whose first curve point has
a negative x coordinate. -/
def negativeCurve : List Nat :=
  bytes "[HitObjects]\r\n256,192,3000,2,0,B|-5:3|7:8,2,100\r\n"

/-- The record after the parse of `negativeCurve` into a zeroed record. -/
def negativeCurveRecord : Beatmap :=
  { zeroBeatmap with
    hit_objects := [⟨256, 192, 3000, 2, .slider 66 [⟨-5, 5⟩, ⟨3, 7⟩] 2 8 ⟨2, 0⟩⟩]
    hit_objects_count := 1
    _total_curve_points := [[⟨-5, 5⟩, ⟨3, 7⟩]]
    _total_curve_points_count := 1 }

/-- A spinner line with fields after `endTime`. -/
def spinnerLine : HitLine :=
  ⟨⟨false, bytes "256"⟩, ⟨false, bytes "192"⟩, ⟨false, bytes "2000"⟩, ⟨false, bytes "12"⟩,
    bytes "0", .spinner ⟨false, bytes "3000"⟩ (bytes ",0:0:0:0:")⟩

/-- A `[HitObjects]` section with a circle, a spinner, a slider, and a line
whose type has both the slider and the spinner bit. -/
def fourHitObjects : List Nat :=
  bytes ("[HitObjects]\r\n100,100,1000,1,0,0:0:0:0:\r\n200,200,2000,8,0,3000\r\n" ++
    "256,192,3000,2,0,B|300:200|350:220,1,140.5\r\n300,300,4000,10,0,L|310:320,1,50\r\n")

/-- The entries decoded from `fourHitObjects`. -/
def fourHitEntries : List HitObject :=
  [⟨100, 100, 1000, 1, .unset⟩, ⟨200, 200, 2000, 8, .spinner 3000⟩,
    ⟨256, 192, 3000, 2, .slider 66 [⟨300, 200⟩, ⟨350, 220⟩] 2 1 ⟨1405, -1⟩⟩,
    ⟨300, 300, 4000, 10, .slider 76 [⟨310, 320⟩] 1 1 ⟨50, 0⟩⟩]

/-- The record after the parse of `fourHitObjects` into a zeroed record. -/
def fourHitRecord : Beatmap :=
  { zeroBeatmap with
    hit_objects := fourHitEntries
    hit_objects_count := 4
    _total_curve_points := [[⟨300, 200⟩, ⟨350, 220⟩], [⟨310, 320⟩]]
    _total_curve_points_count := 2 }

/-- A `[HitObjects]` section with one slider line whose curve type is `X`. -/
def unknownCurve : List Nat :=
  bytes "[HitObjects]\r\n256,192,3000,2,0,X|300:200,1,140\r\n"

/-- The hit object decoded from the line of `unknownCurve`. -/
def unknownCurveHit : HitObject :=
  ⟨256, 192, 3000, 2, .slider 88 [⟨300, 200⟩] 1 1 ⟨140, 0⟩⟩

/-- The record after the parse of `unknownCurve` into a zeroed record. -/
def unknownCurveRecord : Beatmap :=
  { zeroBeatmap with
    hit_objects := [unknownCurveHit]
    hit_objects_count := 1
    _total_curve_points := [[⟨300, 200⟩]]
    _total_curve_points_count := 1 }

/-- A `[Metadata]` section with a `TitleUnicode` line before the `Title` line
and an `ArtistUnicode` line after the `Artist` line. -/
def unicodeKeys : List Nat :=
  bytes ("[Metadata]\r\nTitleUnicode:Uta\r\nTitle:Song\r\nArtist:Someone\r\n" ++
    "ArtistUnicode:Dareka\r\n")

/-- A header `[Generic]`, which is not a section name, and a `Mode` line. -/
def genericHeader : List Nat := bytes "[Generic]\r\nMode: 3\r\n"

/-- An `[Events]` section of three lines, then a `[General]` section. -/
def eventsThenGeneral : List Nat :=
  bytes ("[Events]\r\n//Background and Video events\r\n0,0,bg.jpg,0,0\r\n\r\n" ++
    "[General]\r\nMode: 1\r\n")

/-- A `[Metadata]` header directly after the `[General]` header. -/
def headerAfterHeader : List Nat := bytes "[General]\r\n[Metadata]\r\nTitle:Song\r\n"

/-- A `[General]` section with a `Mode` line and a blank line, then the
`[Metadata]` section. -/
def headerAfterBlank : List Nat := bytes "[General]\r\nMode: 1\r\n\r\n[Metadata]\r\nTitle:Song\r\n"

/-- A buffer without any `[`. -/
def noSection : List Nat := bytes "osu file format v14\r\n"

/-- A `[Metadata]` section whose `Title` line has no carriage return. -/
def titleWithoutReturn : List Nat := bytes "[Metadata]\r\nTitle:Song"

/-- A `[TimingPoints]` section whose only line has two commas. -/
def shortTimingLine : List Nat := bytes "[TimingPoints]\r\n0,500,4\r\n\r\n"

/-- A `[HitObjects]` section whose only line has one comma. -/
def shortHitLine : List Nat := bytes "[HitObjects]\r\n100,100\r\n"

/-- A `[General]` section whose last line has no line feed. -/
def lastLineOpen : List Nat := bytes "[General]\r\nMode: 1"

/-- A `[Difficulty]` section whose last line has no line feed. -/
def openDifficulty : List Nat := bytes "[Difficulty]\r\nCircleSize:4\r"

/-- A `[General]` section with the one-byte line `S` before the `Mode` line. -/
def shortLine : List Nat := bytes "[General]\r\nS\r\nMode: 3\r\n"

/-- A `[General]` section with a line `Magic: 7`, which names no key. -/
def misnamedKey : List Nat := bytes "[General]\r\nMagic: 7\r\n"

/-- A `[General]` section with a `SampleSet` line, which is no key of the
parser, before the `Mode` line. -/
def unknownKey : List Nat := bytes "[General]\r\nSampleSet: Normal\r\nMode: 3\r\n"

/-- A `[General]` section with `Countdown` and `CountdownOffset`, and a
`[Metadata]` section with `BeatmapID` and `BeatmapSetID`. -/
def stemKeys : List Nat :=
  bytes ("[General]\r\nCountdown: 1\r\nCountdownOffset: 5\r\n\r\n" ++
    "[Metadata]\r\nBeatmapID:12\r\nBeatmapSetID:34\r\n")

/-- A `[TimingPoints]` section with the line of the scenario and the blank
line, then a further line in timing-point format and a `[Colours]` header. -/
def timingThenLine : List Nat :=
  bytes "[TimingPoints]\r\n0,500,4,2,0,100,1\r\n\r\n10,250,4,2,0,100,1\r\n[Colours]\r\n"

/-- The first line of a file, before any section. -/
def formatLine : List Nat := bytes "osu file format v14\r\n\r\n"

/-- A `[General]` section and a `[Metadata]` section. -/
def generalAndMetadata : List Nat :=
  bytes "[General]\r\nMode: 1\r\n\r\n[Metadata]\r\nTitle:Song\r\n"

/-- A record as the caller might pass it, zeroed but for `circle_size`. -/
def presetCircleSize : Beatmap := { zeroBeatmap with circle_size := ⟨4, 0⟩ }

/-- The record after the parse of `formatLine ++ generalAndMetadata` into
`presetCircleSize`. -/
def generalAndMetadataRecord : Beatmap :=
  { presetCircleSize with
    mode := 1, title := bytes "Song" ++ List.replicate 252 0, title_size := 4 }

/-- A `[General]` section whose `Countdown` is one more than the largest `int`. -/
def countdownBeyondInt : List Nat := bytes "[General]\r\nCountdown: 2147483648\r\n"

/-- A `[Metadata]` section whose `BeatmapID` is the smallest `int`. -/
def smallestBeatmapID : List Nat := bytes "[Metadata]\r\nBeatmapID:-2147483648\r\n"

set_option maxRecDepth 100000

/-! ## The loop terminates -/

theorem skipLine_pos {p : List Nat} {k : Nat} (h : skipLine p = some k) : 0 < k := by
  unfold skipLine at h
  cases hs : scanTo 10 p with
  | none => simp [hs] at h
  | some j => simp [hs] at h; omega

theorem iteration_lt {buf : List Nat} {s s1 : State} (h : iteration buf s = .next s1) :
    s.i < s1.i := by
  unfold iteration at h
  split at h
  · simp at h
  · split at h
    · simp at h
    · simp at h
    · split at h
      · simp at h
      · rename_i k2 hk
        have := skipLine_pos hk
        simp at h
        subst h
        simp
        omega

theorem run_fuel (buf : List Nat) :
    ∀ (f f1 : Nat) (s : State), buf.length ≤ f + s.i → buf.length ≤ f1 + s.i →
      run buf f s = run buf f1 s := by
  intro f
  induction f with
  | zero =>
    intro f1 s h h1
    have hs : ¬ s.i < buf.length := by omega
    cases f1 <;> simp [run, hs]
  | succ f ih =>
    intro f1 s h h1
    by_cases hs : s.i < buf.length
    · cases f1 with
      | zero => omega
      | succ f1 =>
        simp only [run, hs, if_true]
        cases hit : iteration buf s with
        | next s1 =>
          have := iteration_lt hit
          simp only []
          exact ih f1 s1 (by omega) (by omega)
        | ret e out => rfl
        | undefined => rfl
        | timeout => rfl
    · cases f1 <;> simp [run, hs]

theorem run_passes (buf : List Nat) :
    ∀ (n : Nat) (s0 s : State) (f f1 : Nat), passes buf n s0 = .next s →
      buf.length ≤ f + s0.i → buf.length ≤ f1 + s.i → run buf f s0 = run buf f1 s := by
  intro n
  induction n with
  | zero =>
    intro s0 s f f1 hp h h1
    simp [passes] at hp
    subst hp
    exact run_fuel buf f f1 s0 h h1
  | succ n ih =>
    intro s0 s f f1 hp h h1
    by_cases hs : s0.i < buf.length
    · simp only [passes, hs, if_true] at hp
      cases hit : iteration buf s0 with
      | next s1 =>
        rw [hit] at hp
        simp only [] at hp
        have := iteration_lt hit
        cases f with
        | zero => omega
        | succ f =>
          simp only [run, hs, if_true, hit]
          exact ih s1 s f f1 hp (by omega) h1
      | ret e out => rw [hit] at hp; simp at hp
      | undefined => rw [hit] at hp; simp at hp
      | timeout => rw [hit] at hp; simp at hp
    · simp [passes, hs] at hp

theorem parse_of_reaches {buf : List Nat} {b : Beatmap} {s : State} (h : Reaches buf b s)
    (f : Nat) (hf : buf.length ≤ f + s.i) : FastOsuParser__Parse buf b = run buf f s := by
  obtain ⟨s0, n, h0, hp⟩ := h
  unfold FastOsuParser__Parse
  rw [h0]
  exact run_passes buf n s0 s buf.length f hp (by omega) hf

theorem reaches_pass {buf : List Nat} {b : Beatmap} {s s1 : State} (h : Reaches buf b s)
    (hi : s.i < buf.length) (hit : iteration buf s = .next s1) : Reaches buf b s1 := by
  obtain ⟨s0, n, h0, hp⟩ := h
  refine ⟨s0, n + 1, h0, ?_⟩
  have key : ∀ (n : Nat) (s0 : State), passes buf n s0 = .next s →
      passes buf (n + 1) s0 = .next s1 := by
    intro n
    induction n with
    | zero =>
      intro s0 hp
      simp [passes] at hp
      subst hp
      simp [passes, hi, hit]
    | succ n ih =>
      intro s0 hp
      by_cases hs : s0.i < buf.length
      · simp only [passes, hs, if_true] at hp
        cases hit0 : iteration buf s0 with
        | next s2 =>
          rw [hit0] at hp
          simp only [] at hp
          have := ih s2 hp
          rw [passes]
          simp only [hs, if_true, hit0]
          exact this
        | ret e out => rw [hit0] at hp; simp at hp
        | undefined => rw [hit0] at hp; simp at hp
        | timeout => rw [hit0] at hp; simp at hp
      · simp [passes, hs] at hp
  exact key n s0 hp

theorem parse_of_reaches_ret {buf : List Nat} {b : Beatmap} {s : State} (h : Reaches buf b s)
    (hi : s.i < buf.length) {e : Error} {r : Beatmap} (hit : iteration buf s = .ret e r) :
    FastOsuParser__Parse buf b = .ret e r := by
  rw [parse_of_reaches h (buf.length + 1) (by omega)]
  simp [run, hi, hit]

/-! ## Scanning lemmas -/

theorem scanTo_append (c : Nat) (l r : List Nat) (h : c ∉ l) :
    scanTo c (l ++ c :: r) = some l.length := by
  induction l with
  | nil => simp [scanTo]
  | cons a l ih =>
    simp only [List.mem_cons, not_or] at h
    have ha : a ≠ c := fun e => h.1 e.symm
    simp [scanTo, ha, ih h.2]

theorem drop_cons_add (a : Nat) (l : List Nat) (n k : Nat) :
    List.drop (n + 1 + k) (a :: l) = List.drop (n + k) l := by
  rw [Nat.add_right_comm]; rfl

theorem drop_add (buf : List Nat) (i k : Nat) : buf.drop (i + k) = (buf.drop i).drop k := by
  rw [List.drop_drop]

theorem sizeof_lit :
    sizeof "udio" = 5 ∧ sizeof "ilename: " = 10 ∧ sizeof "eadIn: " = 8 ∧ sizeof "ountdown" = 9 ∧
    sizeof " " = 2 ∧ sizeof "ffset: " = 8 ∧ sizeof "iency: " = 8 ∧ sizeof "ode: " = 6 ∧
    sizeof "tle" = 4 ∧ sizeof "tle:" = 5 ∧ sizeof "rtist" = 6 ∧ sizeof "rtist:" = 7 ∧
    sizeof "reator:" = 8 ∧ sizeof "ersion:" = 8 ∧ sizeof "eatmap" = 7 ∧ sizeof "D:" = 3 ∧
    sizeof "etID:" = 6 ∧ sizeof "PDrainRate:" = 12 ∧ sizeof "ircleSize:" = 11 ∧
    sizeof "verallDifficulty:" = 18 ∧ sizeof "pproachRate:" = 13 ∧ sizeof "lider" = 6 ∧
    sizeof "ultiplier:" = 11 ∧ sizeof "ickRate:" = 9 ∧ sizeof "eneral]\r\n" = 10 ∧
    sizeof "etadata]\r\n" = 11 ∧ sizeof "ifficulty]\r\n" = 13 ∧
    sizeof "imingPoints]\r\n" = 15 ∧ sizeof "itObjects]\r\n" = 13 := by
  decide

/-- One pass of the loop, written on the bytes `p` from the cursor on. -/
theorem iteration_eq {buf : List Nat} {s : State} {p : List Nat} (hp : buf.drop s.i = p) :
    iteration buf s =
      match newSection s.current_section p with
      | none => .undefined
      | some (sec, k) =>
        match caseSection sec (p.drop k) s.out with
        | none => .undefined
        | some (.ret e out) => .ret e out
        | some (.next sec1 k1 out) =>
          match skipLine (p.drop (k + k1)) with
          | none => .undefined
          | some k2 => .next ⟨sec1, s.i + k + k1 + k2, out⟩ := by
  subst hp
  unfold iteration
  simp only [drop_add, Nat.add_assoc]

theorem strKey_bytes (k : StrKey) : bytes k.text =
    match k with
    | .AudioFilename => [65, 117, 100, 105, 111, 70, 105, 108, 101, 110, 97, 109, 101, 58, 32]
    | .Title => [84, 105, 116, 108, 101, 58]
    | .Artist => [65, 114, 116, 105, 115, 116, 58]
    | .Creator => [67, 114, 101, 97, 116, 111, 114, 58]
    | .Version => [86, 101, 114, 115, 105, 111, 110, 58] := by
  cases k <;> decide

/-! ## Bounded strings -/

theorem scanTo_some {c : Nat} : ∀ {p : List Nat} {n : Nat}, scanTo c p = some n →
    ∃ rest, p = p.take n ++ c :: rest ∧ c ∉ p.take n ∧ (p.take n).length = n := by
  intro p
  induction p with
  | nil => intro n h; simp [scanTo] at h
  | cons a p ih =>
    intro n h
    by_cases ha : a = c
    · simp [scanTo, ha] at h
      subst h
      exact ⟨p, by simp [ha], by simp, by simp⟩
    · simp only [scanTo, ha, if_false] at h
      cases hs : scanTo c p with
      | none => simp [hs] at h
      | some m =>
        simp [hs] at h
        subst h
        obtain ⟨rest, h1, h2, h3⟩ := ih hs
        refine ⟨rest, ?_, ?_, ?_⟩
        · simp only [List.take_succ_cons, List.cons_append]
          rw [← h1]
        · simp only [List.take_succ_cons, List.mem_cons, not_or]
          exact ⟨fun e => ha e.symm, h2⟩
        · simp only [List.take_succ_cons, List.length_cons, h3]

theorem strFrame_same (p : List Nat) (out r : Beatmap)
    (h : ∀ k : StrKey, k.buffer r = k.buffer out ∧ k.size r = k.size out) : StrFrame p out r :=
  Or.inl h

theorem strFrame_store (k : StrKey) (p : List Nat) (out : Beatmap) (n : Nat) (src : List Nat)
    (hsel : k.selects p) (hsrc : p.drop k.skip = src) (hn : scanTo 13 src = some n)
    (hle : ¬ 255 < n) : StrFrame p out (k.store out (src.take n)) := by
  obtain ⟨rest, h1, h2, h3⟩ := scanTo_some hn
  refine Or.inr ⟨k, src.take n, rest, hsel, ?_, h2, by omega, rfl⟩
  rw [hsrc]; exact h1

theorem strFrame_store1 (k : StrKey) (m : Nat) (p : List Nat) (out r : Beatmap) (n : Nat)
    (hn : scanTo 13 (p.drop m) = some n) (hle : ¬ n > 255) (hm : k.skip = m) (hsel : k.selects p)
    (hr : ((p.drop m).take n).length = n → r = k.store out ((p.drop m).take n)) :
    StrFrame p out r := by
  subst hm
  obtain ⟨rest, h1, h2, h3⟩ := scanTo_some hn
  exact Or.inr ⟨k, (p.drop k.skip).take n, rest, hsel, h1, h2, by omega, hr h3⟩

theorem caseGeneral_strFrame {p : List Nat} {out : Beatmap} {st : Step}
    (h : caseGeneral p out = some st) : StrFrame p out st.out := by
  unfold caseGeneral at h
  simp only [sizeof_lit, intKey, floatKey, contentSize, Nat.reduceAdd] at h
  repeat' split at h
  all_goals first
    | (simp at h; done)
    | (simp only [Option.some.injEq] at h
       subst h
       first
        | (apply strFrame_same; intro k; cases k <;> exact ⟨rfl, rfl⟩)
        | (refine strFrame_store1 .AudioFilename 15 p out _ _ (by assumption) (by assumption) rfl ?_ ?_
           · simp_all [StrKey.selects]
           · intro h3
             simp only [Step.out, StrKey.store, memcpy, h3]))

theorem caseMetadata_strFrame {p : List Nat} {out : Beatmap} {st : Step}
    (h : caseMetadata p out = some st) : StrFrame p out st.out := by
  unfold caseMetadata at h
  simp only [sizeof_lit, intKey, floatKey, contentSize, Nat.reduceAdd] at h
  repeat' split at h
  all_goals first
    | (simp at h; done)
    | (simp only [Option.some.injEq] at h
       subst h
       first
        | (apply strFrame_same; intro k; cases k <;> exact ⟨rfl, rfl⟩)
        | (refine strFrame_store1 .Title 6 p out _ _ (by assumption) (by assumption) rfl ?_ ?_
           · simp_all [StrKey.selects]
           · intro h3
             simp only [Step.out, StrKey.store, memcpy, h3])
        | (refine strFrame_store1 .Artist 7 p out _ _ (by assumption) (by assumption) rfl ?_ ?_
           · simp_all [StrKey.selects]
           · intro h3
             simp only [Step.out, StrKey.store, memcpy, h3])
        | (refine strFrame_store1 .Creator 8 p out _ _ (by assumption) (by assumption) rfl ?_ ?_
           · simp_all [StrKey.selects]
           · intro h3
             simp only [Step.out, StrKey.store, memcpy, h3])
        | (refine strFrame_store1 .Version 8 p out _ _ (by assumption) (by assumption) rfl ?_ ?_
           · simp_all [StrKey.selects]
           · intro h3
             simp only [Step.out, StrKey.store, memcpy, h3]))

theorem caseDifficulty_strFrame {p : List Nat} {out : Beatmap} {st : Step}
    (h : caseDifficulty p out = some st) : StrFrame p out st.out := by
  unfold caseDifficulty at h
  simp only [sizeof_lit, intKey, floatKey, contentSize, Nat.reduceAdd] at h
  repeat' split at h
  all_goals first
    | (simp at h; done)
    | (simp only [Option.some.injEq] at h
       subst h
       apply strFrame_same; intro k; cases k <;> exact ⟨rfl, rfl⟩)

theorem caseSection_strFrame {sec : Section} {p : List Nat} {out : Beatmap} {st : Step}
    (h : caseSection sec p out = some st) : StrFrame p out st.out := by
  cases sec
  · simp only [caseSection, Option.some.injEq] at h
    subst h
    exact Or.inl fun k => ⟨rfl, rfl⟩
  · exact caseGeneral_strFrame h
  · exact caseMetadata_strFrame h
  · exact caseDifficulty_strFrame h
  · simp only [caseSection, caseTimingPoints] at h
    repeat' split at h
    all_goals first
      | (simp at h; done)
      | (simp only [Option.some.injEq] at h
         subst h
         apply strFrame_same; intro k; cases k <;> exact ⟨rfl, rfl⟩)
  · simp only [caseSection, caseHitObjects] at h
    repeat' split at h
    all_goals first
      | (simp at h; done)
      | (simp only [Option.some.injEq] at h
         subst h
         apply strFrame_same; intro k; cases k <;> exact ⟨rfl, rfl⟩)

theorem store_same (k : StrKey) (out : Beatmap) (content : List Nat) :
    (k.buffer (k.store out content)).take (k.size (k.store out content)) = content ∧
      k.size (k.store out content) = content.length := by
  cases k <;> simp [StrKey.buffer, StrKey.size, StrKey.store]

theorem store_other (k k0 : StrKey) (out : Beatmap) (content : List Nat) (h : k ≠ k0) :
    k.buffer (k0.store out content) = k.buffer out ∧
      k.size (k0.store out content) = k.size out := by
  cases k <;> cases k0 <;> first | exact absurd rfl h | exact ⟨rfl, rfl⟩

theorem strInv_frame {buf : List Nat} {b out r : Beatmap} (i : Nat)
    (hinv : StrInv buf b out) (hf : StrFrame (buf.drop i) out r) : StrInv buf b r := by
  intro k
  rcases hf with hsame | ⟨k0, content, rest, hsel, hdrop, hcr, hle, hr⟩
  · rcases hinv k with h | ⟨j, c, t, h1, h2, h3, h4, h5, h6⟩
    · exact Or.inl ⟨(hsame k).1.trans h.1, (hsame k).2.trans h.2⟩
    · refine Or.inr ⟨j, c, t, h1, h2, h3, ?_, h5, ?_⟩
      · rw [(hsame k).2]; exact h4
      · rw [(hsame k).1, (hsame k).2]; exact h6
  · subst hr
    by_cases hk : k = k0
    · subst hk
      refine Or.inr ⟨i, content, rest, hsel, ?_, hcr, (store_same k out content).2, hle,
        (store_same k out content).1⟩
      rw [drop_add]; exact hdrop
    · have ho := store_other k k0 out content hk
      rcases hinv k with h | ⟨j, c, t, h1, h2, h3, h4, h5, h6⟩
      · exact Or.inl ⟨ho.1.trans h.1, ho.2.trans h.2⟩
      · refine Or.inr ⟨j, c, t, h1, h2, h3, ?_, h5, ?_⟩
        · rw [ho.2]; exact h4
        · rw [ho.1, ho.2]; exact h6

theorem iteration_strInv {buf : List Nat} {b : Beatmap} {s : State} (hinv : StrInv buf b s.out) :
    (∀ s1, iteration buf s = .next s1 → StrInv buf b s1.out) ∧
    (∀ e r, iteration buf s = .ret e r → StrInv buf b r) := by
  unfold iteration
  split
  · simp
  · rename_i sec k hk
    split
    · simp
    · rename_i e out hc
      have := strInv_frame (s.i + k) hinv (caseSection_strFrame hc)
      constructor
      · intro s1 h; simp at h
      · intro e1 r h
        simp only [Res.ret.injEq] at h
        rw [← h.2]; exact this
    · rename_i sec1 k1 out hc
      have := strInv_frame (s.i + k) hinv (caseSection_strFrame hc)
      split
      · simp
      · constructor
        · intro s1 h
          simp only [Res.next.injEq] at h
          rw [← h]; exact this
        · intro e1 r h; simp at h

theorem run_strInv (buf : List Nat) (b : Beatmap) :
    ∀ (f : Nat) (s : State) (e : Error) (r : Beatmap), StrInv buf b s.out →
      run buf f s = .ret e r → StrInv buf b r := by
  intro f
  induction f with
  | zero =>
    intro s e r hinv h
    by_cases hs : s.i < buf.length
    · simp [run, hs] at h
    · simp only [run, hs, if_false, Res.ret.injEq] at h
      rw [← h.2]; exact hinv
  | succ f ih =>
    intro s e r hinv h
    by_cases hs : s.i < buf.length
    · simp only [run, hs, if_true] at h
      cases hit : iteration buf s with
      | next s1 =>
        rw [hit] at h
        exact ih s1 e r ((iteration_strInv hinv).1 s1 hit) h
      | ret e1 r1 =>
        rw [hit] at h
        simp only [Res.ret.injEq] at h
        rw [← h.2]
        exact (iteration_strInv hinv).2 e1 r1 hit
      | undefined => rw [hit] at h; simp at h
      | timeout => rw [hit] at h; simp at h
    · simp only [run, hs, if_false, Res.ret.injEq] at h
      rw [← h.2]; exact hinv

/-- C8 (bounded-string invariant).  After every parse that returns (with
`SUCCESS` in particular), each of the five string fields either is as the caller
passed it, or was populated by a line: its recorded size is the number of bytes
between the key delimiter and the carriage return of that line, is at most
255, and the first `size` bytes of the field are those bytes of the input. -/
theorem bounded_strings_after_parse (buf : List Nat) (b r : Beatmap)
    (h : FastOsuParser__Parse buf b = .ret .SUCCESS r) (k : StrKey) :
    (k.buffer r = k.buffer b ∧ k.size r = k.size b) ∨
    ∃ i content rest, k.selects (buf.drop i) ∧
      buf.drop (i + k.skip) = content ++ 13 :: rest ∧ 13 ∉ content ∧
      k.size r = content.length ∧ content.length ≤ 255 ∧
      (k.buffer r).take (k.size r) = content := by
  unfold FastOsuParser__Parse at h
  cases hs : start buf b with
  | none => rw [hs] at h; simp at h
  | some s0 =>
    rw [hs] at h
    have h0 : StrInv buf b s0.out := by
      unfold start at hs
      split at hs
      · simp at hs
      · simp only [Option.some.injEq] at hs
        subst hs
        intro k
        exact Or.inl (by cases k <;> exact ⟨rfl, rfl⟩)
    exact run_strInv buf b buf.length s0 .SUCCESS r h0 h k

/-! ## Numeric literals -/

theorem spanDigits_append (ds : List Nat) (c : Nat) (r : List Nat)
    (hd : ds.all isdigit = true) (hc : isdigit c = false) :
    spanDigits (ds ++ c :: r) = some (ds, c :: r) := by
  induction ds with
  | nil => simp [spanDigits, hc]
  | cons d ds ih =>
    simp only [List.all_cons, Bool.and_eq_true] at hd
    simp [spanDigits, hd.1, ih hd.2]

theorem skipSpaces_of_not_space (c : Nat) (r : List Nat) (h : isspace c = false) :
    skipSpaces (c :: r) = c :: r := by
  simp [skipSpaces, h]

theorem isdigit_not_space {c : Nat} (h : isdigit c = true) : isspace c = false := by
  simp only [isdigit, isspace, Bool.and_eq_true, decide_eq_true_eq, Bool.or_eq_false_iff,
    decide_eq_false_iff_not, Bool.and_eq_false_iff] at *
  omega

theorem isdigit_props {c : Nat} (h : isdigit c = true) : c ≠ 45 ∧ c ≠ 43 ∧ c ≠ 44 ∧ c ≠ 10 := by
  simp only [isdigit, Bool.and_eq_true, decide_eq_true_eq] at h
  omega

/-- `atoi` reads a well-formed literal that a non-digit follows. -/
theorem atoi_intLit (l : IntLit) (c : Nat) (r : List Nat) (hl : l.wf) (hc : isdigit c = false) :
    atoi (l.text ++ c :: r) = some l.val := by
  obtain ⟨hne, hd, hv⟩ := hl
  have hsp := spanDigits_append l.digits c r hd hc
  obtain ⟨d, ds, hds⟩ := List.exists_cons_of_ne_nil hne
  have hd0 : isdigit d = true := by
    rw [hds] at hd
    simp only [List.all_cons, Bool.and_eq_true] at hd
    exact hd.1
  have hns := isdigit_not_space hd0
  have hp := isdigit_props hd0
  unfold atoi IntLit.text IntLit.val
  cases hn : l.neg
  · simp only [Bool.false_eq_true, if_false, List.nil_append]
    have h1 : skipSpaces (l.digits ++ c :: r) = l.digits ++ c :: r := by
      rw [hds]; exact skipSpaces_of_not_space d _ hns
    have h2 : readSign (l.digits ++ c :: r) = some (false, l.digits ++ c :: r) := by
      rw [hds]; simp [readSign, hp.1, hp.2.1]
    rw [h1, h2]
    simp only [hsp, Bool.false_eq_true, if_false]
    have : (-2147483648 : Int) ≤ (decVal l.digits : Int) ∧ (decVal l.digits : Int) ≤ 2147483647 := by
      omega
    simp [this]
  · simp only [if_true, List.singleton_append, List.cons_append, List.nil_append]
    have h1 : skipSpaces (45 :: (l.digits ++ c :: r)) = 45 :: (l.digits ++ c :: r) :=
      skipSpaces_of_not_space 45 _ (by decide)
    rw [h1]
    simp only [readSign, if_true, hsp]
    have : (-2147483648 : Int) ≤ -(decVal l.digits : Int) ∧ -(decVal l.digits : Int) ≤ 2147483647 := by
      omega
    simp [this]

theorem intLit_text_not_mem (l : IntLit) (hl : l.wf) : 44 ∉ l.text ∧ 10 ∉ l.text ∧ l.text ≠ [] ∧
    l.text.head? ≠ some 13 := by
  obtain ⟨hne, hd, -⟩ := hl
  have hall : ∀ d ∈ l.digits, d ≠ 44 ∧ d ≠ 10 ∧ d ≠ 13 := by
    intro d hdm
    have := List.all_eq_true.mp hd d hdm
    simp only [isdigit, Bool.and_eq_true, decide_eq_true_eq] at this
    omega
  obtain ⟨d, ds, hds⟩ := List.exists_cons_of_ne_nil hne
  have hd13 : d ≠ 13 := (hall d (by rw [hds]; simp)).2.2
  unfold IntLit.text
  cases l.neg
  · simp only [Bool.false_eq_true, if_false, List.nil_append]
    refine ⟨fun h => (hall 44 h).1 rfl, fun h => (hall 10 h).2.1 rfl, hne, ?_⟩
    rw [hds]; simpa using hd13
  · simp only [if_true, List.singleton_append]
    refine ⟨?_, ?_, by simp, by simp⟩
    · intro h
      simp only [List.mem_cons] at h
      rcases h with h | h
      · omega
      · exact (hall 44 h).1 rfl
    · intro h
      simp only [List.mem_cons] at h
      rcases h with h | h
      · omega
      · exact (hall 10 h).2.1 rfl

/-! `atof` never leaves the buffer when a comma lies ahead. -/

theorem skipSpaces_mem : ∀ (p : List Nat), 44 ∈ p → 44 ∈ skipSpaces p := by
  intro p
  induction p with
  | nil => intro h; simp at h
  | cons a p ih =>
    intro h
    by_cases ha : isspace a = true
    · simp only [skipSpaces, ha, if_true]
      simp only [List.mem_cons] at h
      rcases h with h | h
      · subst h; simp [isspace] at ha
      · exact ih h
    · simp only [skipSpaces, ha]
      exact h

theorem readSign_mem {p : List Nat} (h : 44 ∈ p) :
    ∃ neg q, readSign p = some (neg, q) ∧ 44 ∈ q := by
  cases p with
  | nil => simp at h
  | cons a p =>
    simp only [readSign]
    by_cases h1 : a = 45
    · subst h1
      simp only [if_true]
      exact ⟨true, p, rfl, by simpa using h⟩
    · by_cases h2 : a = 43
      · subst h2
        simp only [if_true]
        exact ⟨false, p, by simp, by simpa using h⟩
      · simp only [h1, h2, if_false]
        exact ⟨false, a :: p, rfl, h⟩

theorem spanDigits_mem : ∀ (p : List Nat), 44 ∈ p →
    ∃ ds r, spanDigits p = some (ds, r) ∧ 44 ∈ r := by
  intro p
  induction p with
  | nil => intro h; simp at h
  | cons a p ih =>
    intro h
    by_cases ha : isdigit a = true
    · have h44 : 44 ∈ p := by
        simp only [List.mem_cons] at h
        rcases h with h | h
        · subst h; simp [isdigit] at ha
        · exact h
      obtain ⟨ds, r, h1, h2⟩ := ih h44
      exact ⟨a :: ds, r, by simp [spanDigits, ha, h1], h2⟩
    · exact ⟨[], a :: p, by simp [spanDigits, ha], h⟩

theorem readExponent_mem {p : List Nat} (h : 44 ∈ p) : ∃ e, readExponent p = some e := by
  cases p with
  | nil => simp at h
  | cons a p =>
    simp only [readExponent]
    by_cases ha : a = 101 ∨ a = 69
    · have h44 : 44 ∈ p := by
        simp only [List.mem_cons] at h
        rcases h with h | h
        · omega
        · exact h
      obtain ⟨neg, q, h1, h2⟩ := readSign_mem h44
      obtain ⟨ds, r, h3, -⟩ := spanDigits_mem q h2
      simp only [ha, if_true, h1, h3]
      by_cases hds : ds = []
      · exact ⟨0, by simp [hds]⟩
      · exact ⟨if neg = true then -(decVal ds : Int) else (decVal ds : Int), by simp only [hds, if_false]⟩
    · simp only [ha, if_false]
      exact ⟨0, rfl⟩

theorem atof_of_comma (p : List Nat) (h : 44 ∈ p) : ∃ v, atof p = some v := by
  obtain ⟨neg, q, h1, h2⟩ := readSign_mem (skipSpaces_mem p h)
  obtain ⟨ip, r, h3, h4⟩ := spanDigits_mem q h2
  unfold atof
  simp only [h1, h3]
  split
  · rename_i r1
    have h5 : 44 ∈ r1 := by simpa using h4
    obtain ⟨fp, r2, h6, h7⟩ := spanDigits_mem r1 h5
    obtain ⟨e, h8⟩ := readExponent_mem h7
    simp only [h6, h8]
    split
    · exact ⟨_, rfl⟩
    · exact ⟨_, rfl⟩
  · obtain ⟨e, h8⟩ := readExponent_mem h4
    simp only [h8]
    split
    · exact ⟨_, rfl⟩
    · exact ⟨_, rfl⟩

theorem skipComma_append (f r : List Nat) (h : 44 ∉ f) :
    skipComma (f ++ 44 :: r) = some (f.length + 1) := by
  simp [skipComma, scanTo_append 44 f r h]

theorem skipLine_append (f r : List Nat) (h : 10 ∉ f) :
    skipLine (f ++ 10 :: r) = some (f.length + 1) := by
  simp [skipLine, scanTo_append 10 f r h]

/-! ## The timing-point builder -/

theorem drop_field (f X : List Nat) : (f ++ 44 :: X).drop (f.length + 1) = X := by
  simp [List.drop_append]

theorem isTail_next (t r : List Nat) (h : isTail t) :
    ∃ c r1, t ++ 13 :: 10 :: r = c :: r1 ∧ isdigit c = false := by
  obtain ⟨h1, -⟩ := h
  cases t with
  | nil => exact ⟨13, 10 :: r, rfl, by decide⟩
  | cons a t =>
    rcases h1 with h1 | h1
    · simp at h1
    · simp only [List.head?_cons, Option.some.injEq] at h1
      subst h1
      exact ⟨44, t ++ 13 :: 10 :: r, rfl, by decide⟩

/-- One pass of the timing-point loop on a well-formed line consumes exactly
the line and decodes its integers. -/
theorem timingPoint_line (l : TimingLine) (hl : l.wf) (r : List Nat) :
    ∃ tp, timingPoint (l.text ++ r) = some (tp, l.text.length) ∧ tp.time = l.time.val ∧
      tp.meter = l.meter.val ∧ tp.b_uninherited = toChar l.uninherited.val := by
  obtain ⟨ht, hb, hm, hs1, hs2, hs3, hu, htl⟩ := hl
  have nt := intLit_text_not_mem l.time ht
  have nm := intLit_text_not_mem l.meter hm
  have nu := intLit_text_not_mem l.uninherited hu
  obtain ⟨c, r1, hc, hcd⟩ := isTail_next l.tail r htl
  have e0 : l.text ++ r = l.time.text ++ 44 :: (l.beat_length ++ 44 :: (l.meter.text ++ 44 ::
      (l.sample_set ++ 44 :: (l.sample_index ++ 44 :: (l.volume ++ 44 ::
        (l.uninherited.text ++ (l.tail ++ 13 :: 10 :: r))))))) := by
    simp [TimingLine.text]
  obtain ⟨v, hv⟩ := atof_of_comma (l.beat_length ++ 44 :: (l.meter.text ++ 44 ::
      (l.sample_set ++ 44 :: (l.sample_index ++ 44 :: (l.volume ++ 44 ::
        (l.uninherited.text ++ (l.tail ++ 13 :: 10 :: r))))))) (by simp)
  have hline : skipLine (l.uninherited.text ++ (l.tail ++ 13 :: 10 :: r)) =
      some ((l.uninherited.text ++ l.tail ++ [13]).length + 1) := by
    have := skipLine_append (l.uninherited.text ++ l.tail ++ [13]) r (by
      simp only [List.mem_append, List.mem_singleton, not_or]
      exact ⟨⟨nu.2.1, htl.2⟩, by decide⟩)
    simpa using this
  have hatoi : atoi (l.uninherited.text ++ (l.tail ++ 13 :: 10 :: r)) = some l.uninherited.val := by
    rw [hc]; exact atoi_intLit _ c r1 hu hcd
  refine ⟨⟨l.time.val, v, l.meter.val, toChar l.uninherited.val⟩, ?_, rfl, rfl, rfl⟩
  rw [e0]
  unfold timingPoint
  simp only [drop_add]
  rw [atoi_intLit _ 44 _ ht (by decide), skipComma_append _ _ nt.1]
  simp only [drop_field]
  rw [hv, skipComma_append _ _ hb.1]
  simp only [drop_field]
  rw [atoi_intLit _ 44 _ hm (by decide), skipComma_append _ _ nm.1]
  simp only [drop_field]
  rw [skipComma_append _ _ hs1.1]
  simp only [drop_field]
  rw [skipComma_append _ _ hs2.1]
  simp only [drop_field]
  rw [skipComma_append _ _ hs3.1]
  simp only [drop_field]
  rw [hatoi, hline]
  simp only [Option.some.injEq, Prod.mk.injEq, true_and, TimingLine.text, List.length_append,
    List.length_cons, List.length_nil, List.length_singleton]
  omega

theorem countTimingPoints_inner (body : List Nat) (r : List Nat) (n : Nat) (h : 10 ∉ body) :
    countTimingPoints (body ++ 10 :: r) false n = countTimingPoints r true (n + 1) := by
  induction body with
  | nil => simp [countTimingPoints]
  | cons a body ih =>
    simp only [List.mem_cons, not_or] at h
    have ha : a ≠ 10 := fun e => h.1 e.symm
    simp [countTimingPoints, ha, ih h.2]

theorem countTimingPoints_line (body : List Nat) (r : List Nat) (n : Nat) (h : 10 ∉ body)
    (hne : body ≠ []) (hh : body.head? ≠ some 13) :
    countTimingPoints (body ++ 10 :: r) true n = countTimingPoints r true (n + 1) := by
  cases body with
  | nil => exact absurd rfl hne
  | cons a body =>
    simp only [List.mem_cons, not_or] at h
    have ha : a ≠ 10 := fun e => h.1 e.symm
    have ha13 : a ≠ 13 := by simpa using hh
    simp [countTimingPoints, ha, ha13, countTimingPoints_inner body r n h.2]

theorem timingLine_body (l : TimingLine) (hl : l.wf) :
    ∃ body, l.text = body ++ [10] ∧ 10 ∉ body ∧ body ≠ [] ∧ body.head? ≠ some 13 := by
  obtain ⟨ht, hb, hm, hs1, hs2, hs3, hu, htl⟩ := hl
  have nt := intLit_text_not_mem l.time ht
  have nm := intLit_text_not_mem l.meter hm
  have nu := intLit_text_not_mem l.uninherited hu
  refine ⟨l.time.text ++ 44 :: (l.beat_length ++ 44 :: (l.meter.text ++ 44 :: (l.sample_set ++ 44 ::
    (l.sample_index ++ 44 :: (l.volume ++ 44 :: (l.uninherited.text ++ (l.tail ++ [13]))))))),
    by simp [TimingLine.text], ?_, by simp, ?_⟩
  · simp only [List.mem_append, List.mem_cons, List.mem_singleton, not_or, List.not_mem_nil,
      or_false]
    exact ⟨nt.2.1, by decide, hb.2, by decide, nm.2.1, by decide, hs1.2, by decide, hs2.2,
      by decide, hs3.2, by decide, nu.2.1, htl.2, by decide⟩
  · obtain ⟨a, t, hat⟩ := List.exists_cons_of_ne_nil nt.2.2.1
    have := nt.2.2.2
    rw [hat] at this ⊢
    simpa using this

theorem countTimingPoints_lines (lines : List TimingLine) (hl : ∀ l ∈ lines, l.wf)
    (r : List Nat) (n : Nat) :
    countTimingPoints ((lines.map TimingLine.text).flatten ++ 13 :: r) true n =
      some (n + lines.length) := by
  induction lines generalizing n with
  | nil => simp [countTimingPoints]
  | cons l lines ih =>
    obtain ⟨body, hb, h10, hne, hh⟩ := timingLine_body l (hl l (by simp))
    have := countTimingPoints_line body ((lines.map TimingLine.text).flatten ++ 13 :: r) n h10 hne hh
    simp only [List.map_cons, List.flatten_cons, hb, List.append_assoc, List.singleton_append,
      List.length_cons, List.cons_append, List.nil_append]
    rw [this, ih (fun l hm => hl l (by simp [hm]))]
    congr 1
    omega

theorem fillTimingPoints_lines (lines : List TimingLine) (hl : ∀ l ∈ lines, l.wf)
    (r : List Nat) :
    ∃ tps, fillTimingPoints lines.length ((lines.map TimingLine.text).flatten ++ r) =
        some (tps, (lines.map TimingLine.text).flatten.length) ∧
      tps.length = lines.length ∧
      tps.map (·.time) = lines.map (·.time.val) ∧
      tps.map (·.meter) = lines.map (·.meter.val) ∧
      tps.map (·.b_uninherited) = lines.map (fun l => toChar l.uninherited.val) := by
  induction lines with
  | nil => exact ⟨[], by simp [fillTimingPoints]⟩
  | cons l lines ih =>
    obtain ⟨tp, h1, h2, h3, h4⟩ :=
      timingPoint_line l (hl l (by simp)) ((lines.map TimingLine.text).flatten ++ r)
    obtain ⟨tps, h5, h6, h7, h8, h9⟩ := ih (fun l hm => hl l (by simp [hm]))
    refine ⟨tp :: tps, ?_, by simp [h6], by simp [h2, h7], by simp [h3, h8], by simp [h4, h9]⟩
    simp only [List.map_cons, List.flatten_cons, List.append_assoc, List.length_cons,
      fillTimingPoints, h1, List.drop_left, h5, List.length_append]

theorem bytes_lit :
    bytes "[TimingPoints]\r\n" =
      [91, 84, 105, 109, 105, 110, 103, 80, 111, 105, 110, 116, 115, 93, 13, 10] ∧
    bytes "[HitObjects]\r\n" = [91, 72, 105, 116, 79, 98, 106, 101, 99, 116, 115, 93, 13, 10] ∧
    bytes "\r\n" = [13, 10] := by
  decide

/-- The pass of the loop that meets the `[TimingPoints]` header runs the whole
builder: it fills one entry per line and stops behind the blank line. -/
theorem iteration_timingPoints (buf : List Nat) (s : State) (lines : List TimingLine)
    (rest : List Nat)
    (hline : buf.drop s.i = bytes "[TimingPoints]\r\n" ++ (lines.map TimingLine.text).flatten ++
      bytes "\r\n" ++ rest)
    (hl : ∀ l ∈ lines, l.wf) :
    ∃ tps, iteration buf s = .next ⟨.SECTION_NONE,
        s.i + (16 + (lines.map TimingLine.text).flatten.length + 2),
        { s.out with timing_points := tps, timing_points_count := lines.length }⟩ ∧
      tps.length = lines.length := by
  obtain ⟨tps, h1, h2, -⟩ := fillTimingPoints_lines lines hl (13 :: 10 :: rest)
  have h0 := countTimingPoints_lines lines hl (10 :: rest) 0
  refine ⟨tps, ?_, h2⟩
  simp only [bytes_lit] at hline
  rw [iteration_eq hline]
  simp [newSection, sectionHeader, sizeof_lit, caseSection, caseTimingPoints, h0, h1, skipLine,
    scanTo, drop_cons_add, List.drop_append]
  omega

theorem noTimingHeader_drop : ∀ (rest : List Nat), noTimingHeader rest = true →
    ∀ j, ¬ ((rest.drop j)[0]? = some 91 ∧ (rest.drop j)[1]? = some 84) := by
  intro rest
  induction rest with
  | nil => intro _ j; simp
  | cons a rest ih =>
    intro h j
    simp only [noTimingHeader, Bool.and_eq_true, Bool.not_eq_true', Bool.and_eq_false_iff] at h
    cases j with
    | zero =>
      intro ⟨h1, h2⟩
      simp only [List.drop_zero, List.getElem?_cons_zero, Option.some.injEq] at h1
      simp only [List.drop_zero, List.getElem?_cons_succ] at h2
      subst h1
      rcases h.1 with h3 | h3
      · simp at h3
      · cases rest with
        | nil => simp at h2
        | cons b rest =>
          simp only [List.getElem?_cons_zero, Option.some.injEq] at h2
          subst h2
          simp at h3
    | succ j =>
      simp only [List.drop_succ_cons]
      exact ih h.2 j

theorem caseSection_tpFrame {sec : Section} {p : List Nat} {out : Beatmap} {st : Step}
    (hsec : sec ≠ .SECTION_TIMING_POINTS) (h : caseSection sec p out = some st) :
    st.out.timing_points = out.timing_points ∧
      st.out.timing_points_count = out.timing_points_count ∧
      ∀ sec1 k r, st = .next sec1 k r → sec1 ≠ .SECTION_TIMING_POINTS := by
  cases sec
  · simp only [caseSection, Option.some.injEq] at h
    subst h
    simp [Step.out]
  · simp only [caseSection, caseGeneral, sizeof_lit, intKey, floatKey, contentSize] at h
    repeat' split at h
    all_goals first
      | (simp at h; done)
      | (simp only [Option.some.injEq] at h
         subst h
         simp [Step.out])
  · simp only [caseSection, caseMetadata, sizeof_lit, intKey, floatKey, contentSize] at h
    repeat' split at h
    all_goals first
      | (simp at h; done)
      | (simp only [Option.some.injEq] at h
         subst h
         simp [Step.out])
  · simp only [caseSection, caseDifficulty, sizeof_lit, intKey, floatKey, contentSize] at h
    repeat' split at h
    all_goals first
      | (simp at h; done)
      | (simp only [Option.some.injEq] at h
         subst h
         simp [Step.out])
  · exact absurd rfl hsec
  · simp only [caseSection, caseHitObjects] at h
    repeat' split at h
    all_goals first
      | (simp at h; done)
      | (simp only [Option.some.injEq] at h
         subst h
         simp [Step.out])

theorem newSection_ne_tp {sec sec1 : Section} {p : List Nat} {k : Nat}
    (hsec : sec ≠ .SECTION_TIMING_POINTS) (hp : ¬ (p[0]? = some 91 ∧ p[1]? = some 84))
    (h : newSection sec p = some (sec1, k)) : sec1 ≠ .SECTION_TIMING_POINTS := by
  unfold newSection at h
  split at h
  · simp at h
  · rename_i c hc
    split at h
    · rename_i h91
      subst h91
      split at h
      · simp at h
      · rename_i c1 hc1
        have hne : c1 ≠ 84 := fun e => hp ⟨hc, by rw [hc1, e]⟩
        simp only [Option.some.injEq] at h
        unfold sectionHeader at h
        repeat' split at h
        all_goals first
          | (exact absurd ‹c1 = 84› hne)
          | (simp only [Prod.mk.injEq] at h; rw [← h.1]; simp)
    · simp only [Option.some.injEq, Prod.mk.injEq] at h
      rw [← h.1]; exact hsec

/-- Past the timing-point block no pass changes `timing_points` as long as no
`[T` header follows. -/
theorem iteration_tpInv {buf : List Nat} {s : State}
    (hsec : s.current_section ≠ .SECTION_TIMING_POINTS)
    (hp : ¬ ((buf.drop s.i)[0]? = some 91 ∧ (buf.drop s.i)[1]? = some 84)) :
    (∀ s1, iteration buf s = .next s1 →
      s1.current_section ≠ .SECTION_TIMING_POINTS ∧
      s1.out.timing_points = s.out.timing_points ∧
      s1.out.timing_points_count = s.out.timing_points_count) ∧
    (∀ e r, iteration buf s = .ret e r →
      r.timing_points = s.out.timing_points ∧
      r.timing_points_count = s.out.timing_points_count) := by
  unfold iteration
  split
  · simp
  · rename_i sec k hk
    have hsec1 := newSection_ne_tp hsec hp hk
    split
    · simp
    · rename_i e out hc
      have := caseSection_tpFrame hsec1 hc
      constructor
      · intro s1 h; simp at h
      · intro e1 r h
        simp only [Res.ret.injEq] at h
        rw [← h.2]; exact ⟨this.1, this.2.1⟩
    · rename_i sec1 k1 out hc
      have := caseSection_tpFrame hsec1 hc
      split
      · simp
      · constructor
        · intro s1 h
          simp only [Res.next.injEq] at h
          rw [← h]
          exact ⟨this.2.2 sec1 k1 out rfl, this.1, this.2.1⟩
        · intro e1 r h; simp at h

theorem run_tpInv (buf : List Nat) (i0 : Nat)
    (hno : ∀ j, i0 ≤ j → ¬ ((buf.drop j)[0]? = some 91 ∧ (buf.drop j)[1]? = some 84)) :
    ∀ (f : Nat) (s : State) (e : Error) (r : Beatmap), i0 ≤ s.i →
      s.current_section ≠ .SECTION_TIMING_POINTS → run buf f s = .ret e r →
      r.timing_points = s.out.timing_points ∧
        r.timing_points_count = s.out.timing_points_count := by
  intro f
  induction f with
  | zero =>
    intro s e r hi hsec h
    by_cases hs : s.i < buf.length
    · simp [run, hs] at h
    · simp only [run, hs, if_false, Res.ret.injEq] at h
      rw [← h.2]; exact ⟨rfl, rfl⟩
  | succ f ih =>
    intro s e r hi hsec h
    by_cases hs : s.i < buf.length
    · simp only [run, hs, if_true] at h
      have hinv := iteration_tpInv hsec (hno s.i hi)
      cases hit : iteration buf s with
      | next s1 =>
        rw [hit] at h
        obtain ⟨h1, h2, h3⟩ := hinv.1 s1 hit
        have hlt := iteration_lt hit
        have := ih s1 e r (by omega) h1 h
        exact ⟨this.1.trans h2, this.2.trans h3⟩
      | ret e1 r1 =>
        rw [hit] at h
        simp only [Res.ret.injEq] at h
        rw [← h.2]
        exact hinv.2 e1 r1 hit
      | undefined => rw [hit] at h; simp at h
      | timeout => rw [hit] at h; simp at h
    · simp only [run, hs, if_false, Res.ret.injEq] at h
      rw [← h.2]; exact ⟨rfl, rfl⟩

/-- C5 (count of timing points).  Let the parse of `buf` reach a line
`[TimingPoints]` that is followed by well-formed CRLF-terminated lines and
then a blank line.  The pass that meets the header fills exactly one entry per
line and sets `timing_points_count` to the number of those lines (0 when the
blank line follows the header at once); and if no further `[T` header follows
the blank line, every record the parse returns has that count and that many
entries. -/
theorem timing_points_count_eq (buf : List Nat) (b : Beatmap) (s : State)
    (lines : List TimingLine) (rest : List Nat)
    (hreach : Reaches buf b s)
    (hline : buf.drop s.i = bytes "[TimingPoints]\r\n" ++ (lines.map TimingLine.text).flatten ++
      bytes "\r\n" ++ rest)
    (hl : ∀ l ∈ lines, l.wf) :
    (∃ s1, Reaches buf b s1 ∧ iteration buf s = .next s1 ∧ buf.drop s1.i = rest ∧
      s1.out.timing_points_count = lines.length ∧
      s1.out.timing_points.length = lines.length) ∧
    (noTimingHeader rest = true → ∀ e r, FastOsuParser__Parse buf b = .ret e r →
      r.timing_points_count = lines.length ∧ r.timing_points.length = lines.length) := by
  obtain ⟨tps, hit, hlen⟩ := iteration_timingPoints buf s lines rest hline hl
  have hlt : s.i < buf.length := by
    by_contra hge
    have : buf.drop s.i = [] := List.drop_eq_nil_of_le (by omega)
    rw [this] at hline
    simp [bytes_lit] at hline
  have hdrop : buf.drop (s.i + (16 + (lines.map TimingLine.text).flatten.length + 2)) = rest := by
    rw [drop_add, hline]
    apply List.drop_left'
    simp only [List.length_append, bytes_lit, List.length_cons, List.length_nil]
  have hreach1 := reaches_pass hreach hlt hit
  refine ⟨⟨_, hreach1, hit, hdrop, rfl, hlen⟩, ?_⟩
  intro hno e r hparse
  rw [parse_of_reaches hreach1 buf.length (by simp)] at hparse
  have hno1 := noTimingHeader_drop rest hno
  have := run_tpInv buf (s.i + (16 + (lines.map TimingLine.text).flatten.length + 2))
    (fun j hj => by
      obtain ⟨d, rfl⟩ := Nat.exists_eq_add_of_le hj
      rw [drop_add, hdrop]
      exact hno1 d)
    buf.length _ e r (Nat.le_refl _) (by simp) hparse
  simp only at this
  rw [this.1, this.2]
  exact ⟨rfl, hlen⟩

/-! ## Curve points -/

theorem dropWhile_ne_append (c : Nat) (l r : List Nat) (h : c ∉ l) :
    (l ++ c :: r).dropWhile (· != c) = c :: r := by
  induction l with
  | nil => simp [List.dropWhile]
  | cons a l ih =>
    simp only [List.mem_cons, not_or] at h
    have ha : (a != c) = true := by simpa using fun e => h.1 (Eq.symm e)
    rw [List.cons_append, List.dropWhile_cons, ha]
    exact ih h.2

theorem skipComma_some {p : List Nat} {k : Nat} (h : skipComma p = some k) :
    p.drop k = afterComma p := by
  unfold skipComma at h
  cases hs : scanTo 44 p with
  | none => simp [hs] at h
  | some n =>
    simp only [hs, Option.map_some', Option.some.injEq] at h
    subst h
    obtain ⟨rest, h1, h2, h3⟩ := scanTo_some hs
    unfold afterComma
    have e1 : p.drop (n + 1) = rest := by
      conv_lhs => rw [h1]
      have e2 : List.take n p ++ 44 :: rest = (List.take n p ++ [44]) ++ rest := by simp
      rw [e2]
      apply List.drop_left'
      simp [h3]
    rw [e1]
    conv_lhs => rw [← List.drop_zero rest]
    rw [h1, dropWhile_ne_append 44 _ rest h2]
    rfl

theorem countCurvePoints_some : ∀ {q : List Nat} {n : Nat}, countCurvePoints q = some n →
    n = (q.takeWhile (· != 44)).count 58 := by
  intro q
  induction q with
  | nil => intro n h; simp [countCurvePoints] at h
  | cons a q ih =>
    intro n h
    by_cases ha : a = 44
    · subst ha
      simp [countCurvePoints] at h
      subst h
      simp [List.takeWhile]
    · simp only [countCurvePoints, ha, if_false] at h
      cases hc : countCurvePoints q with
      | none => simp [hc] at h
      | some m =>
        simp only [hc, Option.map_some', Option.some.injEq] at h
        have hm := ih hc
        have : (a != 44) = true := by simp [ha]
        simp only [List.takeWhile, this]
        by_cases h58 : a = 58
        · subst h58
          simp only [if_true] at h
          rw [List.count_cons_self, ← hm, ← h]
        · simp only [h58, if_false] at h
          rw [List.count_cons_of_ne (fun e => h58 e.symm), ← hm, ← h]

theorem fillCurvePoints_length : ∀ (n : Nat) {q : List Nat} {cps : List CurvePoint} {k : Nat},
    fillCurvePoints n q = some (cps, k) → cps.length = n := by
  intro n
  induction n with
  | zero =>
    intro q cps k h
    simp only [fillCurvePoints, Option.some.injEq, Prod.mk.injEq] at h
    rw [← h.1]; rfl
  | succ n ih =>
    intro q cps k h
    unfold fillCurvePoints at h
    repeat' split at h
    all_goals first
      | (simp at h; done)
      | (simp only [Option.some.injEq, Prod.mk.injEq] at h
         rename_i hf
         rw [← h.1, List.length_cons, ih hf])

theorem objectParams_slider {type : Int} {q : List Nat} {params : ObjectParams} {k : Nat}
    (hbit : bitAnd type 2 = true) (h : objectParams type q = some (params, k)) :
    ∃ ct cps n sl len, params = .slider ct cps n sl len ∧
      n = ((q.drop 2).takeWhile (· != 44)).count 58 ∧ cps.length = n := by
  unfold objectParams at h
  simp only [hbit, if_true] at h
  unfold sliderParams at h
  repeat' split at h
  all_goals first
    | (simp at h; done)
    | (simp only [Option.some.injEq, Prod.mk.injEq] at h
       exact ⟨_, _, _, _, _, h.1.symm, countCurvePoints_some (by assumption),
         fillCurvePoints_length _ (by assumption)⟩)

/-- Shape of a successful pass of the loop over `ho`: the payload is decoded
at the bytes after the fifth comma, with the decoded `type`. -/
theorem hitObject_some {p : List Nat} {h : HitObject} {k : Nat}
    (hd : hitObject p = some (h, k)) :
    ∃ k6, objectParams h.type (afterComma (afterComma (afterComma (afterComma (afterComma p))))) =
      some (h.object_params, k6) := by
  unfold hitObject at hd
  repeat' split at hd
  all_goals first
    | (simp at hd; done)
    | (simp only [Option.some.injEq, Prod.mk.injEq] at hd
       rename_i k1 _ hk1 _ _ _ k2 _ hk2 _ _ _ k3 _ hk3 _ _ _ k4 _ hk4 _ k5 hk5 _ _ k6 hp _ _ _
       obtain ⟨hd1, -⟩ := hd
       subst hd1
       refine ⟨k6, ?_⟩
       simp only [drop_add] at hk2 hk3 hk4 hk5 hp
       rw [skipComma_some hk1] at hk2 hk3 hk4 hk5 hp
       rw [skipComma_some hk2] at hk3 hk4 hk5 hp
       rw [skipComma_some hk3] at hk4 hk5 hp
       rw [skipComma_some hk4] at hk5 hp
       rw [skipComma_some hk5] at hp
       exact hp)

theorem hitObject_slider {p : List Nat} {h : HitObject} {k : Nat}
    (hd : hitObject p = some (h, k)) (hbit : bitAnd h.type 2 = true) :
    ∃ ct cps n sl len, h.object_params = .slider ct cps n sl len ∧
      n = (curvePointField p).count 58 ∧ cps.length = n := by
  obtain ⟨k6, hp⟩ := hitObject_some hd
  exact objectParams_slider hbit hp

theorem fillHitObjects_mem : ∀ (n : Nat) {p : List Nat} {hs : List HitObject} {k : Nat},
    fillHitObjects n p = some (hs, k) →
    ∀ h ∈ hs, ∃ j k1, hitObject (p.drop j) = some (h, k1) := by
  intro n
  induction n with
  | zero =>
    intro p hs k hf h hm
    simp only [fillHitObjects, Option.some.injEq, Prod.mk.injEq] at hf
    rw [← hf.1] at hm
    simp at hm
  | succ n ih =>
    intro p hs k hf h hm
    unfold fillHitObjects at hf
    split at hf
    · simp at hf
    · rename_i h0 k0 hh
      split at hf
      · simp at hf
      · rename_i hs1 k1 hf1
        simp only [Option.some.injEq, Prod.mk.injEq] at hf
        rw [← hf.1] at hm
        simp only [List.mem_cons] at hm
        rcases hm with hm | hm
        · subst hm
          exact ⟨0, k0, by simpa using hh⟩
        · obtain ⟨j, k2, hj⟩ := ih hf1 h hm
          exact ⟨k0 + j, k2, by rw [drop_add]; exact hj⟩

theorem caseSection_hitFrame {sec : Section} {p : List Nat} {out : Beatmap} {st : Step}
    (h : caseSection sec p out = some st) :
    st.out.hit_objects = out.hit_objects ∨
      ∃ n k, fillHitObjects n p = some (st.out.hit_objects, k) := by
  cases sec
  · simp only [caseSection, Option.some.injEq] at h
    subst h
    exact Or.inl rfl
  · simp only [caseSection, caseGeneral, sizeof_lit, intKey, floatKey, contentSize] at h
    repeat' split at h
    all_goals first
      | (simp at h; done)
      | (simp only [Option.some.injEq] at h
         subst h
         exact Or.inl rfl)
  · simp only [caseSection, caseMetadata, sizeof_lit, intKey, floatKey, contentSize] at h
    repeat' split at h
    all_goals first
      | (simp at h; done)
      | (simp only [Option.some.injEq] at h
         subst h
         exact Or.inl rfl)
  · simp only [caseSection, caseDifficulty, sizeof_lit, intKey, floatKey, contentSize] at h
    repeat' split at h
    all_goals first
      | (simp at h; done)
      | (simp only [Option.some.injEq] at h
         subst h
         exact Or.inl rfl)
  · simp only [caseSection, caseTimingPoints] at h
    repeat' split at h
    all_goals first
      | (simp at h; done)
      | (simp only [Option.some.injEq] at h
         subst h
         exact Or.inl rfl)
  · simp only [caseSection, caseHitObjects] at h
    repeat' split at h
    all_goals first
      | (simp at h; done)
      | (simp only [Option.some.injEq] at h
         subst h
         exact Or.inr ⟨_, _, by assumption⟩)

theorem hitInv_frame {buf : List Nat} {b out r : Beatmap} (i : Nat) (hinv : HitInv buf b out)
    (hf : r.hit_objects = out.hit_objects ∨
      ∃ n k, fillHitObjects n (buf.drop i) = some (r.hit_objects, k)) : HitInv buf b r := by
  rcases hf with hf | ⟨n, k, hf⟩
  · rcases hinv with h | ⟨j, n, k, h⟩
    · exact Or.inl (hf.trans h)
    · exact Or.inr ⟨j, n, k, by rw [hf]; exact h⟩
  · exact Or.inr ⟨i, n, k, hf⟩

theorem iteration_hitInv {buf : List Nat} {b : Beatmap} {s : State} (hinv : HitInv buf b s.out) :
    (∀ s1, iteration buf s = .next s1 → HitInv buf b s1.out) ∧
    (∀ e r, iteration buf s = .ret e r → HitInv buf b r) := by
  unfold iteration
  split
  · simp
  · rename_i sec k hk
    split
    · simp
    · rename_i e out hc
      have := hitInv_frame (s.i + k) hinv (caseSection_hitFrame hc)
      constructor
      · intro s1 h; simp at h
      · intro e1 r h
        simp only [Res.ret.injEq] at h
        rw [← h.2]; exact this
    · rename_i sec1 k1 out hc
      have := hitInv_frame (s.i + k) hinv (caseSection_hitFrame hc)
      split
      · simp
      · constructor
        · intro s1 h
          simp only [Res.next.injEq] at h
          rw [← h]; exact this
        · intro e1 r h; simp at h

theorem run_hitInv (buf : List Nat) (b : Beatmap) :
    ∀ (f : Nat) (s : State) (e : Error) (r : Beatmap), HitInv buf b s.out →
      run buf f s = .ret e r → HitInv buf b r := by
  intro f
  induction f with
  | zero =>
    intro s e r hinv h
    by_cases hs : s.i < buf.length
    · simp [run, hs] at h
    · simp only [run, hs, if_false, Res.ret.injEq] at h
      rw [← h.2]; exact hinv
  | succ f ih =>
    intro s e r hinv h
    by_cases hs : s.i < buf.length
    · simp only [run, hs, if_true] at h
      cases hit : iteration buf s with
      | next s1 =>
        rw [hit] at h
        exact ih s1 e r ((iteration_hitInv hinv).1 s1 hit) h
      | ret e1 r1 =>
        rw [hit] at h
        simp only [Res.ret.injEq] at h
        rw [← h.2]
        exact (iteration_hitInv hinv).2 e1 r1 hit
      | undefined => rw [hit] at h; simp at h
      | timeout => rw [hit] at h; simp at h
    · simp only [run, hs, if_false, Res.ret.injEq] at h
      rw [← h.2]; exact hinv

/-- Every hit object of a returned record, when the caller passed none, was
decoded by a pass of the loop over `ho` at some cursor of the buffer. -/
theorem parse_hit_objects (buf : List Nat) (b r : Beatmap) (e : Error)
    (hb : b.hit_objects = []) (h : FastOsuParser__Parse buf b = .ret e r) :
    ∀ ho ∈ r.hit_objects, ∃ i k, hitObject (buf.drop i) = some (ho, k) := by
  unfold FastOsuParser__Parse at h
  cases hs : start buf b with
  | none => rw [hs] at h; simp at h
  | some s0 =>
    rw [hs] at h
    have h0 : HitInv buf b s0.out := by
      unfold start at hs
      split at hs
      · simp at hs
      · simp only [Option.some.injEq] at hs
        subst hs
        exact Or.inl rfl
    intro ho hm
    rcases run_hitInv buf b buf.length s0 e r h0 h with h1 | ⟨i, n, k, h1⟩
    · rw [h1, hb] at hm; simp at hm
    · obtain ⟨j, k1, hj⟩ := fillHitObjects_mem n h1 ho hm
      exact ⟨i + j, k1, by rw [drop_add]; exact hj⟩

/-- C6 (curve-point count).  For every slider hit object of a record the
parse returns (type has bit value 2 set), decoded from the line at cursor `i`:
the payload is the slider payload, `curve_points_count` is the number of `:`
bytes in the curve-point field of that line (the span from the byte after
`curveType|` up to the next comma), and that many curve points were filled. -/
theorem curve_points_count_eq (buf : List Nat) (b r : Beatmap) (e : Error)
    (hb : b.hit_objects = []) (h : FastOsuParser__Parse buf b = .ret e r)
    (ho : HitObject) (hm : ho ∈ r.hit_objects) (hbit : bitAnd ho.type 0b00000010 = true) :
    ∃ i k ct cps n sl len, hitObject (buf.drop i) = some (ho, k) ∧
      ho.object_params = .slider ct cps n sl len ∧
      n = (curvePointField (buf.drop i)).count 58 ∧ cps.length = n := by
  obtain ⟨i, k, hd⟩ := parse_hit_objects buf b r e hb h ho hm
  obtain ⟨ct, cps, n, sl, len, h1, h2, h3⟩ := hitObject_slider hd hbit
  exact ⟨i, k, ct, cps, n, sl, len, hd, h1, h2, h3⟩

/-! ## Reaching a line -/

theorem reaches_of_reached {buf : List Nat} {b : Beatmap} (n : Nat) {s : State}
    (h : reached buf b n = some s) : Reaches buf b s := by
  unfold reached at h
  split at h
  · simp at h
  · rename_i s0 h0
    split at h
    · rename_i s1 hp
      simp only [Option.some.injEq] at h
      subst h
      exact ⟨s0, n, h0, hp⟩
    · simp at h

theorem switches_of_reached {buf : List Nat} {b : Beatmap} (n : Nat) (s : State) {sec : Section}
    (k : Nat) (h : reached buf b n = some s) (hi : s.i < buf.length)
    (hn : newSection s.current_section (buf.drop s.i) = some (sec, k)) :
    Switches buf b sec (s.i + k) s.out :=
  ⟨s, k, reaches_of_reached n h, hi, hn, rfl, rfl⟩

theorem switches_ret {buf : List Nat} {b : Beatmap} {sec : Section} {j : Nat} {out r : Beatmap}
    {e : Error} (h : Switches buf b sec j out)
    (hc : caseSection sec (buf.drop j) out = some (.ret e r)) :
    FastOsuParser__Parse buf b = .ret e r := by
  obtain ⟨s, k, hr, hi, hn, hj, ho⟩ := h
  subst hj ho
  apply parse_of_reaches_ret hr hi
  unfold iteration
  simp only [hn, hc]

theorem switches_next {buf : List Nat} {b : Beatmap} {sec sec1 : Section} {j k1 k2 : Nat}
    {out out1 : Beatmap} (h : Switches buf b sec j out)
    (hc : caseSection sec (buf.drop j) out = some (.next sec1 k1 out1))
    (hl : skipLine (buf.drop (j + k1)) = some k2) :
    Reaches buf b ⟨sec1, j + k1 + k2, out1⟩ := by
  obtain ⟨s, k, hr, hi, hn, hj, ho⟩ := h
  subst hj ho
  apply reaches_pass hr hi
  unfold iteration
  simp only [hn, hc, hl]

theorem caseSection_strKey_long (k : StrKey) (p : List Nat) (out : Beatmap)
    (content rest : List Nat) (hline : p = bytes k.text ++ content ++ 13 :: rest)
    (hcr : 13 ∉ content) (hlen : 255 < content.length) :
    caseSection k.sec p out = some (.ret k.tooLong out) := by
  have hsc := scanTo_append 13 content rest hcr
  rw [strKey_bytes] at hline
  subst hline
  cases k <;>
    simp [StrKey.sec, caseSection, caseGeneral, caseMetadata, sizeof_lit, contentSize, hsc, hlen,
      StrKey.tooLong]

theorem caseSection_strKey_fits (k : StrKey) (p : List Nat) (out : Beatmap)
    (content rest : List Nat) (hline : p = bytes k.text ++ content ++ 13 :: rest)
    (hcr : 13 ∉ content) (hlen : content.length ≤ 255) :
    caseSection k.sec p out =
      some (.next k.sec ((bytes k.text ++ content).length + 1) (k.store out content)) := by
  have hsc := scanTo_append 13 content rest hcr
  have hlen1 : ¬ 255 < content.length := by omega
  rw [strKey_bytes] at hline ⊢
  subst hline
  cases k <;>
    simp [StrKey.sec, caseSection, caseGeneral, caseMetadata, sizeof_lit, contentSize, hsc, hlen1,
      StrKey.store, memcpy] <;> omega

/-- C7 (field too long).  Let the parse come to the `switch` in the section
of one of the five bounded string keys with the cursor on a line
`key<delimiter>content\r\n`.  When the content is longer than 255 bytes the
parse returns the TOO_LONG error of exactly that key, with the record as it
stood; when it is at most 255 bytes (255 included) the line produces no
error: the content is stored and the loop goes on at the next line. -/
theorem string_key_too_long (k : StrKey) (buf : List Nat) (b out : Beatmap) (j : Nat)
    (content rest : List Nat) (hsw : Switches buf b k.sec j out)
    (hline : buf.drop j = bytes k.text ++ content ++ 13 :: 10 :: rest) (hcr : 13 ∉ content) :
    (255 < content.length → FastOsuParser__Parse buf b = .ret k.tooLong out) ∧
    (content.length ≤ 255 →
      Reaches buf b ⟨k.sec, j + (bytes k.text ++ content).length + 2, k.store out content⟩) := by
  constructor
  · intro hlen
    exact switches_ret hsw (caseSection_strKey_long k _ out content _ hline hcr hlen)
  · intro hlen
    have hc := caseSection_strKey_fits k _ out content _ hline hcr hlen
    have hl : skipLine (buf.drop (j + ((bytes k.text ++ content).length + 1))) = some 1 := by
      rw [drop_add, hline]
      have e : bytes k.text ++ content ++ 13 :: 10 :: rest =
          (bytes k.text ++ content ++ [13]) ++ 10 :: rest := by simp
      rw [e, List.drop_left' (by simp only [List.length_append, List.length_singleton])]
      simp [skipLine, scanTo]
    have := switches_next hsw hc hl
    rw [show j + ((bytes k.text ++ content).length + 1) + 1 =
      j + (bytes k.text ++ content).length + 2 by omega] at this
    exact this

/-- C9, amended.  When the parse comes to a `Title` line of the `[Metadata]`
section whose content has 256 bytes or more, it returns the title-too-long
error and the record as it stood on reaching the line: the line itself writes
nothing, and what earlier lines decoded stays in the record. -/
theorem title_too_long_keeps_record (buf : List Nat) (b out : Beatmap) (j : Nat)
    (content rest : List Nat) (hsw : Switches buf b .SECTION_METADATA j out)
    (hline : buf.drop j = bytes "Title:" ++ content ++ 13 :: rest) (hcr : 13 ∉ content)
    (hlen : 256 ≤ content.length) :
    FastOsuParser__Parse buf b = .ret .ERROR_SECTION_METADATA_TITLE_TOO_LONG out :=
  switches_ret hsw (caseSection_strKey_long .Title _ out content rest hline hcr (by omega))

/-! ## The hit-object builder on well-formed lines -/

theorem digits_all {ds : List Nat} (hd : ds.all isdigit = true) :
    ∀ d ∈ ds, d ≠ 44 ∧ d ≠ 10 ∧ d ≠ 58 ∧ d ≠ 13 := by
  intro d hm
  have := List.all_eq_true.mp hd d hm
  simp only [isdigit, Bool.and_eq_true, decide_eq_true_eq] at this
  omega

theorem atof_decLit (l : DecLit) (c : Nat) (r : List Nat) (hl : l.wf)
    (hc : isdigit c = false ∧ c ≠ 46 ∧ c ≠ 101 ∧ c ≠ 69) :
    atof (l.text ++ c :: r) = some l.val := by
  obtain ⟨hne, hd, hf⟩ := hl
  obtain ⟨d, ds, hds⟩ := List.exists_cons_of_ne_nil hne
  have hd0 : isdigit d = true := by
    rw [hds] at hd
    simp only [List.all_cons, Bool.and_eq_true] at hd
    exact hd.1
  have hns := isdigit_not_space hd0
  have hp := isdigit_props hd0
  have hexp : readExponent (c :: r) = some 0 := by
    simp [readExponent, hc.2.2.1, hc.2.2.2]
  -- the sign and the white space
  have hsign : ∀ X : List Nat,
      readSign (skipSpaces ((if l.neg then [45] else []) ++ (l.ip ++ X))) =
        some (l.neg, l.ip ++ X) := by
    intro X
    cases hn : l.neg
    · simp only [Bool.false_eq_true, if_false, List.nil_append]
      rw [hds, List.cons_append, skipSpaces_of_not_space d _ hns]
      simp [readSign, hp.1, hp.2.1]
    · simp only [if_true, List.singleton_append, List.cons_append]
      rw [skipSpaces_of_not_space 45 _ (by decide)]
      simp [readSign]
  unfold atof DecLit.text DecLit.val
  cases hfp : l.fp with
  | none =>
    simp only [List.append_nil, List.append_assoc]
    rw [hsign (c :: r)]
    simp only [spanDigits_append l.ip c r hd hc.1]
    have hc46 : c ≠ 46 := hc.2.1
    split
    · rename_i r1 heq
      simp only [List.cons.injEq] at heq
      exact absurd heq.1 hc46
    · simp only [hne, if_false, hexp]
  | some f =>
    rw [hfp] at hf
    simp only at hf
    simp only [List.append_assoc, List.cons_append]
    rw [hsign (46 :: (f ++ c :: r))]
    simp only [spanDigits_append l.ip 46 (f ++ c :: r) hd (by decide),
      spanDigits_append f c r hf hc.1, hexp]
    simp only [hne, false_and, if_false]

theorem skipDigits_append (ds : List Nat) (c : Nat) (r : List Nat)
    (hd : ds.all isdigit = true) (hc : isdigit c = false) :
    skipDigits (ds ++ c :: r) = some (ds.length + 1) := by
  induction ds with
  | nil => simp [skipDigits, hc]
  | cons d ds ih =>
    simp only [List.all_cons, Bool.and_eq_true] at hd
    simp [skipDigits, hd.1, ih hd.2]

theorem intLit_unsigned (l : IntLit) (hn : l.neg = false) : l.text = l.digits := by
  simp [IntLit.text, hn]

theorem countCurvePoints_digits (ds X : List Nat) (hd : ds.all isdigit = true) :
    countCurvePoints (ds ++ X) = countCurvePoints X := by
  induction ds with
  | nil => rfl
  | cons d ds ih =>
    simp only [List.all_cons, Bool.and_eq_true] at hd
    have := @digits_all [d] (by simp [hd.1]) d (by simp)
    have e := ih hd.2
    simp only [List.cons_append, countCurvePoints, this.1, this.2.2.1, if_false]
    change Option.map (fun n => n) (countCurvePoints (ds ++ X)) = countCurvePoints X
    rw [e]
    cases countCurvePoints X <;> rfl

theorem drop_sep (f : List Nat) (c : Nat) (X : List Nat) :
    (f ++ c :: X).drop (f.length + 1) = X := by
  simp [List.drop_append]

theorem fillCurvePoints_step (n : Nat) (p : IntLit × IntLit) (c : Nat) (X : List Nat)
    (hp : p.1.neg = false ∧ p.1.wf ∧ p.2.neg = false ∧ p.2.wf) (hc : isdigit c = false) :
    fillCurvePoints (n + 1) (p.1.text ++ 58 :: (p.2.text ++ c :: X)) =
      match fillCurvePoints n X with
      | none => none
      | some (cps, k) =>
        some (⟨p.1.val, p.2.val⟩ :: cps, (p.1.text.length + 1) + (p.2.text.length + 1) + k) := by
  obtain ⟨hn1, hw1, hn2, hw2⟩ := hp
  have a1 := atoi_intLit p.1 58 (p.2.text ++ c :: X) hw1 (by decide)
  have a2 := atoi_intLit p.2 c X hw2 hc
  have s1 : skipDigits (p.1.text ++ 58 :: (p.2.text ++ c :: X)) = some (p.1.text.length + 1) := by
    rw [intLit_unsigned p.1 hn1]
    exact skipDigits_append _ 58 _ hw1.2.1 (by decide)
  have s2 : skipDigits (p.2.text ++ c :: X) = some (p.2.text.length + 1) := by
    rw [intLit_unsigned p.2 hn2]
    exact skipDigits_append _ c _ hw2.2.1 hc
  rw [fillCurvePoints]
  simp only [a1, s1, drop_sep, a2, s2, drop_add]

theorem pointsField_cons (p : IntLit × IntLit) (ps : List (IntLit × IntLit)) :
    ∃ c X, isdigit c = false ∧ c ≠ 58 ∧ c ≠ 10 ∧
      pointsField (p :: ps) = p.1.text ++ 58 :: (p.2.text ++ c :: X) ∧
      ((ps = [] ∧ c = 44 ∧ X = []) ∨ (ps ≠ [] ∧ c = 124 ∧ X = pointsField ps)) := by
  cases ps with
  | nil => exact ⟨44, [], by decide, by decide, by decide, rfl, Or.inl ⟨rfl, rfl, rfl⟩⟩
  | cons q ps =>
    exact ⟨124, pointsField (q :: ps), by decide, by decide, by decide, rfl,
      Or.inr ⟨by simp, rfl, rfl⟩⟩

theorem fillCurvePoints_points (pts : List (IntLit × IntLit)) (R : List Nat)
    (hp : ∀ p ∈ pts, p.1.neg = false ∧ p.1.wf ∧ p.2.neg = false ∧ p.2.wf) :
    fillCurvePoints pts.length (pointsField pts ++ R) =
      some (pts.map (fun p => ⟨p.1.val, p.2.val⟩), (pointsField pts).length) := by
  induction pts with
  | nil => simp [fillCurvePoints, pointsField]
  | cons p ps ih =>
    obtain ⟨c, X, hc, -, -, he, hX⟩ := pointsField_cons p ps
    have ih1 := ih (fun q hq => hp q (by simp [hq]))
    have hX1 : fillCurvePoints ps.length (X ++ R) =
        some (ps.map (fun p => ⟨p.1.val, p.2.val⟩), X.length) := by
      rcases hX with ⟨h1, -, h3⟩ | ⟨-, -, h3⟩
      · subst h1 h3
        simp [fillCurvePoints]
      · subst h3
        exact ih1
    rw [he]
    simp only [List.append_assoc, List.cons_append, List.length_cons]
    rw [fillCurvePoints_step ps.length p c (X ++ R) (hp p (by simp)) hc, hX1]
    simp only [List.map_cons, List.length_append, List.length_cons, Option.some.injEq,
      Prod.mk.injEq, true_and]
    omega

theorem countCurvePoints_points (pts : List (IntLit × IntLit)) (R : List Nat) (hne : pts ≠ [])
    (hp : ∀ p ∈ pts, p.1.neg = false ∧ p.1.wf ∧ p.2.neg = false ∧ p.2.wf) :
    countCurvePoints (pointsField pts ++ R) = some pts.length := by
  induction pts with
  | nil => exact absurd rfl hne
  | cons p ps ih =>
    obtain ⟨c, X, hc, hc58, -, he, hX⟩ := pointsField_cons p ps
    obtain ⟨hn1, hw1, hn2, hw2⟩ := hp p (by simp)
    rw [he]
    simp only [List.append_assoc, List.cons_append]
    rw [intLit_unsigned p.1 hn1, intLit_unsigned p.2 hn2, countCurvePoints_digits _ _ hw1.2.1]
    rw [countCurvePoints]
    simp only [show (58 : Nat) ≠ 44 by decide, if_false, if_true]
    rw [countCurvePoints_digits _ _ hw2.2.1]
    rcases hX with ⟨h1, h2, h3⟩ | ⟨h1, h2, h3⟩
    · subst h1 h2 h3
      simp [countCurvePoints]
    · subst h2 h3
      rw [countCurvePoints]
      simp only [show (124 : Nat) ≠ 44 by decide, show (124 : Nat) ≠ 58 by decide, if_false]
      rw [ih h1 (fun q hq => hp q (by simp [hq]))]
      simp

theorem pointsField_not_mem (pts : List (IntLit × IntLit))
    (hp : ∀ p ∈ pts, p.1.neg = false ∧ p.1.wf ∧ p.2.neg = false ∧ p.2.wf) :
    10 ∉ pointsField pts := by
  induction pts with
  | nil => simp [pointsField]
  | cons p ps ih =>
    obtain ⟨c, X, -, -, hc10, he, hX⟩ := pointsField_cons p ps
    obtain ⟨-, hw1, -, hw2⟩ := hp p (by simp)
    have n1 := (intLit_text_not_mem p.1 hw1).2.1
    have n2 := (intLit_text_not_mem p.2 hw2).2.1
    have hX10 : 10 ∉ X := by
      rcases hX with ⟨-, -, h3⟩ | ⟨-, -, h3⟩
      · subst h3; simp
      · subst h3; exact ih (fun q hq => hp q (by simp [hq]))
    rw [he]
    simp only [List.mem_append, List.mem_cons, not_or]
    exact ⟨n1, by decide, n2, fun e => hc10 e.symm, hX10⟩

theorem isTail_head (t r : List Nat) (h : isTail t) :
    ∃ c r1, t ++ 13 :: 10 :: r = c :: r1 ∧ (c = 13 ∨ c = 44) := by
  obtain ⟨h1, -⟩ := h
  cases t with
  | nil => exact ⟨13, 10 :: r, rfl, Or.inl rfl⟩
  | cons a t =>
    rcases h1 with h1 | h1
    · simp at h1
    · simp only [List.head?_cons, Option.some.injEq] at h1
      subst h1
      exact ⟨44, t ++ 13 :: 10 :: r, rfl, Or.inr rfl⟩

theorem decLit_text_not_mem (l : DecLit) (hl : l.wf) : 10 ∉ l.text := by
  obtain ⟨-, hd, hf⟩ := hl
  have h1 : 10 ∉ l.ip := fun h => (digits_all hd 10 h).2.1 rfl
  unfold DecLit.text
  cases hfp : l.fp with
  | none => cases l.neg <;> simp [h1]
  | some f =>
    rw [hfp] at hf
    have h2 : 10 ∉ f := fun h => (digits_all hf 10 h).2.1 rfl
    cases l.neg <;> simp [h1, h2]

/-- The object parameters of a well-formed line are decoded as written, and
the rest of the line is then skipped to its end. -/
theorem objectParams_line (type : Int) (ps : LineParams) (R : List Nat) (hw : ps.wf type) :
    ∃ k6 k7, objectParams type (ps.text ++ 13 :: 10 :: R) = some (ps.decoded, k6) ∧
      skipLine ((ps.text ++ 13 :: 10 :: R).drop k6) = some k7 ∧
      k6 + k7 = ps.text.length + 2 ∧ 10 ∉ ps.text := by
  cases ps with
  | circle rest =>
    obtain ⟨h2, h8, h10⟩ := hw
    refine ⟨0, rest.length + 2, ?_, ?_, by simp [LineParams.text], h10⟩
    · simp [objectParams, h2, h8, LineParams.decoded]
    · have := skipLine_append (rest ++ [13]) R (by simp [h10])
      simpa [LineParams.text] using this
  | spinner e tail =>
    obtain ⟨h2, h8, he, ht⟩ := hw
    obtain ⟨c, r1, hc, hcc⟩ := isTail_head tail R ht
    have hcd : isdigit c = false := by rcases hcc with h | h <;> subst h <;> decide
    have n10 : 10 ∉ e.text ++ tail := by
      simp only [List.mem_append, not_or]
      exact ⟨(intLit_text_not_mem e he).2.1, ht.2⟩
    refine ⟨0, (e.text ++ tail).length + 2, ?_, ?_, by simp [LineParams.text], n10⟩
    · simp only [objectParams, h2, h8, LineParams.text, LineParams.decoded, List.append_assoc,
        Bool.false_eq_true, if_false, if_true]
      rw [hc, atoi_intLit e c r1 he hcd]
    · have := skipLine_append ((e.text ++ tail) ++ [13]) R (by
        simp only [List.mem_append, List.mem_singleton, not_or]
        exact ⟨by simpa using n10, by decide⟩)
      simpa [LineParams.text] using this
  | slider ct sep pts slides len tail =>
    obtain ⟨h2, hct, hsep, hne, hp, hs, hl, ht⟩ := hw
    obtain ⟨c, r1, hc, hcc⟩ := isTail_head tail R ht
    have hcd : isdigit c = false ∧ c ≠ 46 ∧ c ≠ 101 ∧ c ≠ 69 := by
      rcases hcc with h | h <;> subst h <;> decide
    have ns := intLit_text_not_mem slides hs
    have nl := decLit_text_not_mem len hl
    have np := pointsField_not_mem pts hp
    have e0 : (LineParams.slider ct sep pts slides len tail).text ++ 13 :: 10 :: R =
        ct :: sep :: (pointsField pts ++ (slides.text ++ 44 ::
          (len.text ++ (tail ++ 13 :: 10 :: R)))) := by
      simp [LineParams.text]
    have hcount := countCurvePoints_points pts
      (slides.text ++ 44 :: (len.text ++ (tail ++ 13 :: 10 :: R))) hne hp
    have hfill := fillCurvePoints_points pts
      (slides.text ++ 44 :: (len.text ++ (tail ++ 13 :: 10 :: R))) hp
    have hatof : atof (len.text ++ (tail ++ 13 :: 10 :: R)) = some len.val := by
      rw [hc]; exact atof_decLit len c r1 hl hcd
    have hline : skipLine (len.text ++ (tail ++ 13 :: 10 :: R)) =
        some ((len.text ++ tail).length + 2) := by
      have := skipLine_append ((len.text ++ tail) ++ [13]) R (by
        simp only [List.mem_append, List.mem_singleton, not_or]
        exact ⟨⟨nl, ht.2⟩, by decide⟩)
      simpa using this
    refine ⟨2 + (pointsField pts).length + (slides.text.length + 1),
      (len.text ++ tail).length + 2, ?_, ?_, ?_, ?_⟩
    · rw [e0]
      simp only [objectParams, h2, if_true, sliderParams, List.getElem?_cons_zero,
        List.drop_succ_cons, List.drop_zero, hcount, hfill, drop_add, List.drop_left,
        atoi_intLit slides 44 _ hs (by decide), skipComma_append _ _ ns.1, drop_sep, hatof,
        LineParams.decoded]
    · rw [e0]
      have : ∀ X : List Nat, (ct :: sep :: (pointsField pts ++ (slides.text ++ 44 :: X))).drop
          (2 + (pointsField pts).length + (slides.text.length + 1)) = X := by
        intro X
        rw [Nat.add_assoc, drop_add]
        simp only [List.drop_succ_cons, List.drop_zero, drop_add, List.drop_left, drop_sep]
      rw [this, hline]
    · simp only [LineParams.text, List.length_cons, List.length_append]
      omega
    · simp only [LineParams.text, List.mem_cons, List.mem_append, not_or]
      exact ⟨fun e => hct e.symm, fun e => hsep e.symm, np, ns.2.1, by decide, nl, ht.2⟩

/-- One pass of the loop over `ho` on a well-formed line consumes exactly the
line and writes the entry the line denotes. -/
theorem hitObject_line (l : HitLine) (hl : l.wf) (R : List Nat) :
    hitObject (l.text ++ R) = some (l.decoded, l.text.length) := by
  obtain ⟨hx, hy, ht, hty, hh, hp⟩ := hl
  have nx := intLit_text_not_mem l.x hx
  have ny := intLit_text_not_mem l.y hy
  have nt := intLit_text_not_mem l.time ht
  have nty := intLit_text_not_mem l.type hty
  obtain ⟨k6, k7, h6, h7, hk, -⟩ := objectParams_line l.type.val l.params R hp
  have e0 : l.text ++ R = l.x.text ++ 44 :: (l.y.text ++ 44 :: (l.time.text ++ 44 ::
      (l.type.text ++ 44 :: (l.hit_sound ++ 44 :: (l.params.text ++ 13 :: 10 :: R))))) := by
    simp [HitLine.text]
  rw [e0]
  unfold hitObject
  simp only [drop_add]
  rw [atoi_intLit _ 44 _ hx (by decide), skipComma_append _ _ nx.1]
  simp only [drop_field]
  rw [atoi_intLit _ 44 _ hy (by decide), skipComma_append _ _ ny.1]
  simp only [drop_field]
  rw [atoi_intLit _ 44 _ ht (by decide), skipComma_append _ _ nt.1]
  simp only [drop_field]
  rw [atoi_intLit _ 44 _ hty (by decide), skipComma_append _ _ nty.1]
  simp only [drop_field]
  rw [skipComma_append _ _ hh.1]
  simp only [drop_field]
  rw [h6]
  simp only [h7, Option.some.injEq, Prod.mk.injEq, HitLine.decoded, true_and, HitLine.text,
    List.length_append, List.length_cons, List.length_nil]
  omega

theorem countHitObjects_line (body : List Nat) (r : List Nat) (n : Nat) (h : 10 ∉ body) :
    ∀ flag, countHitObjects (body ++ 10 :: r) flag n = countHitObjects r true (n + 1) := by
  induction body with
  | nil => intro flag; cases flag <;> simp [countHitObjects]
  | cons a body ih =>
    intro flag
    simp only [List.mem_cons, not_or] at h
    have ha : a ≠ 10 := fun e => h.1 e.symm
    cases flag <;> simp [countHitObjects, ha, ih h.2]

theorem hitLine_body (l : HitLine) (hl : l.wf) :
    ∃ body, l.text = body ++ [10] ∧ 10 ∉ body := by
  obtain ⟨hx, hy, ht, hty, hh, hp⟩ := hl
  have nx := intLit_text_not_mem l.x hx
  have ny := intLit_text_not_mem l.y hy
  have nt := intLit_text_not_mem l.time ht
  have nty := intLit_text_not_mem l.type hty
  obtain ⟨-, -, -, -, -, np⟩ := objectParams_line l.type.val l.params [] hp
  refine ⟨l.x.text ++ 44 :: (l.y.text ++ 44 :: (l.time.text ++ 44 :: (l.type.text ++ 44 ::
    (l.hit_sound ++ 44 :: (l.params.text ++ [13]))))), by simp [HitLine.text], ?_⟩
  simp only [List.mem_append, List.mem_cons, List.mem_singleton, not_or, List.not_mem_nil,
    or_false]
  exact ⟨nx.2.1, by decide, ny.2.1, by decide, nt.2.1, by decide, nty.2.1, by decide, hh.2,
    by decide, np, by decide⟩

theorem countHitObjects_lines (lines : List HitLine) (hl : ∀ l ∈ lines, l.wf) (n : Nat) :
    countHitObjects (lines.map HitLine.text).flatten true n = some (n + lines.length) := by
  induction lines generalizing n with
  | nil => simp [countHitObjects]
  | cons l lines ih =>
    obtain ⟨body, hb, h10⟩ := hitLine_body l (hl l (by simp))
    have := countHitObjects_line body (lines.map HitLine.text).flatten n h10 true
    simp only [List.map_cons, List.flatten_cons, hb, List.append_assoc, List.singleton_append,
      List.length_cons]
    rw [this, ih (fun l hm => hl l (by simp [hm]))]
    congr 1
    omega

theorem fillHitObjects_lines (lines : List HitLine) (hl : ∀ l ∈ lines, l.wf) (R : List Nat) :
    fillHitObjects lines.length ((lines.map HitLine.text).flatten ++ R) =
      some (lines.map HitLine.decoded, (lines.map HitLine.text).flatten.length) := by
  induction lines with
  | nil => simp [fillHitObjects]
  | cons l lines ih =>
    have h1 := hitObject_line l (hl l (by simp)) ((lines.map HitLine.text).flatten ++ R)
    have h2 := ih (fun l hm => hl l (by simp [hm]))
    simp only [List.map_cons, List.flatten_cons, List.append_assoc, List.length_cons,
      fillHitObjects, h1, List.drop_left, h2, List.length_append]

/-- When every line of the `[HitObjects]` section is well formed, with a comma
after `hitSound`, the parse returns `SUCCESS` with one entry per line, in file
order, each as its line denotes it. -/
theorem hit_objects_of_lines (buf : List Nat) (b : Beatmap) (s : State) (lines : List HitLine)
    (hreach : Reaches buf b s)
    (hline : buf.drop s.i = bytes "[HitObjects]\r\n" ++ (lines.map HitLine.text).flatten)
    (hl : ∀ l ∈ lines, l.wf) :
    FastOsuParser__Parse buf b = .ret .SUCCESS
      { s.out with
        hit_objects := lines.map HitLine.decoded
        hit_objects_count := lines.length
        _total_curve_points :=
          s.out._total_curve_points ++ curveBlocks (lines.map HitLine.decoded)
        _total_curve_points_count :=
          s.out._total_curve_points_count + (curveBlocks (lines.map HitLine.decoded)).length } := by
  have hlt : s.i < buf.length := by
    by_contra hge
    have : buf.drop s.i = [] := List.drop_eq_nil_of_le (by omega)
    rw [this] at hline
    simp [bytes_lit] at hline
  apply parse_of_reaches_ret hreach hlt
  have h0 := countHitObjects_lines lines hl 0
  have h1 := fillHitObjects_lines lines hl []
  simp only [List.append_nil, Nat.zero_add] at h0 h1
  simp only [bytes_lit] at hline
  rw [iteration_eq hline]
  simp [newSection, sectionHeader, sizeof_lit, caseSection, caseHitObjects, h0, h1]

/-! ## The variant payload -/

theorem sliderParams_slider {q : List Nat} {params : ObjectParams} {k : Nat}
    (h : sliderParams q = some (params, k)) :
    ∃ cps n sl len ct, q.head? = some ct ∧ params = .slider ct cps n sl len := by
  unfold sliderParams at h
  cases q with
  | nil => simp at h
  | cons c cs =>
    simp only [List.getElem?_cons_zero] at h
    repeat' split at h
    all_goals first
      | (simp at h; done)
      | (simp only [Option.some.injEq, Prod.mk.injEq] at h
         obtain ⟨h1, -⟩ := h
         exact ⟨_, _, _, _, c, rfl, h1.symm⟩)

theorem objectParams_variant {type : Int} {q : List Nat} {params : ObjectParams} {k : Nat}
    (h : objectParams type q = some (params, k)) :
    params.isSlider = bitAnd type 2 ∧
    params.isSpinner = (!bitAnd type 2 && bitAnd type 8) ∧
    params.isUnset = (!bitAnd type 2 && !bitAnd type 8) := by
  unfold objectParams at h
  by_cases h2 : bitAnd type 2 = true
  · rw [if_pos h2] at h
    obtain ⟨cps, n, sl, len, ct, -, rfl⟩ := sliderParams_slider h
    simp [ObjectParams.isSlider, ObjectParams.isSpinner, ObjectParams.isUnset, h2]
  · rw [if_neg h2] at h
    by_cases h8 : bitAnd type 8 = true
    · rw [if_pos h8] at h
      cases ha : atoi q with
      | none => simp [ha] at h
      | some v =>
        simp only [ha, Option.some.injEq, Prod.mk.injEq] at h
        obtain ⟨rfl, -⟩ := h
        simp [ObjectParams.isSlider, ObjectParams.isSpinner, ObjectParams.isUnset, h2, h8]
    · rw [if_neg h8] at h
      simp only [Option.some.injEq, Prod.mk.injEq] at h
      obtain ⟨rfl, -⟩ := h
      simp [ObjectParams.isSlider, ObjectParams.isSpinner, ObjectParams.isUnset, h2, h8]

theorem objectParams_curve_type {type : Int} {q : List Nat} {k : Nat} {ct : Nat}
    {cps : List CurvePoint} {n : Nat} {sl : Int} {len : Decimal}
    (h : objectParams type q = some (.slider ct cps n sl len, k)) :
    q.head? = some ct := by
  have hv := (objectParams_variant h).1
  have h2 : bitAnd type 2 = true := by
    rw [← hv]; rfl
  unfold objectParams at h
  rw [if_pos h2] at h
  obtain ⟨cps1, n1, sl1, len1, ct1, hq, he⟩ := sliderParams_slider h
  cases he
  exact hq

/-- C12.  A well-formed hit-object line `x,y,time,type,hitSound,endTime` with
an optional tail `,...`, whose type has bit value 8 set and bit value 2
clear, wherever it stands in the buffer: the pass of the builder over the line
writes the entry with the four numbers of the line and the integer `endTime`
as spinner end time, and leaves the cursor on the first byte after the
line. -/
theorem spinner_end_time (x y time type end_time : IntLit) (hit_sound tail R : List Nat)
    (hl : (HitLine.mk x y time type hit_sound (.spinner end_time tail)).wf) :
    bitAnd type.val 8 = true ∧ bitAnd type.val 2 = false ∧
    hitObject ((HitLine.mk x y time type hit_sound (.spinner end_time tail)).text ++ R) =
      some (⟨x.val, y.val, time.val, type.val, .spinner end_time.val⟩,
        (HitLine.mk x y time type hit_sound (.spinner end_time tail)).text.length) := by
  refine ⟨hl.2.2.2.2.2.2.1, hl.2.2.2.2.2.1, ?_⟩
  exact hitObject_line _ hl R

/-- C13.  In a record the parse returns (the list `hit_objects` empty at the
call), the payload of every entry is chosen by the type bits alone: it is the
slider payload exactly when the type has bit value 2, the spinner end time
exactly when it has bit value 8 and not bit value 2, and no payload exactly
when it has neither bit. -/
theorem payload_by_type_bits (buf : List Nat) (b r : Beatmap) (e : Error)
    (hb : b.hit_objects = []) (h : FastOsuParser__Parse buf b = .ret e r)
    (ho : HitObject) (hm : ho ∈ r.hit_objects) :
    ho.object_params.isSlider = bitAnd ho.type 2 ∧
    ho.object_params.isSpinner = (!bitAnd ho.type 2 && bitAnd ho.type 8) ∧
    ho.object_params.isUnset = (!bitAnd ho.type 2 && !bitAnd ho.type 8) := by
  obtain ⟨i, k, hd⟩ := parse_hit_objects buf b r e hb h ho hm
  obtain ⟨k6, hp⟩ := hitObject_some hd
  exact objectParams_variant hp

/-- C19, amended.  In a record the parse returns (the list `hit_objects` empty
at the call), the curve type of every slider entry is the byte the file has at
the `curveType` position of the line the entry was decoded from, the first
byte after the fifth comma, whatever that byte is; so it is one of `B`, `C`,
`L`, `P` exactly when the file has one of them there. -/
theorem curve_type_is_file_byte (buf : List Nat) (b r : Beatmap) (e : Error)
    (hb : b.hit_objects = []) (h : FastOsuParser__Parse buf b = .ret e r)
    (ho : HitObject) (hm : ho ∈ r.hit_objects) (ct : Nat) (cps : List CurvePoint) (n : Nat)
    (sl : Int) (len : Decimal) (hs : ho.object_params = .slider ct cps n sl len) :
    ∃ i k, hitObject (buf.drop i) = some (ho, k) ∧ curveTypeByte (buf.drop i) = some ct := by
  obtain ⟨i, k, hd⟩ := parse_hit_objects buf b r e hb h ho hm
  obtain ⟨k6, hp⟩ := hitObject_some hd
  rw [hs] at hp
  exact ⟨i, k, hd, objectParams_curve_type hp⟩

/-! ## The timing-point builder on well-formed rows -/

theorem uniKey_bytes (u : UniKey) : bytes u.unicodeText =
    match u with
    | .Title => [84, 105, 116, 108, 101, 85, 110, 105, 99, 111, 100, 101, 58]
    | .Artist => [65, 114, 116, 105, 115, 116, 85, 110, 105, 99, 111, 100, 101, 58] := by
  cases u <;> decide

theorem store_field (k : StrKey) (out : Beatmap) (content : List Nat) :
    k.size (k.store out content) = content.length ∧
    (k.buffer (k.store out content)).take content.length = content := by
  cases k <;> simp [StrKey.size, StrKey.store, StrKey.buffer]

theorem drop_line (buf : List Nat) (j : Nat) (l rest : List Nat)
    (h : buf.drop j = l ++ 13 :: 10 :: rest) : buf.drop (j + l.length + 2) = rest := by
  rw [Nat.add_assoc, drop_add, h]
  have e : l ++ 13 :: 10 :: rest = (l ++ [13, 10]) ++ rest := by simp
  rw [e]
  exact List.drop_left' (by simp)

/-- C15.  Let the parse come to the `switch` in the `[Metadata]` section with
the cursor on a line.  When the line is `TitleUnicode:...` (respectively
`ArtistUnicode:...`) the record stays as it stood, `title` and `title_size`
(respectively `artist` and `artist_size`) included, and the loop goes on in the
same section with the cursor on the first byte of the following line.  When
the line is `Title:<s>` (respectively `Artist:<s>`) with at most 255 content
bytes, the loop goes on in the same way with `<s>` at the front of the field
and its length as the size. -/
theorem unicode_sibling_skipped (u : UniKey) (buf : List Nat) (b out : Beatmap) (j : Nat)
    (content rest : List Nat) (hsw : Switches buf b .SECTION_METADATA j out) :
    (buf.drop j = bytes u.unicodeText ++ content ++ 13 :: 10 :: rest → 10 ∉ content →
      Reaches buf b ⟨.SECTION_METADATA, j + (bytes u.unicodeText ++ content).length + 2, out⟩ ∧
      buf.drop (j + (bytes u.unicodeText ++ content).length + 2) = rest) ∧
    (buf.drop j = bytes u.key.text ++ content ++ 13 :: 10 :: rest → 13 ∉ content →
      content.length ≤ 255 →
      Reaches buf b ⟨.SECTION_METADATA, j + (bytes u.key.text ++ content).length + 2,
        u.key.store out content⟩ ∧
      buf.drop (j + (bytes u.key.text ++ content).length + 2) = rest ∧
      u.key.size (u.key.store out content) = content.length ∧
      (u.key.buffer (u.key.store out content)).take content.length = content) := by
  constructor
  · intro hline h10
    refine ⟨?_, drop_line buf j _ rest hline⟩
    rw [uniKey_bytes] at hline ⊢
    cases u
    · have hc : caseSection .SECTION_METADATA (buf.drop j) out =
          some (.next .SECTION_METADATA 1 out) := by
        rw [hline]
        simp [caseSection, caseMetadata, sizeof_lit]
      have hl : skipLine (buf.drop (j + 1)) = some (12 + content.length + 2) := by
        rw [drop_add, hline]
        have := skipLine_append ([105, 116, 108, 101, 85, 110, 105, 99, 111, 100, 101, 58] ++
          content ++ [13]) rest (by simp [h10])
        rw [show 12 + content.length + 2 =
          content.length + 1 + 1 + 1 + 1 + 1 + 1 + 1 + 1 + 1 + 1 + 1 + 1 + 1 + 1 by omega]
        simpa using this
      have := switches_next hsw hc hl
      simp only [List.length_append, List.length_cons, List.length_nil]
      rw [show j + (0 + 1 + 1 + 1 + 1 + 1 + 1 + 1 + 1 + 1 + 1 + 1 + 1 + 1 + content.length) + 2 =
        j + 1 + (12 + content.length + 2) by omega]
      exact this
    · have hc : caseSection .SECTION_METADATA (buf.drop j) out =
          some (.next .SECTION_METADATA 0 out) := by
        rw [hline]
        simp [caseSection, caseMetadata, sizeof_lit]
      have hl : skipLine (buf.drop (j + 0)) = some (14 + content.length + 2) := by
        rw [drop_add, hline]
        have := skipLine_append ([65, 114, 116, 105, 115, 116, 85, 110, 105, 99, 111, 100, 101, 58] ++
          content ++ [13]) rest (by simp [h10])
        rw [show 14 + content.length + 2 =
          content.length + 1 + 1 + 1 + 1 + 1 + 1 + 1 + 1 + 1 + 1 + 1 + 1 + 1 + 1 + 1 + 1 by omega]
        simpa using this
      have := switches_next hsw hc hl
      simp only [List.length_append, List.length_cons, List.length_nil]
      rw [show j + (0 + 1 + 1 + 1 + 1 + 1 + 1 + 1 + 1 + 1 + 1 + 1 + 1 + 1 + 1 + content.length)
        + 2 = j + 0 + (14 + content.length + 2) by omega]
      exact this
  · intro hline hcr hlen
    have hsec : u.key.sec = .SECTION_METADATA := by cases u <;> rfl
    have hc := caseSection_strKey_fits u.key _ out content _ hline hcr hlen
    rw [hsec] at hc
    have hl : skipLine (buf.drop (j + ((bytes u.key.text ++ content).length + 1))) = some 1 := by
      rw [drop_add, hline]
      have e : bytes u.key.text ++ content ++ 13 :: 10 :: rest =
          (bytes u.key.text ++ content ++ [13]) ++ 10 :: rest := by simp
      rw [e, List.drop_left' (by simp only [List.length_append, List.length_singleton])]
      simp [skipLine, scanTo]
    have := switches_next hsw hc hl
    rw [show j + ((bytes u.key.text ++ content).length + 1) + 1 =
      j + (bytes u.key.text ++ content).length + 2 by omega] at this
    exact ⟨this, drop_line buf j _ rest hline, store_field _ _ _⟩

/-! ## Section headers -/

theorem reaches_lt_of_drop {buf : List Nat} {i : Nat} {a : Nat} {r : List Nat}
    (h : buf.drop i = a :: r) : i < buf.length := by
  by_contra hge
  have : buf.drop i = [] := List.drop_eq_nil_of_le (by omega)
  rw [this] at h
  simp at h

theorem sectionHeader_fst (c : Nat) : (sectionHeader c).1 = sectionOfLetter c := by
  unfold sectionHeader sectionOfLetter
  repeat' split
  all_goals rfl

theorem sectionHeader_other (c : Nat) (h : isSectionLetter c = false) :
    sectionHeader c = (.SECTION_NONE, 1) := by
  simp only [isSectionLetter, Bool.or_eq_false_iff, beq_eq_false_iff_ne, ne_eq] at h
  obtain ⟨⟨⟨⟨h1, h2⟩, h3⟩, h4⟩, h5⟩ := h
  simp [sectionHeader, h1, h2, h3, h4, h5]

theorem iteration_skipped (buf : List Nat) (s : State) (body rest : List Nat)
    (hsec : s.current_section = .SECTION_NONE)
    (hline : buf.drop s.i = body ++ 10 :: rest) (hb : isSkipped body) :
    iteration buf s = .next ⟨.SECTION_NONE, s.i + (body.length + 1), s.out⟩ := by
  rw [iteration_eq hline]
  have hn : newSection s.current_section (body ++ 10 :: rest) = some (.SECTION_NONE, 0) := by
    unfold newSection
    cases body with
    | nil => simp [hsec]
    | cons a body =>
      have ha : a ≠ 91 := by simpa using hb.2
      simp [ha, hsec]
  rw [hn]
  simp only [caseSection, List.drop_zero, Nat.add_zero, skipLine_append body rest hb.1]

theorem reaches_skipped (buf : List Nat) (b : Beatmap) (bodies : List (List Nat)) :
    ∀ (i : Nat) (out : Beatmap) (rest : List Nat), Reaches buf b ⟨.SECTION_NONE, i, out⟩ →
      buf.drop i = (bodies.map fun l => l ++ [10]).flatten ++ rest →
      (∀ l ∈ bodies, isSkipped l) →
      Reaches buf b ⟨.SECTION_NONE, i + (bodies.map fun l => l ++ [10]).flatten.length, out⟩ := by
  induction bodies with
  | nil =>
    intro i out rest hr _ _
    simpa using hr
  | cons l bodies ih =>
    intro i out rest hr hd hl
    have hd1 : buf.drop i = l ++ 10 :: ((bodies.map fun l => l ++ [10]).flatten ++ rest) := by
      rw [hd]; simp
    have hit := iteration_skipped buf ⟨.SECTION_NONE, i, out⟩ l _ rfl hd1 (hl l (by simp))
    have hlt : i < buf.length := by
      cases l with
      | nil => exact reaches_lt_of_drop hd1
      | cons a l => exact reaches_lt_of_drop hd1
    have hr1 := reaches_pass hr hlt hit
    have hd2 : buf.drop (i + (l.length + 1)) =
        (bodies.map fun l => l ++ [10]).flatten ++ rest := by
      rw [drop_add, hd1]
      have e : l ++ 10 :: ((bodies.map fun l => l ++ [10]).flatten ++ rest) =
          (l ++ [10]) ++ ((bodies.map fun l => l ++ [10]).flatten ++ rest) := by simp
      rw [e]
      exact List.drop_left' (by simp)
    have := ih (i + (l.length + 1)) out rest hr1 hd2 (fun l hm => hl l (by simp [hm]))
    simp only [List.map_cons, List.flatten_cons, List.length_append, List.length_singleton]
    rw [← Nat.add_assoc]
    exact this

/-- C16, amended.  Let the parse come to the head of the loop with the cursor
on a header line `[c...` whose byte `c` after `[` is none of `G`, `M`, `D`, `T`,
`H`.  The pass enters the none state, and the header line and every following
line up to the next line that starts with `[` are skipped: the loop comes to
the first byte after them in the none state with the record as it stood. -/
theorem unknown_header_skipped (buf : List Nat) (b : Beatmap) (s : State) (c : Nat)
    (name : List Nat) (bodies : List (List Nat)) (rest : List Nat)
    (hreach : Reaches buf b s)
    (hline : buf.drop s.i =
      91 :: c :: name ++ 10 :: ((bodies.map fun l => l ++ [10]).flatten ++ rest))
    (hc : isSectionLetter c = false) (hname : 10 ∉ c :: name)
    (hl : ∀ l ∈ bodies, isSkipped l) :
    Switches buf b .SECTION_NONE (s.i + 1) s.out ∧
    Reaches buf b ⟨.SECTION_NONE,
      s.i + (name.length + 3) + (bodies.map fun l => l ++ [10]).flatten.length, s.out⟩ ∧
    buf.drop (s.i + (name.length + 3) + (bodies.map fun l => l ++ [10]).flatten.length) =
      rest := by
  have hlt : s.i < buf.length := reaches_lt_of_drop hline
  have hn : newSection s.current_section (buf.drop s.i) = some (.SECTION_NONE, 1) := by
    rw [hline]
    simp [newSection, sectionHeader_other c hc]
  have hsw : Switches buf b .SECTION_NONE (s.i + 1) s.out := ⟨s, 1, hreach, hlt, hn, rfl, rfl⟩
  have hsk : skipLine (buf.drop (s.i + 1 + 0)) = some (name.length + 2) := by
    rw [Nat.add_zero, drop_add, hline]
    have := skipLine_append (c :: name) ((bodies.map fun l => l ++ [10]).flatten ++ rest) hname
    simpa using this
  have hc0 : caseSection .SECTION_NONE (buf.drop (s.i + 1)) s.out =
      some (.next .SECTION_NONE 0 s.out) := rfl
  have hr1 := switches_next hsw hc0 hsk
  have hd1 : buf.drop (s.i + (name.length + 3)) =
      (bodies.map fun l => l ++ [10]).flatten ++ rest := by
    rw [drop_add, hline]
    have e : 91 :: c :: name ++ 10 :: ((bodies.map fun l => l ++ [10]).flatten ++ rest) =
        (91 :: c :: name ++ [10]) ++ ((bodies.map fun l => l ++ [10]).flatten ++ rest) := by
      simp
    rw [e]
    exact List.drop_left' (by simp)
  rw [show s.i + 1 + 0 + (name.length + 2) = s.i + (name.length + 3) by omega] at hr1
  refine ⟨hsw, reaches_skipped buf b bodies _ s.out rest hr1 hd1 hl, ?_⟩
  rw [drop_add, hd1]
  exact List.drop_left' rfl

/-! ## Missing delimiters -/

theorem scanTo_none (c : Nat) (l : List Nat) (h : c ∉ l) : scanTo c l = none := by
  induction l with
  | nil => rfl
  | cons a l ih =>
    simp only [List.mem_cons, not_or] at h
    have ha : a ≠ c := fun e => h.1 e.symm
    simp [scanTo, ha, ih h.2]

theorem parse_of_reaches_undefined {buf : List Nat} {b : Beatmap} {s : State}
    (h : Reaches buf b s) (hi : s.i < buf.length) (hit : iteration buf s = .undefined) :
    FastOsuParser__Parse buf b = .undefined := by
  rw [parse_of_reaches h (buf.length + 1) (by omega)]
  simp [run, hi, hit]

theorem switches_undefined {buf : List Nat} {b : Beatmap} {sec : Section} {j : Nat}
    {out : Beatmap} (h : Switches buf b sec j out)
    (hc : caseSection sec (buf.drop j) out = none) :
    FastOsuParser__Parse buf b = .undefined := by
  obtain ⟨s, k, hr, hi, hn, hj, ho⟩ := h
  subst hj ho
  apply parse_of_reaches_undefined hr hi
  unfold iteration
  simp only [hn, hc]

theorem switches_next_undefined {buf : List Nat} {b : Beatmap} {sec sec1 : Section} {j k1 : Nat}
    {out out1 : Beatmap} (h : Switches buf b sec j out)
    (hc : caseSection sec (buf.drop j) out = some (.next sec1 k1 out1))
    (hl : skipLine (buf.drop (j + k1)) = none) :
    FastOsuParser__Parse buf b = .undefined := by
  obtain ⟨s, k, hr, hi, hn, hj, ho⟩ := h
  subst hj ho
  apply parse_of_reaches_undefined hr hi
  unfold iteration
  simp only [hn, hc, hl]

theorem caseSection_strKey_open (k : StrKey) (out : Beatmap) (content : List Nat)
    (hcr : 13 ∉ content) : caseSection k.sec (bytes k.text ++ content) out = none := by
  have hsc := scanTo_none 13 content hcr
  rw [strKey_bytes]
  cases k <;>
    simp [StrKey.sec, caseSection, caseGeneral, caseMetadata, sizeof_lit, contentSize, hsc]

theorem skipComma_count {p : List Nat} {k : Nat} (h : skipComma p = some k) :
    (p.drop k).count 44 + 1 = p.count 44 := by
  unfold skipComma at h
  cases hs : scanTo 44 p with
  | none => simp [hs] at h
  | some n =>
    simp only [hs, Option.map_some', Option.some.injEq] at h
    subst h
    obtain ⟨rest, h1, h2, h3⟩ := scanTo_some hs
    have e1 : p.drop (n + 1) = rest := by
      conv_lhs => rw [h1]
      have e2 : List.take n p ++ 44 :: rest = (List.take n p ++ [44]) ++ rest := by simp
      rw [e2]
      apply List.drop_left'
      simp [h3]
    rw [e1]
    conv_rhs => rw [h1]
    simp [List.count_append, List.count_eq_zero_of_not_mem h2]

theorem timingPoint_commas {p : List Nat} {x : TimingPoint × Nat}
    (h : timingPoint p = some x) : 6 ≤ p.count 44 := by
  unfold timingPoint at h
  repeat' split at h
  all_goals first
    | (simp at h; done)
    | (rename_i _ _ _ _ _ h1 _ _ _ _ _ h2 _ _ _ _ _ h3 _ _ h4 _ _ h5 _ _ h6 _ _ _ _ _ _
       simp only [drop_add] at h2 h3 h4 h5 h6
       have c1 := skipComma_count h1
       have c2 := skipComma_count h2
       have c3 := skipComma_count h3
       have c4 := skipComma_count h4
       have c5 := skipComma_count h5
       have c6 := skipComma_count h6
       omega)

theorem hitObject_commas {p : List Nat} {x : HitObject × Nat}
    (h : hitObject p = some x) : 5 ≤ p.count 44 := by
  unfold hitObject at h
  repeat' split at h
  all_goals first
    | (simp at h; done)
    | (rename_i _ _ _ _ _ h1 _ _ _ _ _ h2 _ _ _ _ _ h3 _ _ _ _ _ h4 _ _ h5 _ _ _ _ _ _ _
       simp only [drop_add] at h2 h3 h4 h5
       have c1 := skipComma_count h1
       have c2 := skipComma_count h2
       have c3 := skipComma_count h3
       have c4 := skipComma_count h4
       have c5 := skipComma_count h5
       omega)

theorem countTimingPoints_ge : ∀ (l : List Nat) (f : Bool) (n m : Nat),
    countTimingPoints l f n = some m → (if f then n else n + 1) ≤ m := by
  intro l
  induction l with
  | nil => intro f n m h; cases f <;> simp [countTimingPoints] at h
  | cons c cs ih =>
    intro f n m h
    cases f with
    | true =>
      simp only [countTimingPoints] at h
      simp only [if_true]
      split at h
      · simp only [Option.some.injEq] at h
        omega
      · split at h
        · have := ih true (n + 1) m h
          simp only [if_true] at this
          omega
        · have := ih false n m h
          simp only [Bool.false_eq_true, if_false] at this
          omega
    | false =>
      simp only [countTimingPoints] at h
      simp only [Bool.false_eq_true, if_false]
      split at h
      · have := ih true (n + 1) m h
        simp only [if_true] at this
        omega
      · have := ih false n m h
        simp only [Bool.false_eq_true, if_false] at this
        omega

theorem caseTimingPoints_commas {p : List Nat} {out : Beatmap} (hh : p.head? ≠ some 13)
    (hc : p.count 44 < 6) : caseTimingPoints p out = none := by
  unfold caseTimingPoints
  cases hn : countTimingPoints p true 0 with
  | none => rfl
  | some m =>
    simp only []
    cases p with
    | nil => simp [countTimingPoints] at hn
    | cons c cs =>
      have hc13 : c ≠ 13 := by simpa using hh
      have hm : 1 ≤ m := by
        simp only [countTimingPoints, hc13, if_false] at hn
        split at hn
        · have := countTimingPoints_ge _ _ _ _ hn
          simp only [if_true] at this
          omega
        · have := countTimingPoints_ge _ _ _ _ hn
          simp only [Bool.false_eq_true, if_false] at this
          omega
      obtain ⟨m1, rfl⟩ := Nat.exists_eq_add_of_le hm
      rw [Nat.add_comm]
      simp only [fillTimingPoints]
      cases ht : timingPoint (c :: cs) with
      | none => rfl
      | some x =>
        have := timingPoint_commas ht
        omega

theorem countHitObjects_ge : ∀ (l : List Nat) (f : Bool) (n m : Nat),
    countHitObjects l f n = some m → (if f then n else n + 1) ≤ m ∧ (f = false → 10 ∈ l) := by
  intro l
  induction l with
  | nil => intro f n m h; cases f <;> simp_all [countHitObjects]
  | cons c cs ih =>
    intro f n m h
    simp only [countHitObjects] at h
    split at h
    · rename_i hc
      have := (ih true (n + 1) m h).1
      simp only [if_true] at this
      refine ⟨?_, fun _ => by simp [hc]⟩
      cases f <;> simp <;> omega
    · have := ih false n m h
      simp only [Bool.false_eq_true, if_false, true_implies] at this
      refine ⟨?_, fun _ => by simp [this.2]⟩
      cases f <;> simp <;> omega

theorem countHitObjects_first {p : List Nat} {m : Nat} (hne : p ≠ [])
    (h : countHitObjects p true 0 = some m) : 1 ≤ m ∧ 10 ∈ p := by
  cases p with
  | nil => exact absurd rfl hne
  | cons c cs =>
    simp only [countHitObjects] at h
    split at h
    · rename_i hc
      have := (countHitObjects_ge _ _ _ _ h).1
      simp only [if_true] at this
      exact ⟨by omega, by simp [hc]⟩
    · have := countHitObjects_ge _ _ _ _ h
      simp only [Bool.false_eq_true, if_false, true_implies] at this
      exact ⟨by omega, by simp [this.2]⟩

theorem caseHitObjects_commas {p : List Nat} {out : Beatmap} (hne : p ≠ [])
    (hc : p.count 44 < 5) : caseHitObjects p out = none := by
  unfold caseHitObjects
  cases hn : countHitObjects p true 0 with
  | none => rfl
  | some m =>
    simp only []
    obtain ⟨hm, -⟩ := countHitObjects_first hne hn
    obtain ⟨m1, rfl⟩ := Nat.exists_eq_add_of_le hm
    rw [Nat.add_comm]
    simp only [fillHitObjects]
    cases ht : hitObject p with
    | none => rfl
    | some x =>
      have := hitObject_commas ht
      omega

theorem caseHitObjects_open {p : List Nat} {out : Beatmap} (hne : p ≠ []) (h10 : 10 ∉ p) :
    caseHitObjects p out = none := by
  unfold caseHitObjects
  cases hn : countHitObjects p true 0 with
  | none => rfl
  | some m => exact absurd (countHitObjects_first hne hn).2 h10

theorem caseGeneral_ret {p : List Nat} {out r : Beatmap} {e : Error}
    (h : caseGeneral p out = some (.ret e r)) : e ≠ .SUCCESS ∧ r = out := by
  unfold caseGeneral at h
  simp only [sizeof_lit, intKey, floatKey, contentSize, Nat.reduceAdd] at h
  repeat' split at h
  all_goals first
    | (simp at h; done)
    | (simp only [Option.some.injEq, Step.ret.injEq] at h
       obtain ⟨h1, h2⟩ := h
       subst h1 h2
       exact ⟨by decide, rfl⟩)

theorem caseMetadata_ret {p : List Nat} {out r : Beatmap} {e : Error}
    (h : caseMetadata p out = some (.ret e r)) : e ≠ .SUCCESS ∧ r = out := by
  unfold caseMetadata at h
  simp only [sizeof_lit, intKey, floatKey, contentSize, Nat.reduceAdd] at h
  repeat' split at h
  all_goals first
    | (simp at h; done)
    | (simp only [Option.some.injEq, Step.ret.injEq] at h
       obtain ⟨h1, h2⟩ := h
       subst h1 h2
       exact ⟨by decide, rfl⟩)

theorem caseDifficulty_ret {p : List Nat} {out r : Beatmap} {e : Error}
    (h : caseDifficulty p out = some (.ret e r)) : e ≠ .SUCCESS ∧ r = out := by
  unfold caseDifficulty at h
  simp only [sizeof_lit, intKey, floatKey, contentSize, Nat.reduceAdd] at h
  repeat' split at h
  all_goals simp at h

theorem caseTimingPoints_ret {p : List Nat} {out r : Beatmap} {e : Error}
    (h : caseTimingPoints p out = some (.ret e r)) : e ≠ .SUCCESS ∧ r = out := by
  unfold caseTimingPoints at h
  repeat' split at h
  all_goals simp at h

theorem caseSection_open {sec : Section} {p : List Nat} {out r : Beatmap} {e : Error}
    (hne : p ≠ []) (h10 : 10 ∉ p) (h : caseSection sec p out = some (.ret e r)) :
    e ≠ .SUCCESS ∧ r = out := by
  cases sec with
  | SECTION_NONE => simp [caseSection] at h
  | SECTION_GENERAL => exact caseGeneral_ret h
  | SECTION_METADATA => exact caseMetadata_ret h
  | SECTION_DIFFICULTY => exact caseDifficulty_ret h
  | SECTION_TIMING_POINTS => exact caseTimingPoints_ret h
  | SECTION_HIT_OBJECTS =>
    simp only [caseSection, caseHitObjects_open hne h10] at h
    exact absurd h (by simp)

theorem switches_open {buf : List Nat} {b : Beatmap} {sec : Section} {j : Nat} {out : Beatmap}
    (h : Switches buf b sec j out) (hne : buf.drop j ≠ []) (h10 : 10 ∉ buf.drop j) :
    FastOsuParser__Parse buf b = .undefined ∨
    ∃ e, e ≠ .SUCCESS ∧ FastOsuParser__Parse buf b = .ret e out := by
  cases hc : caseSection sec (buf.drop j) out with
  | none => exact Or.inl (switches_undefined h hc)
  | some st =>
    cases st with
    | ret e r =>
      obtain ⟨h1, h2⟩ := caseSection_open hne h10 hc
      subst h2
      exact Or.inr ⟨e, h1, switches_ret h hc⟩
    | next sec1 k1 out1 =>
      refine Or.inl (switches_next_undefined h hc ?_)
      unfold skipLine
      rw [scanTo_none 10 _ (fun hm => h10 ?_)]
      · rfl
      · rw [drop_add] at hm
        exact List.mem_of_mem_drop hm

/-- C17, amended.  The parser has no test against the end of the buffer in
its scanning loops, so a missing delimiter makes it read outside the buffer
(undefined behaviour) instead of failing: (1) a buffer without `[`; (2) a line
of a bounded string key with no carriage return in the rest of the buffer;
(3) the timing-point builder started on a line when fewer than six commas are
left in the buffer; (4) the hit-object builder started on a line when fewer
than five commas are left in the buffer; (5) a last line without line feed,
where the only other outcome is the too-long error of a string key, returned
before the end of the line is looked for. -/
theorem missing_delimiter_undefined (buf : List Nat) (b : Beatmap) :
    (91 ∉ buf → FastOsuParser__Parse buf b = .undefined) ∧
    (∀ (k : StrKey) (j : Nat) (out : Beatmap) (content : List Nat),
      Switches buf b k.sec j out → buf.drop j = bytes k.text ++ content → 13 ∉ content →
      FastOsuParser__Parse buf b = .undefined) ∧
    (∀ (j : Nat) (out : Beatmap), Switches buf b .SECTION_TIMING_POINTS j out →
      (buf.drop j).head? ≠ some 13 → (buf.drop j).count 44 < 6 →
      FastOsuParser__Parse buf b = .undefined) ∧
    (∀ (j : Nat) (out : Beatmap), Switches buf b .SECTION_HIT_OBJECTS j out →
      buf.drop j ≠ [] → (buf.drop j).count 44 < 5 →
      FastOsuParser__Parse buf b = .undefined) ∧
    (∀ (sec : Section) (j : Nat) (out : Beatmap), Switches buf b sec j out →
      buf.drop j ≠ [] → 10 ∉ buf.drop j →
      FastOsuParser__Parse buf b = .undefined ∨
      ∃ e, e ≠ .SUCCESS ∧ FastOsuParser__Parse buf b = .ret e out) := by
  refine ⟨?_, ?_, ?_, ?_, ?_⟩
  · intro h
    simp [FastOsuParser__Parse, start, scanTo_none 91 buf h]
  · intro k j out content hsw hline hcr
    apply switches_undefined hsw
    rw [hline]
    exact caseSection_strKey_open k out content hcr
  · intro j out hsw hh hc
    apply switches_undefined hsw
    simp only [caseSection]
    exact caseTimingPoints_commas hh hc
  · intro j out hsw hne hc
    apply switches_undefined hsw
    simp only [caseSection]
    exact caseHitObjects_commas hne hc
  · intro sec j out hsw hne h10
    exact switches_open hsw hne h10

/-! ## Integer keys with a common stem -/

theorem intKey_bytes (k : IntKey) : bytes k.text =
    match k with
    | .Countdown => [67, 111, 117, 110, 116, 100, 111, 119, 110, 58, 32]
    | .CountdownOffset =>
      [67, 111, 117, 110, 116, 100, 111, 119, 110, 79, 102, 102, 115, 101, 116, 58, 32]
    | .BeatmapID => [66, 101, 97, 116, 109, 97, 112, 73, 68, 58]
    | .BeatmapSetID => [66, 101, 97, 116, 109, 97, 112, 83, 101, 116, 73, 68, 58] := by
  cases k <;> decide

theorem intLit_text_no_cr (l : IntLit) (hl : l.wf) : 13 ∉ l.text := by
  obtain ⟨-, hd, -⟩ := hl
  intro hm
  unfold IntLit.text at hm
  rw [List.mem_append] at hm
  rcases hm with hm | hm
  · split at hm
    · simp at hm
    · simp at hm
  · have := List.all_eq_true.1 hd 13 hm
    simp [isdigit] at this

theorem caseSection_intKey (k : IntKey) (out : Beatmap) (n : IntLit) (rest : List Nat)
    (hn : n.wf) :
    caseSection k.sec (bytes k.text ++ n.text ++ 13 :: rest) out =
      some (.next k.sec ((bytes k.text ++ n.text).length + 1) (k.set out n.val)) := by
  have hsc := scanTo_append 13 n.text rest (intLit_text_no_cr n hn)
  have hat := atoi_intLit n 13 rest hn (by decide)
  rw [intKey_bytes]
  cases k <;>
    simp [IntKey.sec, caseSection, caseGeneral, caseMetadata, sizeof_lit, intKey, contentSize,
      hsc, hat, IntKey.set] <;> omega

/-! ## After the timing-point builder -/

/-- C23.  Let the parse come to the head of the loop with the cursor on a
`[TimingPoints]` block of well-formed lines closed by a blank line, followed by
further lines that do not start with `[` (lines in timing-point format
included).  The pass of the header fills the entries and leaves the loop in
the none state behind the blank line; the further lines are then skipped, and
the loop comes to the first byte after them still in the none state and with
the same record, `timing_points` and `timing_points_count` included. -/
theorem timing_section_closed (buf : List Nat) (b : Beatmap) (s : State)
    (lines : List TimingLine) (bodies : List (List Nat)) (rest : List Nat)
    (hreach : Reaches buf b s)
    (hline : buf.drop s.i = bytes "[TimingPoints]\r\n" ++ (lines.map TimingLine.text).flatten ++
      bytes "\r\n" ++ ((bodies.map fun l => l ++ [10]).flatten ++ rest))
    (hl : ∀ l ∈ lines, l.wf) (hb : ∀ l ∈ bodies, isSkipped l) :
    ∃ tps, tps.length = lines.length ∧
      iteration buf s = .next ⟨.SECTION_NONE,
        s.i + (16 + (lines.map TimingLine.text).flatten.length + 2),
        { s.out with timing_points := tps, timing_points_count := lines.length }⟩ ∧
      Reaches buf b ⟨.SECTION_NONE,
        s.i + (16 + (lines.map TimingLine.text).flatten.length + 2) +
          (bodies.map fun l => l ++ [10]).flatten.length,
        { s.out with timing_points := tps, timing_points_count := lines.length }⟩ ∧
      buf.drop (s.i + (16 + (lines.map TimingLine.text).flatten.length + 2) +
        (bodies.map fun l => l ++ [10]).flatten.length) = rest := by
  obtain ⟨tps, hit, hlen⟩ := iteration_timingPoints buf s lines _ hline hl
  have hlt : s.i < buf.length := by
    by_contra hge
    have : buf.drop s.i = [] := List.drop_eq_nil_of_le (by omega)
    rw [this] at hline
    simp [bytes_lit] at hline
  have hdrop : buf.drop (s.i + (16 + (lines.map TimingLine.text).flatten.length + 2)) =
      (bodies.map fun l => l ++ [10]).flatten ++ rest := by
    rw [drop_add, hline]
    apply List.drop_left'
    simp only [List.length_append, bytes_lit, List.length_cons, List.length_nil]
  have hreach1 := reaches_pass hreach hlt hit
  refine ⟨tps, hlen, hit, reaches_skipped buf b bodies _ _ rest hreach1 hdrop hb, ?_⟩
  rw [drop_add, hdrop]
  exact List.drop_left' rfl

/-! ## The cursor -/

theorem passes_le (buf : List Nat) : ∀ (d : Nat) (s s1 : State),
    passes buf d s = .next s1 → s.i + d ≤ s1.i := by
  intro d
  induction d with
  | zero =>
    intro s s1 h
    simp only [passes, Res.next.injEq] at h
    subst h
    omega
  | succ d ih =>
    intro s s1 h
    by_cases hs : s.i < buf.length
    · simp only [passes, hs, if_true] at h
      cases hit : iteration buf s with
      | next s2 =>
        rw [hit] at h
        have h1 := iteration_lt hit
        have h2 := ih s2 s1 h
        omega
      | ret e out => rw [hit] at h; simp at h
      | undefined => rw [hit] at h; simp at h
      | timeout => rw [hit] at h; simp at h
    · simp [passes, hs] at h

theorem passes_split (buf : List Nat) : ∀ (n d : Nat) (s0 s1 : State),
    passes buf (n + d) s0 = .next s1 → ∃ s, passes buf n s0 = .next s ∧
      passes buf d s = .next s1 := by
  intro n
  induction n with
  | zero =>
    intro d s0 s1 h
    rw [Nat.zero_add] at h
    exact ⟨s0, rfl, h⟩
  | succ n ih =>
    intro d s0 s1 h
    rw [show n + 1 + d = (n + d) + 1 by omega] at h
    by_cases hs : s0.i < buf.length
    · simp only [passes, hs, if_true] at h ⊢
      cases hit : iteration buf s0 with
      | next s2 =>
        rw [hit] at h
        exact ih d s2 s1 h
      | ret e out => rw [hit] at h; simp at h
      | undefined => rw [hit] at h; simp at h
      | timeout => rw [hit] at h; simp at h
    · simp [passes, hs] at h

theorem reached_passes {buf : List Nat} {b : Beatmap} {n : Nat} {s : State}
    (h : reached buf b n = some s) : ∃ s0, start buf b = some s0 ∧ passes buf n s0 = .next s := by
  unfold reached at h
  split at h
  · simp at h
  · rename_i s0 h0
    split at h
    · rename_i s1 hp
      simp only [Option.some.injEq] at h
      subst h
      exact ⟨s0, h0, hp⟩
    · simp at h

/-- C24.  The cursor never moves backward.  Between any two tests of the loop
condition, the later cursor is at least the earlier one, and greater when
they are different tests; and within a pass the cursor at the next test is the
cursor at the start plus the advance of the header skip, plus the advance of
the `switch` (key, content and comma skips), plus the advance of the line
skip, each a count of bytes stepped over. -/
theorem cursor_never_backward (buf : List Nat) (b : Beatmap) (n m : Nat) (s s1 : State)
    (hnm : n ≤ m) (hn : reached buf b n = some s) (hm : reached buf b m = some s1) :
    s.i ≤ s1.i ∧ (n < m → s.i < s1.i) ∧
    ∀ s2, iteration buf s = .next s2 →
      ∃ sec k k1 k2, newSection s.current_section (buf.drop s.i) = some (sec, k) ∧
        caseSection sec (buf.drop (s.i + k)) s.out =
          some (.next s2.current_section k1 s2.out) ∧
        skipLine (buf.drop (s.i + k + k1)) = some k2 ∧
        s.i ≤ s.i + k ∧ s.i + k ≤ s.i + k + k1 ∧ s.i + k + k1 < s.i + k + k1 + k2 ∧
        s2.i = s.i + k + k1 + k2 := by
  obtain ⟨s0, h0, hp⟩ := reached_passes hn
  obtain ⟨s0a, h0a, hpa⟩ := reached_passes hm
  rw [h0] at h0a
  simp only [Option.some.injEq] at h0a
  subst h0a
  obtain ⟨d, rfl⟩ := Nat.exists_eq_add_of_le hnm
  obtain ⟨sa, hsa, hd⟩ := passes_split buf n d s0 s1 hpa
  rw [hp] at hsa
  simp only [Res.next.injEq] at hsa
  subst hsa
  have hle := passes_le buf d s s1 hd
  refine ⟨by omega, fun h => by omega, ?_⟩
  intro s2 hit
  unfold iteration at hit
  cases hns : newSection s.current_section (buf.drop s.i) with
  | none => simp [hns] at hit
  | some x =>
    obtain ⟨sec, k⟩ := x
    simp only [hns] at hit
    cases hc : caseSection sec (buf.drop (s.i + k)) s.out with
    | none => simp [hc] at hit
    | some st =>
      cases st with
      | ret e out => simp [hc] at hit
      | next sec1 k1 out1 =>
        simp only [hc] at hit
        cases hl : skipLine (buf.drop (s.i + k + k1)) with
        | none => simp [hl] at hit
        | some k2 =>
          simp only [hl, Res.next.injEq] at hit
          subst hit
          have hk2 := skipLine_pos hl
          exact ⟨sec, k, k1, k2, rfl, hc, hl, by omega, by omega, by omega, rfl⟩

/-! ## Bytes before the first header -/

theorem scanTo_shift (c : Nat) (p body : List Nat) (h : c ∉ p) :
    scanTo c (p ++ body) = (scanTo c body).map (· + p.length) := by
  induction p with
  | nil => simp
  | cons a p ih =>
    simp only [List.mem_cons, not_or] at h
    have ha : a ≠ c := fun e => h.1 e.symm
    have e : (a :: p) ++ body = a :: (p ++ body) := rfl
    rw [e]
    simp only [scanTo, ha, if_false, ih h.2, List.length_cons]
    cases scanTo c body with
    | none => rfl
    | some k => simp only [Option.map_some', Option.some.injEq]; omega

theorem iteration_shift (p body : List Nat) (sec : Section) (i : Nat) (out : Beatmap) :
    iteration (p ++ body) ⟨sec, p.length + i, out⟩ =
      match iteration body ⟨sec, i, out⟩ with
      | .next s1 => .next ⟨s1.current_section, p.length + s1.i, s1.out⟩
      | r => r := by
  have hd : ∀ x, (p ++ body).drop (p.length + x) = body.drop x := by
    intro x
    rw [drop_add, List.drop_left]
  unfold iteration
  simp only [Nat.add_assoc, hd]
  cases newSection sec (body.drop i) with
  | none => rfl
  | some x =>
    obtain ⟨sec1, k⟩ := x
    simp only []
    cases caseSection sec1 (body.drop (i + k)) out with
    | none => rfl
    | some st =>
      cases st with
      | ret e r => rfl
      | next sec2 k1 out1 =>
        simp only []
        cases skipLine (body.drop (i + (k + k1))) with
        | none => rfl
        | some k2 => rfl

theorem run_shift (p body : List Nat) : ∀ (f : Nat) (sec : Section) (i : Nat) (out : Beatmap),
    run (p ++ body) f ⟨sec, p.length + i, out⟩ = run body f ⟨sec, i, out⟩ := by
  intro f
  induction f with
  | zero =>
    intro sec i out
    simp only [run, List.length_append, Nat.add_lt_add_iff_left]
  | succ f ih =>
    intro sec i out
    simp only [run, List.length_append, Nat.add_lt_add_iff_left]
    by_cases hs : i < body.length
    · simp only [hs, if_true, iteration_shift]
      cases iteration body ⟨sec, i, out⟩ with
      | next s1 => exact ih s1.current_section s1.i s1.out
      | ret e r => rfl
      | undefined => rfl
      | timeout => rfl
    · simp only [hs, if_false]

/-- C25.  Bytes before the first `[` are ignored: when `p` holds no `[`, the
parse of `p ++ body` gives what the parse of `body` gives, the same result
code and the same record (and undefined behaviour on the one exactly when on
the other), whatever record is passed. -/
theorem bytes_before_header_ignored (p body : List Nat) (out : Beatmap) (hp : 91 ∉ p) :
    FastOsuParser__Parse (p ++ body) out = FastOsuParser__Parse body out := by
  unfold FastOsuParser__Parse start
  rw [scanTo_shift 91 p body hp]
  cases hs : scanTo 91 body with
  | none => rfl
  | some k =>
    simp only [Option.map_some']
    rw [run_fuel (p ++ body) (p ++ body).length body.length _ (by simp) (by simp; omega)]
    rw [Nat.add_comm k p.length]
    exact run_shift p body body.length _ k _

/-! ## Lines that match no key -/

theorem line_getElem (body rest : List Nat) (n c : Nat) (h : (body ++ [10])[n]? = some c) :
    (body ++ 10 :: rest)[n]? = some c ∧ n ≤ body.length := by
  have hlt : n < (body ++ [10]).length := by
    by_contra hge
    rw [List.getElem?_eq_none (by omega)] at h
    simp at h
  have e : body ++ 10 :: rest = (body ++ [10]) ++ rest := by simp
  rw [e, List.getElem?_append_left hlt]
  refine ⟨h, ?_⟩
  simp only [List.length_append, List.length_singleton] at hlt
  omega

theorem otherAt_line (body rest : List Nat) (k : Nat) (cs : List Nat)
    (h : otherAt (body ++ [10]) k cs = true) :
    ∃ c, (body ++ 10 :: rest)[k]? = some c ∧ c ∉ cs ∧ k ≤ body.length := by
  unfold otherAt at h
  cases hk : (body ++ [10])[k]? with
  | none => simp [hk] at h
  | some c =>
    simp only [hk] at h
    have hn : c ∉ cs := by simpa using h
    obtain ⟨h1, h2⟩ := line_getElem body rest k c hk
    exact ⟨c, h1, hn, h2⟩

theorem caseSection_unmatched (sec : Section) (body rest : List Nat) (out : Beatmap)
    (hu : unmatched sec (body ++ [10]) = true) :
    ∃ k, k ≤ body.length ∧
      caseSection sec (body ++ 10 :: rest) out = some (.next sec k out) := by
  cases h0 : (body ++ [10])[0]? with
  | none => cases sec <;> simp [unmatched, h0] at hu
  | some c =>
    obtain ⟨h0p, -⟩ := line_getElem body rest 0 c h0
    cases sec with
    | SECTION_NONE => simp [unmatched, h0] at hu
    | SECTION_TIMING_POINTS => simp [unmatched, h0] at hu
    | SECTION_HIT_OBJECTS => simp [unmatched, h0] at hu
    | SECTION_GENERAL =>
      simp only [unmatched, h0] at hu
      simp only [caseSection, caseGeneral, h0p, sizeof_lit]
      by_cases h65 : c = 65
      · simp only [h65, if_true] at hu ⊢
        obtain ⟨c1, hc1, hn, hk⟩ := otherAt_line body rest 5 _ hu
        simp only [List.mem_cons, List.mem_singleton, not_or, List.not_mem_nil, or_false] at hn
        refine ⟨5, hk, ?_⟩
        simp [hc1, hn.1, hn.2]
      · simp only [h65, if_false] at hu ⊢
        by_cases h67 : c = 67
        · simp only [h67, if_true] at hu ⊢
          obtain ⟨c1, hc1, hn, hk⟩ := otherAt_line body rest 9 _ hu
          simp only [List.mem_cons, List.mem_singleton, not_or, List.not_mem_nil, or_false] at hn
          refine ⟨9, hk, ?_⟩
          simp [hc1, hn.1, hn.2]
        · simp only [h67, if_false] at hu ⊢
          by_cases h83 : c = 83
          · simp only [h83, if_true] at hu ⊢
            obtain ⟨c1, hc1, hn, hk⟩ := otherAt_line body rest 7 _ hu
            simp only [List.mem_singleton] at hn
            refine ⟨7, hk, ?_⟩
            simp [hc1, hn]
          · simp only [h83, if_false, bne_iff_ne, ne_eq] at hu ⊢
            exact ⟨0, Nat.zero_le _, by simp [hu]⟩
    | SECTION_METADATA =>
      simp only [unmatched, h0] at hu
      simp only [caseSection, caseMetadata, h0p, sizeof_lit]
      by_cases h84 : c = 84
      · simp only [h84, if_true, Bool.or_eq_true, beq_iff_eq] at hu ⊢
        have hb : 1 ≤ body.length := by
          cases body with
          | nil => simp [h84] at h0
          | cons a body => simp
        cases h1 : (body ++ [10])[1]? with
        | none =>
          exfalso
          rw [List.getElem?_eq_none_iff] at h1
          simp only [List.length_append, List.length_singleton] at h1
          omega
        | some c1 =>
          obtain ⟨h1p, -⟩ := line_getElem body rest 1 c1 h1
          refine ⟨1, hb, ?_⟩
          by_cases h105 : c1 = 105
          · rcases hu with hu | hu
            · simp [otherAt, h1, h105] at hu
            · obtain ⟨h5p, -⟩ := line_getElem body rest 5 85 hu
              simp [h1p, h105, h5p]
          · simp [h1p, h105]
      · simp only [h84, if_false] at hu ⊢
        by_cases h65 : c = 65
        · simp only [h65, if_true, beq_iff_eq] at hu ⊢
          obtain ⟨h6p, -⟩ := line_getElem body rest 6 85 hu
          exact ⟨0, Nat.zero_le _, by simp [h6p]⟩
        · simp only [h65, if_false] at hu ⊢
          by_cases h66 : c = 66
          · simp only [h66, if_true] at hu ⊢
            obtain ⟨c1, hc1, hn, hk⟩ := otherAt_line body rest 7 _ hu
            simp only [List.mem_cons, List.mem_singleton, not_or, List.not_mem_nil, or_false]
              at hn
            refine ⟨7, hk, ?_⟩
            simp [hc1, hn.1, hn.2]
          · simp only [h66, if_false, Bool.and_eq_true, bne_iff_ne, ne_eq] at hu ⊢
            exact ⟨0, Nat.zero_le _, by simp [hu.1, hu.2]⟩
    | SECTION_DIFFICULTY =>
      simp only [unmatched, h0] at hu
      simp only [caseSection, caseDifficulty, h0p, sizeof_lit]
      by_cases h83 : c = 83
      · simp only [h83, if_true] at hu ⊢
        obtain ⟨c1, hc1, hn, hk⟩ := otherAt_line body rest 6 _ hu
        simp only [List.mem_cons, List.mem_singleton, not_or, List.not_mem_nil, or_false] at hn
        refine ⟨6, hk, ?_⟩
        simp [hc1, hn.1, hn.2]
      · simp only [h83, if_false, Bool.and_eq_true, bne_iff_ne, ne_eq] at hu ⊢
        obtain ⟨⟨⟨h1, h2⟩, h3⟩, h4⟩ := hu
        exact ⟨0, Nat.zero_le _, by simp [h1, h2, h3, h4, h83]⟩

/-- C21, amended.  Let the parse come to the `switch` in the General, Metadata or
Difficulty section with the cursor on a line, ended by a line feed, that the
dispatcher of the section takes for none of its keys: the first byte starts
no key of the section, or the byte at which the keys with that first byte
differ lies on the line and belongs to none of them.  The line is skipped
whole: the record stays as it stood and the loop goes on in the same section
at the first byte of the following line. -/
theorem unmatched_line_skipped (sec : Section) (buf : List Nat) (b out : Beatmap) (j : Nat)
    (body rest : List Nat) (hsw : Switches buf b sec j out)
    (hline : buf.drop j = body ++ 10 :: rest) (h10 : 10 ∉ body)
    (hu : unmatched sec (body ++ [10]) = true) :
    Reaches buf b ⟨sec, j + body.length + 1, out⟩ ∧ buf.drop (j + body.length + 1) = rest := by
  obtain ⟨k, hk, hc⟩ := caseSection_unmatched sec body rest out hu
  rw [← hline] at hc
  have hl : skipLine (buf.drop (j + k)) = some (body.length - k + 1) := by
    rw [drop_add, hline, List.drop_append_of_le_length hk]
    have := skipLine_append (body.drop k) rest (fun hm => h10 (List.mem_of_mem_drop hm))
    simpa using this
  have := switches_next hsw hc hl
  rw [show j + k + (body.length - k + 1) = j + body.length + 1 by omega] at this
  refine ⟨this, ?_⟩
  rw [Nat.add_assoc, drop_add, hline]
  have e : body ++ 10 :: rest = (body ++ [10]) ++ rest := by simp
  rw [e]
  exact List.drop_left' (by simp)

/-! ## Absent sections -/

theorem run_invariant (buf : List Nat) (P : State → Prop) (Q : Beatmap → Prop)
    (hstep : ∀ s s1, P s → iteration buf s = .next s1 → P s1)
    (hret : ∀ s e r, P s → iteration buf s = .ret e r → Q r)
    (hend : ∀ s, P s → Q s.out) :
    ∀ (f : Nat) (s : State) (e : Error) (r : Beatmap), P s → run buf f s = .ret e r → Q r := by
  intro f
  induction f with
  | zero =>
    intro s e r hinv h
    by_cases hs : s.i < buf.length
    · simp [run, hs] at h
    · simp only [run, hs, if_false, Res.ret.injEq] at h
      rw [← h.2]; exact hend s hinv
  | succ f ih =>
    intro s e r hinv h
    by_cases hs : s.i < buf.length
    · simp only [run, hs, if_true] at h
      cases hit : iteration buf s with
      | next s1 =>
        rw [hit] at h
        exact ih s1 e r (hstep s s1 hinv hit) h
      | ret e1 r1 =>
        rw [hit] at h
        simp only [Res.ret.injEq] at h
        rw [← h.2]
        exact hret s e1 r1 hinv hit
      | undefined => rw [hit] at h; simp at h
      | timeout => rw [hit] at h; simp at h
    · simp only [run, hs, if_false, Res.ret.injEq] at h
      rw [← h.2]; exact hend s hinv

theorem caseSection_frame {sec : Section} {p : List Nat} {out : Beatmap} {st : Step}
    (h : caseSection sec p out = some st) :
    (∀ sec0, sec0 ≠ sec → sectionPart sec0 st.out = sectionPart sec0 out) ∧
    (∀ sec1 k r, st = .next sec1 k r → sec1 = sec ∨ sec1 = .SECTION_NONE) := by
  cases sec
  · simp only [caseSection, Option.some.injEq] at h
    subst h
    exact ⟨fun sec0 _ => rfl, fun sec1 k r e => by simp at e; exact Or.inl e.1.symm⟩
  · simp only [caseSection, caseGeneral, sizeof_lit, intKey, floatKey, contentSize] at h
    repeat' split at h
    all_goals first
      | (simp at h; done)
      | (simp only [Option.some.injEq] at h
         subst h
         refine ⟨fun sec0 hne => ?_, fun sec1 k r e => ?_⟩
         · cases sec0 <;> first | exact absurd rfl hne | rfl
         · first
            | (simp only [Step.next.injEq] at e; exact Or.inl e.1.symm)
            | (simp at e))
  · simp only [caseSection, caseMetadata, sizeof_lit, intKey, floatKey, contentSize] at h
    repeat' split at h
    all_goals first
      | (simp at h; done)
      | (simp only [Option.some.injEq] at h
         subst h
         refine ⟨fun sec0 hne => ?_, fun sec1 k r e => ?_⟩
         · cases sec0 <;> first | exact absurd rfl hne | rfl
         · first
            | (simp only [Step.next.injEq] at e; exact Or.inl e.1.symm)
            | (simp at e))
  · simp only [caseSection, caseDifficulty, sizeof_lit, intKey, floatKey, contentSize] at h
    repeat' split at h
    all_goals first
      | (simp at h; done)
      | (simp only [Option.some.injEq] at h
         subst h
         refine ⟨fun sec0 hne => ?_, fun sec1 k r e => ?_⟩
         · cases sec0 <;> first | exact absurd rfl hne | rfl
         · simp only [Step.next.injEq] at e; exact Or.inl e.1.symm)
  · simp only [caseSection, caseTimingPoints] at h
    repeat' split at h
    all_goals first
      | (simp at h; done)
      | (simp only [Option.some.injEq] at h
         subst h
         refine ⟨fun sec0 hne => ?_, fun sec1 k r e => ?_⟩
         · cases sec0 <;> first | exact absurd rfl hne | rfl
         · simp only [Step.next.injEq] at e; exact Or.inr e.1.symm)
  · simp only [caseSection, caseHitObjects] at h
    repeat' split at h
    all_goals first
      | (simp at h; done)
      | (simp only [Option.some.injEq] at h
         subst h
         refine ⟨fun sec0 hne => ?_, fun sec1 k r e => ?_⟩
         · cases sec0 <;> first | exact absurd rfl hne | rfl
         · simp at e)

theorem sectionOfLetter_letter {sec : Section} {c c1 : Nat} (hc : headerLetter sec = some c)
    (h : sectionOfLetter c1 = sec) : c1 = c := by
  unfold sectionOfLetter at h
  repeat' split at h
  all_goals (subst h; simp only [headerLetter, Option.some.injEq] at hc; first | omega | simp at hc)

theorem newSection_ne {sec sec0 sec1 : Section} {c : Nat} {p : List Nat} {k : Nat}
    (hc : headerLetter sec = some c) (hsec : sec0 ≠ sec)
    (hp : ¬ (p[0]? = some 91 ∧ p[1]? = some c))
    (h : newSection sec0 p = some (sec1, k)) : sec1 ≠ sec := by
  unfold newSection at h
  split at h
  · simp at h
  · rename_i c0 hc0
    split at h
    · rename_i h91
      subst h91
      split at h
      · simp at h
      · rename_i c1 hc1
        simp only [Option.some.injEq] at h
        intro he
        have h1 : (sectionHeader c1).1 = sec := by rw [h]; exact he
        rw [sectionHeader_fst] at h1
        have := sectionOfLetter_letter hc h1
        exact hp ⟨hc0, by rw [hc1, this]⟩
    · simp only [Option.some.injEq, Prod.mk.injEq] at h
      rw [← h.1]; exact hsec

theorem scanTo_getElem {c : Nat} {p : List Nat} {n : Nat} (h : scanTo c p = some n) :
    p[n]? = some c := by
  obtain ⟨rest, h1, h2, h3⟩ := scanTo_some h
  conv_lhs => rw [h1]
  rw [List.getElem?_append_right (by omega)]
  simp [h3]

theorem skipLine_getElem {p : List Nat} {k : Nat} (h : skipLine p = some k) :
    ∃ n, k = n + 1 ∧ p[n]? = some 10 := by
  unfold skipLine at h
  cases hs : scanTo 10 p with
  | none => simp [hs] at h
  | some n =>
    simp only [hs, Option.map_some', Option.some.injEq] at h
    exact ⟨n, h.symm, scanTo_getElem hs⟩

theorem iteration_atLine {buf : List Nat} {s s1 : State} (h : iteration buf s = .next s1) :
    AtLine buf s1.i := by
  unfold iteration at h
  cases hn : newSection s.current_section (buf.drop s.i) with
  | none => simp [hn] at h
  | some x =>
    obtain ⟨sec1, k⟩ := x
    simp only [hn] at h
    cases hcs : caseSection sec1 (buf.drop (s.i + k)) s.out with
    | none => simp [hcs] at h
    | some st =>
      cases st with
      | ret e1 r1 => simp [hcs] at h
      | next sec2 k1 out1 =>
        simp only [hcs] at h
        cases hl : skipLine (buf.drop (s.i + k + k1)) with
        | none => simp [hl] at h
        | some k2 =>
          simp only [hl, Res.next.injEq] at h
          subst h
          obtain ⟨n, rfl, hg⟩ := skipLine_getElem hl
          rw [List.getElem?_drop] at hg
          exact ⟨s.i + k + k1 + n, rfl, hg⟩

theorem noHeaderAfter_spec (c : Nat) : ∀ (buf : List Nat), noHeaderAfter c buf = true →
    ∀ i0, buf[i0]? = some 10 → ¬ (buf[i0 + 1]? = some 91 ∧ buf[i0 + 2]? = some c) := by
  intro buf
  induction buf with
  | nil => intro _ i0 h; simp at h
  | cons a r ih =>
    intro h i0 h10
    simp only [noHeaderAfter, Bool.and_eq_true, Bool.not_eq_true', Bool.and_eq_false_iff,
      beq_eq_false_iff_ne, ne_eq] at h
    cases i0 with
    | zero =>
      simp only [List.getElem?_cons_zero, Option.some.injEq] at h10
      simp only [Nat.zero_add, List.getElem?_cons_succ]
      rintro ⟨h1, h2⟩
      rcases h.1 with (h3 | h3) | h3
      · exact h3 h10
      · exact h3 h1
      · exact h3 h2
    | succ i0 =>
      simp only [List.getElem?_cons_succ] at h10 ⊢
      exact ih h.2 i0 h10

theorem atLine_no_header {c : Nat} {buf : List Nat} {i : Nat} (hno : noHeaderAfter c buf = true)
    (h : AtLine buf i) : ¬ ((buf.drop i)[0]? = some 91 ∧ (buf.drop i)[1]? = some c) := by
  obtain ⟨i0, rfl, h10⟩ := h
  have := noHeaderAfter_spec c buf hno i0 h10
  simpa [List.getElem?_drop, Nat.add_assoc] using this

theorem start_no_header {c : Nat} {buf : List Nat} {b : Beatmap} {s0 : State}
    (hno : (buf.dropWhile (· != 91))[1]? ≠ some c) (hs : start buf b = some s0) :
    ¬ ((buf.drop s0.i)[0]? = some 91 ∧ (buf.drop s0.i)[1]? = some c) := by
  unfold start at hs
  cases hk : scanTo 91 buf with
  | none => simp [hk] at hs
  | some k =>
    simp only [hk, Option.some.injEq] at hs
    subst hs
    obtain ⟨rest, h1, h2, h3⟩ := scanTo_some hk
    have hd : buf.drop k = 91 :: rest := by
      conv_lhs => rw [h1]
      exact List.drop_left' h3
    have hw : buf.dropWhile (· != 91) = 91 :: rest := by
      conv_lhs => rw [h1]
      exact dropWhile_ne_append 91 _ rest h2
    rw [hw] at hno
    simp only [hd]
    exact fun h => hno h.2

/-- C26.  An absent section leaves its fields untouched.  Let the input have
no header line of a section: the byte after the first `[` of the input, and
the byte after every `[` that starts a line, is not the first letter of the
name of the section.  Then in every record the parse returns, whatever the
result code, every field of the section has the value it had in the record
the caller passed. -/
theorem absent_section_untouched (sec : Section) (c : Nat) (buf : List Nat) (b r : Beatmap)
    (e : Error) (hc : headerLetter sec = some c) (hno : noHeaderLine c buf = true)
    (h : FastOsuParser__Parse buf b = .ret e r) :
    sectionPart sec r = sectionPart sec b := by
  simp only [noHeaderLine, Bool.and_eq_true, bne_iff_ne, ne_eq] at hno
  obtain ⟨hno1, hno2⟩ := hno
  unfold FastOsuParser__Parse at h
  cases hs : start buf b with
  | none => rw [hs] at h; simp at h
  | some s0 =>
    rw [hs] at h
    have hsec0 : s0.current_section ≠ sec := by
      unfold start at hs
      split at hs
      · simp at hs
      · simp only [Option.some.injEq] at hs
        subst hs
        intro he
        rw [← he] at hc
        simp [headerLetter] at hc
    have hout0 : sectionPart sec s0.out = sectionPart sec b := by
      unfold start at hs
      split at hs
      · simp at hs
      · simp only [Option.some.injEq] at hs
        subst hs
        cases sec <;> rfl
    have hne : sec ≠ .SECTION_NONE := by
      intro he
      rw [he] at hc
      simp [headerLetter] at hc
    refine run_invariant buf
      (fun s => s.current_section ≠ sec ∧ sectionPart sec s.out = sectionPart sec b ∧
        ¬ ((buf.drop s.i)[0]? = some 91 ∧ (buf.drop s.i)[1]? = some c))
      (fun r => sectionPart sec r = sectionPart sec b) ?_ ?_ (fun s hs => hs.2.1)
      buf.length s0 e r ⟨hsec0, hout0, start_no_header hno1 hs⟩ h
    · intro s s1 ⟨h1, h2, h3⟩ hit
      refine ⟨?_, ?_, atLine_no_header hno2 (iteration_atLine hit)⟩
      · unfold iteration at hit
        cases hn : newSection s.current_section (buf.drop s.i) with
        | none => simp [hn] at hit
        | some x =>
          obtain ⟨sec1, k⟩ := x
          have hsec1 := newSection_ne hc h1 h3 hn
          simp only [hn] at hit
          cases hcs : caseSection sec1 (buf.drop (s.i + k)) s.out with
          | none => simp [hcs] at hit
          | some st =>
            cases st with
            | ret e1 r1 => simp [hcs] at hit
            | next sec2 k1 out1 =>
              simp only [hcs] at hit
              cases hl : skipLine (buf.drop (s.i + k + k1)) with
              | none => simp [hl] at hit
              | some k2 =>
                simp only [hl, Res.next.injEq] at hit
                subst hit
                simp only []
                rcases (caseSection_frame hcs).2 sec2 k1 out1 rfl with h4 | h4
                · rw [h4]; exact hsec1
                · rw [h4]; exact fun he => hne he.symm
      · unfold iteration at hit
        cases hn : newSection s.current_section (buf.drop s.i) with
        | none => simp [hn] at hit
        | some x =>
          obtain ⟨sec1, k⟩ := x
          have hsec1 := newSection_ne hc h1 h3 hn
          simp only [hn] at hit
          cases hcs : caseSection sec1 (buf.drop (s.i + k)) s.out with
          | none => simp [hcs] at hit
          | some st =>
            cases st with
            | ret e1 r1 => simp [hcs] at hit
            | next sec2 k1 out1 =>
              simp only [hcs] at hit
              cases hl : skipLine (buf.drop (s.i + k + k1)) with
              | none => simp [hl] at hit
              | some k2 =>
                simp only [hl, Res.next.injEq] at hit
                subst hit
                simp only []
                have := (caseSection_frame hcs).1 sec (fun he => hsec1 he.symm)
                simp only [Step.out] at this
                rw [this]; exact h2
    · intro s e1 r1 ⟨h1, h2, h3⟩ hit
      unfold iteration at hit
      cases hn : newSection s.current_section (buf.drop s.i) with
      | none => simp [hn] at hit
      | some x =>
        obtain ⟨sec1, k⟩ := x
        have hsec1 := newSection_ne hc h1 h3 hn
        simp only [hn] at hit
        cases hcs : caseSection sec1 (buf.drop (s.i + k)) s.out with
        | none => simp [hcs] at hit
        | some st =>
          cases st with
          | ret e2 r2 =>
            simp only [hcs, Res.ret.injEq] at hit
            obtain ⟨-, rfl⟩ := hit
            have := (caseSection_frame hcs).1 sec (fun he => hsec1 he.symm)
            simp only [Step.out] at this
            rw [this]; exact h2
          | next sec2 k1 out1 =>
            simp only [hcs] at hit
            cases hl : skipLine (buf.drop (s.i + k + k1)) with
            | none => simp [hl] at hit
            | some k2 => simp [hl] at hit

/-! ## The curve-point registry -/

theorem caseSection_registry {sec : Section} {p : List Nat} {out : Beatmap} {st : Step}
    (hsec : sec ≠ .SECTION_HIT_OBJECTS) (h : caseSection sec p out = some st) :
    st.out.hit_objects = out.hit_objects ∧
      st.out._total_curve_points = out._total_curve_points ∧
      st.out._total_curve_points_count = out._total_curve_points_count := by
  cases sec
  · simp only [caseSection, Option.some.injEq] at h
    subst h
    simp [Step.out]
  · simp only [caseSection, caseGeneral, sizeof_lit, intKey, floatKey, contentSize] at h
    repeat' split at h
    all_goals first
      | (simp at h; done)
      | (simp only [Option.some.injEq] at h
         subst h
         simp [Step.out])
  · simp only [caseSection, caseMetadata, sizeof_lit, intKey, floatKey, contentSize] at h
    repeat' split at h
    all_goals first
      | (simp at h; done)
      | (simp only [Option.some.injEq] at h
         subst h
         simp [Step.out])
  · simp only [caseSection, caseDifficulty, sizeof_lit, intKey, floatKey, contentSize] at h
    repeat' split at h
    all_goals first
      | (simp at h; done)
      | (simp only [Option.some.injEq] at h
         subst h
         simp [Step.out])
  · simp only [caseSection, caseTimingPoints] at h
    repeat' split at h
    all_goals first
      | (simp at h; done)
      | (simp only [Option.some.injEq] at h
         subst h
         simp [Step.out])
  · exact absurd rfl hsec

theorem caseHitObjects_registry {p : List Nat} {out : Beatmap} {st : Step}
    (h : caseSection .SECTION_HIT_OBJECTS p out = some st) :
    ∃ e r, st = .ret e r ∧
      r._total_curve_points = out._total_curve_points ++ curveBlocks r.hit_objects ∧
      r._total_curve_points_count =
        out._total_curve_points_count + (curveBlocks r.hit_objects).length := by
  simp only [caseSection, caseHitObjects] at h
  repeat' split at h
  all_goals first
    | (simp at h; done)
    | (simp only [Option.some.injEq] at h
       subst h
       exact ⟨_, _, rfl, rfl, rfl⟩)

theorem curveBlocks_filter : ∀ (hs : List HitObject),
    (∀ ho ∈ hs, ho.object_params.isSlider = bitAnd ho.type 2) →
    curveBlocks hs = (hs.filter fun ho => bitAnd ho.type 2).map curvePointsOf := by
  intro hs
  induction hs with
  | nil => intro _; rfl
  | cons ho hs ih =>
    intro h
    have h1 := h ho (by simp)
    have h2 := ih (fun x hx => h x (by simp [hx]))
    cases hp : ho.object_params with
    | unset =>
      rw [hp] at h1
      simp only [ObjectParams.isSlider] at h1
      simp [curveBlocks, hp, ← h1, h2]
    | spinner t =>
      rw [hp] at h1
      simp only [ObjectParams.isSlider] at h1
      simp [curveBlocks, hp, ← h1, h2]
    | slider ct cps n sl len =>
      rw [hp] at h1
      simp only [ObjectParams.isSlider] at h1
      simp [curveBlocks, hp, ← h1, h2, curvePointsOf]

theorem iteration_cases {buf : List Nat} {s : State} {x : Res} (h : iteration buf s = x) :
    x = .undefined ∨
    ∃ sec k st, newSection s.current_section (buf.drop s.i) = some (sec, k) ∧
      caseSection sec (buf.drop (s.i + k)) s.out = some st ∧
      ((∃ e r, st = .ret e r ∧ x = .ret e r) ∨
        (∃ sec1 k1 out1, st = .next sec1 k1 out1 ∧
          (x = .undefined ∨ ∃ k2, x = .next ⟨sec1, s.i + k + k1 + k2, out1⟩))) := by
  unfold iteration at h
  cases hn : newSection s.current_section (buf.drop s.i) with
  | none => simp only [hn] at h; exact Or.inl h.symm
  | some y =>
    obtain ⟨sec1, k⟩ := y
    simp only [hn] at h
    cases hcs : caseSection sec1 (buf.drop (s.i + k)) s.out with
    | none => simp only [hcs] at h; exact Or.inl h.symm
    | some st =>
      refine Or.inr ⟨sec1, k, st, rfl, hcs, ?_⟩
      cases st with
      | ret e1 r1 =>
        simp only [hcs] at h
        exact Or.inl ⟨e1, r1, rfl, h.symm⟩
      | next sec2 k1 out1 =>
        simp only [hcs] at h
        refine Or.inr ⟨sec2, k1, out1, rfl, ?_⟩
        cases hl : skipLine (buf.drop (s.i + k + k1)) with
        | none => simp only [hl] at h; exact Or.inl h.symm
        | some k2 => simp only [hl] at h; exact Or.inr ⟨k2, h.symm⟩

/-- C27.  In every record the parse returns, when the caller passed a record
with no hit objects and a registry count of zero (as in a zeroed record), the
curve-point registry has exactly one entry per slider hit object:
`_total_curve_points_count` is the number of hit objects whose type has bit
value 2, the registry lists the curve-point lists of these hit objects in
their order, and the loop of `FastOsuParser__Free` frees exactly these lists,
each once. -/
theorem registry_one_entry_per_slider (buf : List Nat) (b r : Beatmap) (e : Error)
    (hb : b.hit_objects = []) (hc : b._total_curve_points_count = 0)
    (h : FastOsuParser__Parse buf b = .ret e r) :
    r._total_curve_points_count = (r.hit_objects.filter fun ho => bitAnd ho.type 2).length ∧
    r._total_curve_points = (r.hit_objects.filter fun ho => bitAnd ho.type 2).map curvePointsOf ∧
    FastOsuParser__Free r =
      some ((r.hit_objects.filter fun ho => bitAnd ho.type 2).map curvePointsOf) := by
  have hv : ∀ ho ∈ r.hit_objects, ho.object_params.isSlider = bitAnd ho.type 2 := by
    intro ho hm
    obtain ⟨i, k, hd⟩ := parse_hit_objects buf b r e hb h ho hm
    obtain ⟨k6, hp⟩ := hitObject_some hd
    exact (objectParams_variant hp).1
  have hq : r._total_curve_points = curveBlocks r.hit_objects ∧
      r._total_curve_points_count = (curveBlocks r.hit_objects).length := by
    unfold FastOsuParser__Parse at h
    cases hs : start buf b with
    | none => rw [hs] at h; simp at h
    | some s0 =>
      rw [hs] at h
      have h0 : s0.out.hit_objects = [] ∧ s0.out._total_curve_points = [] ∧
          s0.out._total_curve_points_count = 0 := by
        unfold start at hs
        split at hs
        · simp at hs
        · simp only [Option.some.injEq] at hs
          subst hs
          exact ⟨hb, rfl, hc⟩
      refine run_invariant buf
        (fun s => s.out.hit_objects = [] ∧ s.out._total_curve_points = [] ∧
          s.out._total_curve_points_count = 0)
        (fun r => r._total_curve_points = curveBlocks r.hit_objects ∧
          r._total_curve_points_count = (curveBlocks r.hit_objects).length) ?_ ?_ ?_
        buf.length s0 e r h0 h
      · intro s s1 ⟨h1, h2, h3⟩ hit
        rcases iteration_cases hit with hx | ⟨sec, k, st, -, hcs, hx⟩
        · simp at hx
        · rcases hx with ⟨e1, r1, -, hx⟩ | ⟨sec1, k1, out1, rfl, hx⟩
          · simp at hx
          · rcases hx with hx | ⟨k2, hx⟩
            · simp at hx
            · simp only [Res.next.injEq] at hx
              subst hx
              by_cases hsec : sec = .SECTION_HIT_OBJECTS
              · subst hsec
                obtain ⟨e1, r1, he, -⟩ := caseHitObjects_registry hcs
                simp at he
              · have := caseSection_registry hsec hcs
                simp only [Step.out] at this
                exact ⟨this.1.trans h1, this.2.1.trans h2, this.2.2.trans h3⟩
      · intro s e1 r1 ⟨h1, h2, h3⟩ hit
        rcases iteration_cases hit with hx | ⟨sec, k, st, -, hcs, hx⟩
        · simp at hx
        · rcases hx with ⟨e2, r2, rfl, hx⟩ | ⟨sec1, k1, out1, rfl, hx⟩
          · simp only [Res.ret.injEq] at hx
            obtain ⟨-, rfl⟩ := hx
            by_cases hsec : sec = .SECTION_HIT_OBJECTS
            · subst hsec
              obtain ⟨e3, r3, he, hr1, hr2⟩ := caseHitObjects_registry hcs
              simp only [Step.ret.injEq] at he
              obtain ⟨-, rfl⟩ := he
              rw [h2] at hr1
              rw [h3] at hr2
              exact ⟨by simpa using hr1, by simpa using hr2⟩
            · have := caseSection_registry hsec hcs
              simp only [Step.out] at this
              rw [this.1, this.2.1, this.2.2, h1, h2, h3]
              exact ⟨rfl, rfl⟩
          · rcases hx with hx | ⟨k2, hx⟩
            · simp at hx
            · simp at hx
      · intro s ⟨h1, h2, h3⟩
        rw [h1, h2, h3]
        exact ⟨rfl, rfl⟩
  rw [curveBlocks_filter r.hit_objects hv] at hq
  refine ⟨?_, hq.1, ?_⟩
  · rw [hq.2, List.length_map]
  · unfold FastOsuParser__Free
    rw [hq.2, hq.1]
    simp

/-! ## Integer keys within and beyond `int` -/

theorem atoi_decimal (l : IntLit) (c : Nat) (r : List Nat) (hl : l.isDecimal)
    (hc : isdigit c = false) :
    atoi (l.text ++ c :: r) =
      if -2147483648 ≤ l.val ∧ l.val ≤ 2147483647 then some l.val else none := by
  obtain ⟨hne, hd⟩ := hl
  have hsp := spanDigits_append l.digits c r hd hc
  obtain ⟨d, ds, hds⟩ := List.exists_cons_of_ne_nil hne
  have hd0 : isdigit d = true := by
    rw [hds] at hd
    simp only [List.all_cons, Bool.and_eq_true] at hd
    exact hd.1
  have hns := isdigit_not_space hd0
  have hp := isdigit_props hd0
  unfold atoi IntLit.text IntLit.val
  cases hn : l.neg
  · simp only [Bool.false_eq_true, if_false, List.nil_append]
    have h1 : skipSpaces (l.digits ++ c :: r) = l.digits ++ c :: r := by
      rw [hds]; exact skipSpaces_of_not_space d _ hns
    have h2 : readSign (l.digits ++ c :: r) = some (false, l.digits ++ c :: r) := by
      rw [hds]; simp [readSign, hp.1, hp.2.1]
    rw [h1, h2]
    simp only [hsp, Bool.false_eq_true, if_false]
  · simp only [if_true, List.singleton_append, List.cons_append, List.nil_append]
    have h1 : skipSpaces (45 :: (l.digits ++ c :: r)) = 45 :: (l.digits ++ c :: r) :=
      skipSpaces_of_not_space 45 _ (by decide)
    rw [h1]
    simp only [readSign, if_true, hsp]

theorem decimal_text_no_cr (l : IntLit) (hl : l.isDecimal) : 13 ∉ l.text := by
  obtain ⟨-, hd⟩ := hl
  intro hm
  unfold IntLit.text at hm
  rw [List.mem_append] at hm
  rcases hm with hm | hm
  · split at hm
    · simp at hm
    · simp at hm
  · have := List.all_eq_true.1 hd 13 hm
    simp [isdigit] at this

theorem caseSection_decimal (k : IntKey) (out : Beatmap) (n : IntLit) (rest : List Nat)
    (hn : n.isDecimal) :
    caseSection k.sec (bytes k.text ++ n.text ++ 13 :: rest) out =
      if n.inInt then
        some (.next k.sec ((bytes k.text ++ n.text).length + 1) (k.set out n.val))
      else none := by
  have hsc := scanTo_append 13 n.text rest (decimal_text_no_cr n hn)
  have hat := atoi_decimal n 13 rest hn (by decide)
  rw [intKey_bytes]
  by_cases hi : n.inInt
  · rw [if_pos hi]
    have hi1 : -2147483648 ≤ n.val ∧ n.val ≤ 2147483647 := hi
    rw [if_pos hi1] at hat
    cases k <;>
      simp [IntKey.sec, caseSection, caseGeneral, caseMetadata, sizeof_lit, intKey, contentSize,
        hsc, hat, IntKey.set] <;> omega
  · rw [if_neg hi]
    have hi1 : ¬ (-2147483648 ≤ n.val ∧ n.val ≤ 2147483647) := hi
    rw [if_neg hi1] at hat
    cases k <;>
      simp [IntKey.sec, caseSection, caseGeneral, caseMetadata, sizeof_lit, intKey, contentSize,
        hsc, hat]

/-- C22, amended.  Let the parse come to the `switch` in the section of one of
the four keys `Countdown`, `CountdownOffset`, `BeatmapID`, `BeatmapSetID` with
the cursor on a line `key<delimiter>n` ended by CRLF, `n` a decimal integer
(an optional `-` and digits).  When `n` is representable in `int`, from
-2147483648 to 2147483647, the pass sets the field of that key to `n` and
leaves every other field as it stood, the field of the key with the same stem
included, and the loop goes on in the same section at the first byte of the
following line.  When `n` is not representable in `int` the parse has
undefined behaviour. -/
theorem sibling_int_keys (k : IntKey) (buf : List Nat) (b out : Beatmap) (j : Nat)
    (n : IntLit) (rest : List Nat) (hsw : Switches buf b k.sec j out)
    (hline : buf.drop j = bytes k.text ++ n.text ++ 13 :: 10 :: rest) (hn : n.isDecimal) :
    (n.inInt →
      Reaches buf b ⟨k.sec, j + (bytes k.text ++ n.text).length + 2, k.set out n.val⟩ ∧
      buf.drop (j + (bytes k.text ++ n.text).length + 2) = rest ∧
      k.field (k.set out n.val) = n.val ∧
      k.sibling.field (k.set out n.val) = k.sibling.field out) ∧
    (¬ n.inInt → FastOsuParser__Parse buf b = .undefined) := by
  have hc := caseSection_decimal k out n (10 :: rest) hn
  rw [← hline] at hc
  constructor
  · intro hi
    rw [if_pos hi] at hc
    have hl : skipLine (buf.drop (j + ((bytes k.text ++ n.text).length + 1))) = some 1 := by
      rw [drop_add, hline]
      have e : bytes k.text ++ n.text ++ 13 :: 10 :: rest =
          (bytes k.text ++ n.text ++ [13]) ++ 10 :: rest := by simp
      rw [e, List.drop_left' (by simp only [List.length_append, List.length_singleton])]
      simp [skipLine, scanTo]
    have := switches_next hsw hc hl
    rw [show j + ((bytes k.text ++ n.text).length + 1) + 1 =
      j + (bytes k.text ++ n.text).length + 2 by omega] at this
    refine ⟨this, drop_line buf j _ rest hline, ?_, ?_⟩
    · cases k <;> rfl
    · cases k <;> rfl
  · intro hi
    rw [if_neg hi] at hc
    exact switches_undefined hsw hc

/-! ## Two parses of one buffer -/

theorem switches_header {buf : List Nat} {b : Beatmap} {s : State} {c : Nat} {rest : List Nat}
    (hreach : Reaches buf b s) (hline : buf.drop s.i = 91 :: c :: rest) :
    Switches buf b (sectionOfLetter c) (s.i + (sectionHeader c).2) s.out := by
  have hlt : s.i < buf.length := reaches_lt_of_drop hline
  have hn : newSection s.current_section (buf.drop s.i) =
      some (sectionOfLetter c, (sectionHeader c).2) := by
    rw [hline, ← sectionHeader_fst]
    simp [newSection]
  exact ⟨s, _, hreach, hlt, hn, rfl, rfl⟩

theorem switches_skipped {sec : Section} {buf : List Nat} {b out : Beatmap} {j : Nat}
    {body rest : List Nat} (hsw : Switches buf b sec j out)
    (hline : buf.drop j = body ++ 10 :: rest) (h10 : 10 ∉ body)
    (hu : sec = .SECTION_NONE ∨ unmatched sec (body ++ [10]) = true) :
    Reaches buf b ⟨sec, j + body.length + 1, out⟩ ∧ buf.drop (j + body.length + 1) = rest := by
  have hk : ∃ k, k ≤ body.length ∧
      caseSection sec (body ++ 10 :: rest) out = some (.next sec k out) := by
    rcases hu with hu | hu
    · subst hu
      exact ⟨0, Nat.zero_le _, rfl⟩
    · exact caseSection_unmatched sec body rest out hu
  obtain ⟨k, hk, hc⟩ := hk
  rw [← hline] at hc
  have hl : skipLine (buf.drop (j + k)) = some (body.length - k + 1) := by
    rw [drop_add, hline, List.drop_append_of_le_length hk]
    have := skipLine_append (body.drop k) rest (fun hm => h10 (List.mem_of_mem_drop hm))
    simpa using this
  have := switches_next hsw hc hl
  rw [show j + k + (body.length - k + 1) = j + body.length + 1 by omega] at this
  refine ⟨this, ?_⟩
  rw [Nat.add_assoc, drop_add, hline]
  have e : body ++ 10 :: rest = (body ++ [10]) ++ rest := by simp
  rw [e]
  exact List.drop_left' (by simp)

theorem headerText_bytes (sec : Section) (h : isKeySection sec = true) :
    ∃ c name, bytes (headerText sec) = 91 :: c :: name ∧
      sectionHeader c = (sec, (bytes (headerText sec)).length) := by
  cases sec <;> simp [isKeySection] at h
  · exact ⟨71, bytes "eneral]\r\n", by decide, by decide⟩
  · exact ⟨77, bytes "etadata]\r\n", by decide, by decide⟩
  · exact ⟨68, bytes "ifficulty]\r\n", by decide, by decide⟩

theorem unmatched_bracket (sec : Section) (body : List Nat) (h : isKeySection sec = true) :
    unmatched sec (91 :: body ++ [10]) = true := by
  cases sec <;> simp [isKeySection] at h <;> simp [unmatched]

/-- C20, amended.  (1) Whenever a pass of the loop starts with the cursor on a
`[`, the `switch` of that pass runs in the section given by the byte after the
`[`, whatever the section was before: `G` General, `M` Metadata, `D`
Difficulty, `T` TimingPoints, `H` HitObjects, any other byte None.  (2) A pass
starts at the first `[` of the input.  (3) A pass starts at a line that
begins with `[` when the parse executes the `switch` on the line before it and
skips that line whole: any line when the `switch` runs in the none state, and
in a key section a line that the dispatcher takes for none of the keys
(`unmatched`: the first byte starts no key, as in a blank line, or the byte
at the offset that tells the keys with that first byte apart lies on the line
and selects none).  (4) A line that begins with `[` and directly follows a
header line `[General]`, `[Metadata]` or `[Difficulty]` at which a pass starts
gets no pass: that pass reads it as a line of the section just entered and
ends behind it, in that section and with the record unchanged. -/
theorem header_line_dispatch (buf : List Nat) (b : Beatmap) :
    (∀ (s : State) (c : Nat) (rest : List Nat), Reaches buf b s →
      buf.drop s.i = 91 :: c :: rest →
      Switches buf b (sectionOfLetter c) (s.i + (sectionHeader c).2) s.out) ∧
    (∀ (p rest : List Nat), buf = p ++ 91 :: rest → 91 ∉ p →
      Reaches buf b ⟨.SECTION_NONE, p.length, { b with _total_curve_points := [] }⟩) ∧
    (∀ (sec0 : Section) (j : Nat) (out : Beatmap) (body rest : List Nat) (c : Nat),
      Switches buf b sec0 j out → buf.drop j = body ++ 10 :: 91 :: c :: rest → 10 ∉ body →
      (sec0 = .SECTION_NONE ∨ unmatched sec0 (body ++ [10]) = true) →
      Reaches buf b ⟨sec0, j + body.length + 1, out⟩ ∧
      Switches buf b (sectionOfLetter c) (j + body.length + 1 + (sectionHeader c).2) out) ∧
    (∀ (s : State) (sec : Section) (body rest : List Nat), Reaches buf b s →
      isKeySection sec = true →
      buf.drop s.i = bytes (headerText sec) ++ 91 :: body ++ 10 :: rest → 10 ∉ body →
      iteration buf s =
        .next ⟨sec, s.i + (bytes (headerText sec)).length + (body.length + 2), s.out⟩) := by
  refine ⟨fun s c rest hr hl => switches_header hr hl, ?_, ?_, ?_⟩
  · intro p rest hbuf hp
    refine ⟨⟨.SECTION_NONE, p.length, { b with _total_curve_points := [] }⟩, 0, ?_, rfl⟩
    simp [start, hbuf, scanTo_append 91 p rest hp]
  · intro sec0 j out body rest c hsw hline h10 hu
    obtain ⟨hr, hd⟩ := switches_skipped hsw hline h10 hu
    exact ⟨hr, switches_header hr hd⟩
  · intro s sec body rest hr hsec hline h10
    obtain ⟨c, name, hb, hh⟩ := headerText_bytes sec hsec
    have hline1 : buf.drop s.i = 91 :: c :: (name ++ 91 :: body ++ 10 :: rest) := by
      rw [hline, hb]; simp
    have hn : newSection s.current_section (buf.drop s.i) =
        some (sec, (bytes (headerText sec)).length) := by
      rw [hline1, ← hh]
      simp [newSection]
    have hd : buf.drop (s.i + (bytes (headerText sec)).length) =
        (91 :: body) ++ 10 :: rest := by
      rw [drop_add, hline]
      have e : bytes (headerText sec) ++ 91 :: body ++ 10 :: rest =
          bytes (headerText sec) ++ ((91 :: body) ++ 10 :: rest) := by simp
      rw [e]
      exact List.drop_left' rfl
    obtain ⟨k, hk, hc⟩ := caseSection_unmatched sec (91 :: body) rest s.out
      (unmatched_bracket sec body hsec)
    rw [← hd] at hc
    have hl : skipLine (buf.drop (s.i + (bytes (headerText sec)).length + k)) =
        some ((91 :: body).length - k + 1) := by
      rw [drop_add, hd, List.drop_append_of_le_length hk]
      have h10a : 10 ∉ (91 :: body) := by
        simp only [List.mem_cons, not_or]
        exact ⟨by decide, h10⟩
      have := skipLine_append ((91 :: body).drop k) rest
        (fun hm => h10a (List.mem_of_mem_drop hm))
      simpa using this
    unfold iteration
    simp only [hn, hc, hl, List.length_cons] at hk ⊢
    congr 2
    omega

/-! ## The concrete scenario -/

/-- The parse of the scenario meets undefined behaviour. -/
theorem scenario_undefined : FastOsuParser__Parse scenario zeroBeatmap = .undefined := by
  decide

/-- C1 (scenario, hit objects).  On the input of the scenario the loop reaches
the `[HitObjects]` line at index 307 and the pre-scan counts two lines.  The
first pass of the loop over `ho` decodes the circle (time 1000), but its skip
of `hitSound` runs over the end of the line to the first comma of the second
line, so the pass consumes both lines (41 bytes, to the end of the buffer).
The second pass reads outside the buffer: no spinner is decoded and the parse
has no defined result. -/
theorem scenario_hit_objects :
    (reached scenario zeroBeatmap 18).map (fun s => (s.current_section, s.i)) =
      some (.SECTION_NONE, 307) ∧
    newSection .SECTION_NONE (scenario.drop 307) = some (.SECTION_HIT_OBJECTS, 14) ∧
    countHitObjects (scenario.drop 321) true 0 = some 2 ∧
    hitObject (scenario.drop 321) = some (⟨100, 100, 1000, 1, .unset⟩, 41) ∧
    321 + 41 = scenario.length ∧
    hitObject (scenario.drop (321 + 41)) = none ∧
    fillHitObjects 2 (scenario.drop 321) = none ∧
    FastOsuParser__Parse scenario zeroBeatmap = .undefined := by
  refine ⟨by decide, by decide, by decide, by decide, by decide, by decide, by decide,
    scenario_undefined⟩

/-- C2 (scenario, mode and title).  When the loop reaches the `[HitObjects]`
line of the scenario the record holds `mode = 0`, `title = "Song"` and
`title_size = 4`; but the parse does not return `SUCCESS`: the hit-object
builder then reads outside the buffer. -/
theorem scenario_mode_title :
    (reached scenario zeroBeatmap 18).map
        (fun s => (s.i, s.out.mode, s.out.title.take 4, s.out.title_size)) =
      some (307, 0, bytes "Song", 4) ∧
    FastOsuParser__Parse scenario zeroBeatmap = .undefined ∧
    ∀ r, FastOsuParser__Parse scenario zeroBeatmap ≠ .ret .SUCCESS r := by
  refine ⟨by decide, scenario_undefined, ?_⟩
  intro r h
  rw [scenario_undefined] at h
  cases h

/-- C3 (scenario, timing point).  When the loop reaches the `[HitObjects]`
line of the scenario the record holds one timing point with `time = 0`,
`beat_length = 500`, `meter = 4`, `b_uninherited = 1`, and
`timing_points_count = 1`; but the parse yields no record: the hit-object
builder then reads outside the buffer. -/
theorem scenario_timing_point :
    (reached scenario zeroBeatmap 18).map
        (fun s => (s.i, s.out.timing_points, s.out.timing_points_count)) =
      some (307, [⟨0, ⟨500, 0⟩, 4, 1⟩], 1) ∧
    FastOsuParser__Parse scenario zeroBeatmap = .undefined := by
  exact ⟨by decide, scenario_undefined⟩

/-- C4 (count of hit objects).  On a `[HitObjects]` section of two
CRLF-terminated lines the pre-scan counts 2, but the loop over `ho` cannot
fill two entries: the second pass reads outside the buffer, so
`hit_objects_count` is never assigned. -/
theorem two_hit_objects_not_filled :
    newSection .SECTION_NONE twoHitObjects = some (.SECTION_HIT_OBJECTS, 14) ∧
    countHitObjects (twoHitObjects.drop 14) true 0 = some 2 ∧
    (fillHitObjects 1 (twoHitObjects.drop 14)).map (fun r => r.2) = some 41 ∧
    14 + 41 = twoHitObjects.length ∧
    fillHitObjects 2 (twoHitObjects.drop 14) = none ∧
    caseHitObjects (twoHitObjects.drop 14) zeroBeatmap = none ∧
    FastOsuParser__Parse twoHitObjects zeroBeatmap = .undefined := by
  decide

/-- C10 (hit-object fields, realignment).  On a circle line `64,64,500,1,0`
followed by a slider line the first pass of the loop over `ho` does not stop
at the start of the second line (15 bytes on) but consumes both lines (49
bytes, to the end of the buffer); the second entry is then read outside the
buffer, so its fields are not those of the second line. -/
theorem circle_line_not_realigned :
    (bytes "64,64,500,1,0\r\n").length = 15 ∧
    circleThenSlider.drop 14 =
      bytes "64,64,500,1,0\r\n" ++ bytes "256,192,3000,2,0,B|300:200,1,140\r\n" ∧
    hitObject (circleThenSlider.drop 14) = some (⟨64, 64, 500, 1, .unset⟩, 49) ∧
    14 + 49 = circleThenSlider.length ∧
    hitObject (circleThenSlider.drop (14 + 49)) = none ∧
    FastOsuParser__Parse circleThenSlider zeroBeatmap = .undefined := by
  decide

/-! ## Further concrete inputs -/

/-- C11.  The parse of `negativeCurve`, whose slider line reads
`B|-5:3|7:8,2,100`, succeeds, but the entry is not the one the line denotes:
the curve points come out as (-5,5), (3,7) instead of (-5,3), (7,8), the slide
count as 8 instead of 2 and the length as 2 instead of 100.  The skip
`while (isdigit(*i)) i++; i++;` after `atoi` stops on the minus sign, so every
later read starts one field early. -/
theorem negative_curve_coordinates :
    FastOsuParser__Parse negativeCurve zeroBeatmap = .ret .SUCCESS negativeCurveRecord ∧
    negativeCurveRecord.hit_objects =
      [⟨256, 192, 3000, 2, .slider 66 [⟨-5, 5⟩, ⟨3, 7⟩] 2 8 ⟨2, 0⟩⟩] ∧
    negativeCurveRecord.hit_objects ≠
      [⟨256, 192, 3000, 2, .slider 66 [⟨-5, 3⟩, ⟨7, 8⟩] 2 2 ⟨100, 0⟩⟩] := by
  decide

/-- C19, as stated, fails.  The parse of `unknownCurve`, whose slider line
reads `X|300:200,1,140`, succeeds and the entry has the curve type `X`
(byte 88), none of `B`, `C`, `L`, `P`. -/
theorem curve_type_not_validated :
    FastOsuParser__Parse unknownCurve zeroBeatmap = .ret .SUCCESS unknownCurveRecord ∧
    unknownCurveRecord.hit_objects =
      [⟨256, 192, 3000, 2, .slider 88 [⟨300, 200⟩] 1 1 ⟨140, 0⟩⟩] ∧
    (88 : Nat) ∉ [66, 67, 76, 80] := by
  decide

/-- C16, as stated, fails.  The header `[Generic]` is none of the five section
names, yet the parse of `genericHeader` reads the `Mode` line under it as a
line of `[General]`: it returns with `mode` 3 in a record that was zeroed. -/
theorem generic_header_read :
    FastOsuParser__Parse genericHeader zeroBeatmap = .ret .SUCCESS { zeroBeatmap with mode := 3 } ∧
    ({ zeroBeatmap with mode := 3 } : Beatmap) ≠ zeroBeatmap ∧
    reached genericHeader zeroBeatmap 1 = some ⟨.SECTION_GENERAL, 20, { zeroBeatmap with mode := 3 }⟩ := by
  decide

/-- C20, as stated, fails.  In `headerAfterHeader` the line `[Metadata]`
directly follows the `[General]` header.  The pass that meets `[General]` takes
the line `[Metadata]` for a line of that section and skips it: at the next
test of the loop the cursor stands behind it (index 23) with the section still
General, the `Title` line is read as a line of `[General]`, and the parse
returns the zeroed record with no title. -/
theorem header_after_header_skipped :
    headerAfterHeader.drop 11 = bytes "[Metadata]\r\nTitle:Song\r\n" ∧
    reached headerAfterHeader zeroBeatmap 0 = some ⟨.SECTION_NONE, 0, zeroBeatmap⟩ ∧
    reached headerAfterHeader zeroBeatmap 1 = some ⟨.SECTION_GENERAL, 23, zeroBeatmap⟩ ∧
    reached headerAfterHeader zeroBeatmap 2 = some ⟨.SECTION_GENERAL, 35, zeroBeatmap⟩ ∧
    FastOsuParser__Parse headerAfterHeader zeroBeatmap = .ret .SUCCESS zeroBeatmap ∧
    zeroBeatmap.title_size = 0 := by
  decide

/-- C17, as stated, fails.  On each of five buffers with a missing delimiter
(no `[` at all; a `Title` line without carriage return; a timing-point line
with two commas; a hit-object line with one comma; a last line without line
feed) the parse does not stop with a failure code: a scanning loop runs past
the last byte of the buffer, which is undefined behaviour. -/
theorem missing_delimiter_read_outside :
    FastOsuParser__Parse noSection zeroBeatmap = .undefined ∧
    FastOsuParser__Parse titleWithoutReturn zeroBeatmap = .undefined ∧
    FastOsuParser__Parse shortTimingLine zeroBeatmap = .undefined ∧
    FastOsuParser__Parse shortHitLine zeroBeatmap = .undefined ∧
    FastOsuParser__Parse lastLineOpen zeroBeatmap = .undefined := by
  decide

/-- C21, as stated, fails.  In `shortLine` the line `S` of the `[General]`
section matches no key, but it is not skipped whole: after the first byte `S`
the cursor is moved 7 bytes on, past the end of the line and into the `Mode`
line, before the next byte is tested.  The pass ends behind the `Mode` line
(index 23, the end of the input), and the parse returns the zeroed record:
`Mode: 3` on the following line is not decoded.  In `misnamedKey` the line
`Magic: 7` names no key either, but its first byte `M` selects `Mode`, and the
parse returns with `mode` 7. -/
theorem short_line_overshoots :
    shortLine.drop 11 = bytes "S\r\n" ++ bytes "Mode: 3\r\n" ∧
    reached shortLine zeroBeatmap 0 = some ⟨.SECTION_NONE, 0, zeroBeatmap⟩ ∧
    reached shortLine zeroBeatmap 1 = some ⟨.SECTION_GENERAL, 23, zeroBeatmap⟩ ∧
    shortLine.length = 23 ∧
    FastOsuParser__Parse shortLine zeroBeatmap = .ret .SUCCESS zeroBeatmap ∧
    zeroBeatmap.mode = 0 ∧
    FastOsuParser__Parse misnamedKey zeroBeatmap = .ret .SUCCESS { zeroBeatmap with mode := 7 } := by
  decide

/-- C22, as stated, fails.  The value 2147483648 is a decimal integer, but on
the line `Countdown: 2147483648` the field `countdown` is not set to it: the
value is not representable in `int`, `atoi` has undefined behaviour there, and
the parse of `countdownBeyondInt` has no defined result.  With 2147483647 on
the line the field is set. -/
theorem countdown_beyond_int :
    FastOsuParser__Parse countdownBeyondInt zeroBeatmap = .undefined ∧
    FastOsuParser__Parse (bytes "[General]\r\nCountdown: 2147483647\r\n") zeroBeatmap =
      .ret .SUCCESS { zeroBeatmap with countdown := 2147483647 } := by
  decide

/-- The count theorem at `timingOnly`: one line, one entry. -/
theorem timing_points_count_eq_witness :
    Reaches timingOnly zeroBeatmap ⟨.SECTION_NONE, 0, zeroBeatmap⟩ ∧
    (∀ l ∈ [scenarioTimingLine], l.wf) ∧
    ((∃ s1, Reaches timingOnly zeroBeatmap s1 ∧
        iteration timingOnly ⟨.SECTION_NONE, 0, zeroBeatmap⟩ = .next s1 ∧
        timingOnly.drop s1.i = bytes "[Colours]\r\nCombo1 : 255,0,0\r\n" ∧
        s1.out.timing_points_count = [scenarioTimingLine].length ∧
        s1.out.timing_points.length = [scenarioTimingLine].length) ∧
      (noTimingHeader (bytes "[Colours]\r\nCombo1 : 255,0,0\r\n") = true →
        ∀ e r, FastOsuParser__Parse timingOnly zeroBeatmap = .ret e r →
          r.timing_points_count = [scenarioTimingLine].length ∧
          r.timing_points.length = [scenarioTimingLine].length)) :=
  have h1 : Reaches timingOnly zeroBeatmap ⟨.SECTION_NONE, 0, zeroBeatmap⟩ :=
    reaches_of_reached 0 (by decide)
  have h2 : ∀ l ∈ [scenarioTimingLine], l.wf := by decide
  ⟨h1, h2, timing_points_count_eq timingOnly zeroBeatmap ⟨.SECTION_NONE, 0, zeroBeatmap⟩
    [scenarioTimingLine] (bytes "[Colours]\r\nCombo1 : 255,0,0\r\n") h1 (by decide) h2⟩

/-- The curve-point theorem at `oneSlider`: two `:` bytes, two points. -/
theorem curve_points_count_eq_witness :
    zeroBeatmap.hit_objects = [] ∧
    FastOsuParser__Parse oneSlider zeroBeatmap = .ret .SUCCESS oneSliderRecord ∧
    oneSliderHit ∈ oneSliderRecord.hit_objects ∧
    bitAnd oneSliderHit.type 0b00000010 = true ∧
    ∃ i k ct cps n sl len, hitObject (oneSlider.drop i) = some (oneSliderHit, k) ∧
      oneSliderHit.object_params = .slider ct cps n sl len ∧
      n = (curvePointField (oneSlider.drop i)).count 58 ∧ cps.length = n :=
  have h1 : FastOsuParser__Parse oneSlider zeroBeatmap = .ret .SUCCESS oneSliderRecord := by
    decide
  have h2 : oneSliderHit ∈ oneSliderRecord.hit_objects := by decide
  have h3 : bitAnd oneSliderHit.type 0b00000010 = true := by decide
  ⟨rfl, h1, h2, h3,
    curve_points_count_eq oneSlider zeroBeatmap oneSliderRecord .SUCCESS rfl h1 oneSliderHit h2 h3⟩

/-- The string-key theorem at `longAudio`: 256 content bytes after the
`[General]` header. -/
theorem string_key_too_long_witness :
    Switches longAudio zeroBeatmap StrKey.AudioFilename.sec 11 zeroBeatmap ∧
    longAudio.drop 11 =
      bytes StrKey.AudioFilename.text ++ List.replicate 256 97 ++ 13 :: 10 :: [] ∧
    13 ∉ List.replicate 256 97 ∧
    ((255 < (List.replicate 256 97).length →
        FastOsuParser__Parse longAudio zeroBeatmap =
          .ret StrKey.AudioFilename.tooLong zeroBeatmap) ∧
      ((List.replicate 256 97).length ≤ 255 →
        Reaches longAudio zeroBeatmap
          ⟨StrKey.AudioFilename.sec,
            11 + (bytes StrKey.AudioFilename.text ++ List.replicate 256 97).length + 2,
            StrKey.AudioFilename.store zeroBeatmap (List.replicate 256 97)⟩)) :=
  have h1 : Switches longAudio zeroBeatmap StrKey.AudioFilename.sec 11 zeroBeatmap :=
    switches_of_reached 0 ⟨.SECTION_NONE, 0, zeroBeatmap⟩ 11
      (by decide) (by decide) (by decide)
  have h2 : longAudio.drop 11 =
      bytes StrKey.AudioFilename.text ++ List.replicate 256 97 ++ 13 :: 10 :: [] := by decide
  have h3 : 13 ∉ List.replicate 256 97 := by decide
  ⟨h1, h2, h3,
    string_key_too_long .AudioFilename longAudio zeroBeatmap zeroBeatmap 11
      (List.replicate 256 97) [] h1 h2 h3⟩

/-- The bounded-string theorem at `shortTitle`, for the key `Title`. -/
theorem bounded_strings_after_parse_witness :
    FastOsuParser__Parse shortTitle zeroBeatmap = .ret .SUCCESS shortTitleRecord ∧
    ((StrKey.Title.buffer shortTitleRecord = StrKey.Title.buffer zeroBeatmap ∧
        StrKey.Title.size shortTitleRecord = StrKey.Title.size zeroBeatmap) ∨
      ∃ i content rest, StrKey.Title.selects (shortTitle.drop i) ∧
        shortTitle.drop (i + StrKey.Title.skip) = content ++ 13 :: rest ∧ 13 ∉ content ∧
        StrKey.Title.size shortTitleRecord = content.length ∧ content.length ≤ 255 ∧
        (StrKey.Title.buffer shortTitleRecord).take (StrKey.Title.size shortTitleRecord) =
          content) :=
  have h1 : FastOsuParser__Parse shortTitle zeroBeatmap = .ret .SUCCESS shortTitleRecord := by
    decide
  ⟨h1, bounded_strings_after_parse shortTitle zeroBeatmap shortTitleRecord h1 .Title⟩

/-- C9, as stated, fails.  On an input whose `Title` line carries 256 content
bytes after a `[General]` section, the parse returns the title-too-long error,
but the record is not as before the call: `audio_file_name`,
`audio_file_name_size` and `mode` hold what the `[General]` lines gave. -/
theorem long_title_populates_record :
    FastOsuParser__Parse longTitle zeroBeatmap =
      .ret .ERROR_SECTION_METADATA_TITLE_TOO_LONG longTitleRecord ∧
    longTitleRecord ≠ zeroBeatmap ∧
    longTitleRecord.audio_file_name_size = 8 ∧ zeroBeatmap.audio_file_name_size = 0 ∧
    longTitleRecord.mode = 1 ∧ zeroBeatmap.mode = 0 := by
  decide

/-- The amended theorem at `longTitle`: the record returned is the one the
`[General]` lines left. -/
theorem title_too_long_keeps_record_witness :
    Switches longTitle zeroBeatmap .SECTION_METADATA 59 longTitleRecord ∧
    longTitle.drop 59 = bytes "Title:" ++ List.replicate 256 97 ++ 13 :: [10] ∧
    13 ∉ List.replicate 256 97 ∧
    256 ≤ (List.replicate 256 97).length ∧
    FastOsuParser__Parse longTitle zeroBeatmap =
      .ret .ERROR_SECTION_METADATA_TITLE_TOO_LONG longTitleRecord :=
  have h1 : Switches longTitle zeroBeatmap .SECTION_METADATA 59 longTitleRecord :=
    switches_of_reached 3 ⟨.SECTION_GENERAL, 47, longTitleRecord⟩ 12
      (by decide) (by decide) (by decide)
  have h2 : longTitle.drop 59 = bytes "Title:" ++ List.replicate 256 97 ++ 13 :: [10] := by
    decide
  have h3 : 13 ∉ List.replicate 256 97 := by decide
  have h4 : 256 ≤ (List.replicate 256 97).length := by decide
  ⟨h1, h2, h3, h4,
    title_too_long_keeps_record longTitle zeroBeatmap longTitleRecord 59
      (List.replicate 256 97) [10] h1 h2 h3 h4⟩

/-- The builder theorem at `threeHitObjects`: three lines, three entries. -/
theorem hit_objects_of_lines_example :
    Reaches threeHitObjects zeroBeatmap ⟨.SECTION_NONE, 0, zeroBeatmap⟩ ∧
    threeHitObjects.drop 0 =
      bytes "[HitObjects]\r\n" ++ (threeHitLines.map HitLine.text).flatten ∧
    (∀ l ∈ threeHitLines, l.wf) ∧
    FastOsuParser__Parse threeHitObjects zeroBeatmap = .ret .SUCCESS
      { zeroBeatmap with
        hit_objects := threeHitLines.map HitLine.decoded
        hit_objects_count := threeHitLines.length
        _total_curve_points :=
          zeroBeatmap._total_curve_points ++ curveBlocks (threeHitLines.map HitLine.decoded)
        _total_curve_points_count :=
          zeroBeatmap._total_curve_points_count +
            (curveBlocks (threeHitLines.map HitLine.decoded)).length } :=
  have h1 : Reaches threeHitObjects zeroBeatmap ⟨.SECTION_NONE, 0, zeroBeatmap⟩ :=
    reaches_of_reached 0 (by decide)
  have h2 : threeHitObjects.drop 0 =
      bytes "[HitObjects]\r\n" ++ (threeHitLines.map HitLine.text).flatten := by decide
  have h3 : ∀ l ∈ threeHitLines, l.wf := by decide
  ⟨h1, h2, h3,
    hit_objects_of_lines threeHitObjects zeroBeatmap ⟨.SECTION_NONE, 0, zeroBeatmap⟩
      threeHitLines h1 h2 h3⟩

/-- The spinner theorem at `spinnerLine`, type 12 and a tail after `endTime`. -/
theorem spinner_end_time_witness :
    spinnerLine.wf ∧
    (bitAnd (12 : Int) 8 = true ∧ bitAnd (12 : Int) 2 = false ∧
      hitObject (spinnerLine.text ++ bytes "64,64,500,1,0,\r\n") =
        some (⟨256, 192, 2000, 12, .spinner 3000⟩, spinnerLine.text.length)) :=
  have h1 : spinnerLine.wf := by decide
  ⟨h1, spinner_end_time ⟨false, bytes "256"⟩ ⟨false, bytes "192"⟩ ⟨false, bytes "2000"⟩
    ⟨false, bytes "12"⟩ ⟨false, bytes "3000"⟩ (bytes "0") (bytes ",0:0:0:0:")
    (bytes "64,64,500,1,0,\r\n") h1⟩

/-- The payload theorem at `fourHitObjects`, for the entry of type 10: both
bits set, slider payload. -/
theorem payload_by_type_bits_witness :
    zeroBeatmap.hit_objects = [] ∧
    FastOsuParser__Parse fourHitObjects zeroBeatmap = .ret .SUCCESS fourHitRecord ∧
    (⟨300, 300, 4000, 10, .slider 76 [⟨310, 320⟩] 1 1 ⟨50, 0⟩⟩ : HitObject) ∈
      fourHitRecord.hit_objects ∧
    (ObjectParams.isSlider (.slider 76 [⟨310, 320⟩] 1 1 ⟨50, 0⟩) = bitAnd (10 : Int) 2 ∧
      ObjectParams.isSpinner (.slider 76 [⟨310, 320⟩] 1 1 ⟨50, 0⟩) =
        (!bitAnd (10 : Int) 2 && bitAnd (10 : Int) 8) ∧
      ObjectParams.isUnset (.slider 76 [⟨310, 320⟩] 1 1 ⟨50, 0⟩) =
        (!bitAnd (10 : Int) 2 && !bitAnd (10 : Int) 8)) :=
  have h1 : FastOsuParser__Parse fourHitObjects zeroBeatmap = .ret .SUCCESS fourHitRecord := by
    decide
  have h2 : (⟨300, 300, 4000, 10, .slider 76 [⟨310, 320⟩] 1 1 ⟨50, 0⟩⟩ : HitObject) ∈
      fourHitRecord.hit_objects := by decide
  ⟨rfl, h1, h2,
    payload_by_type_bits fourHitObjects zeroBeatmap fourHitRecord .SUCCESS rfl h1 _ h2⟩

/-- The curve-type theorem at `unknownCurve`: the entry has the byte `X` of
the file. -/
theorem curve_type_is_file_byte_witness :
    zeroBeatmap.hit_objects = [] ∧
    FastOsuParser__Parse unknownCurve zeroBeatmap = .ret .SUCCESS unknownCurveRecord ∧
    unknownCurveHit ∈ unknownCurveRecord.hit_objects ∧
    unknownCurveHit.object_params = .slider 88 [⟨300, 200⟩] 1 1 ⟨140, 0⟩ ∧
    ∃ i k, hitObject (unknownCurve.drop i) = some (unknownCurveHit, k) ∧
      curveTypeByte (unknownCurve.drop i) = some 88 :=
  have h1 : FastOsuParser__Parse unknownCurve zeroBeatmap = .ret .SUCCESS unknownCurveRecord := by
    decide
  have h2 : unknownCurveHit ∈ unknownCurveRecord.hit_objects := by decide
  ⟨rfl, h1, h2, rfl,
    curve_type_is_file_byte unknownCurve zeroBeatmap unknownCurveRecord .SUCCESS rfl h1
      unknownCurveHit h2 88 [⟨300, 200⟩] 1 1 ⟨140, 0⟩ rfl⟩

/-- The theorem at `unicodeKeys`: the `TitleUnicode` line directly after the
header leaves the zeroed record, and the `Title` line after it is stored. -/
theorem unicode_sibling_skipped_witness :
    Switches unicodeKeys zeroBeatmap .SECTION_METADATA 12 zeroBeatmap ∧
    Switches unicodeKeys zeroBeatmap .SECTION_METADATA 30 zeroBeatmap ∧
    unicodeKeys.drop 12 = bytes UniKey.Title.unicodeText ++ bytes "Uta" ++
      13 :: 10 :: bytes "Title:Song\r\nArtist:Someone\r\nArtistUnicode:Dareka\r\n" ∧
    unicodeKeys.drop 30 = bytes UniKey.Title.key.text ++ bytes "Song" ++
      13 :: 10 :: bytes "Artist:Someone\r\nArtistUnicode:Dareka\r\n" ∧
    (Reaches unicodeKeys zeroBeatmap
        ⟨.SECTION_METADATA, 12 + (bytes UniKey.Title.unicodeText ++ bytes "Uta").length + 2,
          zeroBeatmap⟩ ∧
      unicodeKeys.drop (12 + (bytes UniKey.Title.unicodeText ++ bytes "Uta").length + 2) =
        bytes "Title:Song\r\nArtist:Someone\r\nArtistUnicode:Dareka\r\n") ∧
    (Reaches unicodeKeys zeroBeatmap
        ⟨.SECTION_METADATA, 30 + (bytes UniKey.Title.key.text ++ bytes "Song").length + 2,
          UniKey.Title.key.store zeroBeatmap (bytes "Song")⟩ ∧
      unicodeKeys.drop (30 + (bytes UniKey.Title.key.text ++ bytes "Song").length + 2) =
        bytes "Artist:Someone\r\nArtistUnicode:Dareka\r\n" ∧
      UniKey.Title.key.size (UniKey.Title.key.store zeroBeatmap (bytes "Song")) =
        (bytes "Song").length ∧
      (UniKey.Title.key.buffer (UniKey.Title.key.store zeroBeatmap (bytes "Song"))).take
        (bytes "Song").length = bytes "Song") :=
  have h1 : Switches unicodeKeys zeroBeatmap .SECTION_METADATA 12 zeroBeatmap :=
    switches_of_reached 0 ⟨.SECTION_NONE, 0, zeroBeatmap⟩ 12 (by decide) (by decide) (by decide)
  have h2 : Switches unicodeKeys zeroBeatmap .SECTION_METADATA 30 zeroBeatmap :=
    switches_of_reached 1 ⟨.SECTION_METADATA, 30, zeroBeatmap⟩ 0 (by decide) (by decide)
      (by decide)
  have h3 : unicodeKeys.drop 12 = bytes UniKey.Title.unicodeText ++ bytes "Uta" ++
      13 :: 10 :: bytes "Title:Song\r\nArtist:Someone\r\nArtistUnicode:Dareka\r\n" := by decide
  have h4 : unicodeKeys.drop 30 = bytes UniKey.Title.key.text ++ bytes "Song" ++
      13 :: 10 :: bytes "Artist:Someone\r\nArtistUnicode:Dareka\r\n" := by decide
  ⟨h1, h2, h3, h4,
    (unicode_sibling_skipped .Title unicodeKeys zeroBeatmap zeroBeatmap 12 (bytes "Uta")
      (bytes "Title:Song\r\nArtist:Someone\r\nArtistUnicode:Dareka\r\n") h1).1 h3 (by decide),
    (unicode_sibling_skipped .Title unicodeKeys zeroBeatmap zeroBeatmap 30 (bytes "Song")
      (bytes "Artist:Someone\r\nArtistUnicode:Dareka\r\n") h2).2 h4 (by decide) (by decide)⟩

/-- The theorem at `eventsThenGeneral`: the `[Events]` header and its three
lines are skipped. -/
theorem unknown_header_skipped_witness :
    Reaches eventsThenGeneral zeroBeatmap ⟨.SECTION_NONE, 0, zeroBeatmap⟩ ∧
    eventsThenGeneral.drop 0 = 91 :: 69 :: bytes "vents]\r" ++ 10 ::
      (([bytes "//Background and Video events\r", bytes "0,0,bg.jpg,0,0\r", bytes "\r"].map
        fun l => l ++ [10]).flatten ++ bytes "[General]\r\nMode: 1\r\n") ∧
    isSectionLetter 69 = false ∧ 10 ∉ 69 :: bytes "vents]\r" ∧
    (∀ l ∈ [bytes "//Background and Video events\r", bytes "0,0,bg.jpg,0,0\r", bytes "\r"],
      isSkipped l) ∧
    (Switches eventsThenGeneral zeroBeatmap .SECTION_NONE (0 + 1) zeroBeatmap ∧
      Reaches eventsThenGeneral zeroBeatmap ⟨.SECTION_NONE,
        0 + ((bytes "vents]\r").length + 3) +
          ([bytes "//Background and Video events\r", bytes "0,0,bg.jpg,0,0\r", bytes "\r"].map
            fun l => l ++ [10]).flatten.length, zeroBeatmap⟩ ∧
      eventsThenGeneral.drop (0 + ((bytes "vents]\r").length + 3) +
          ([bytes "//Background and Video events\r", bytes "0,0,bg.jpg,0,0\r", bytes "\r"].map
            fun l => l ++ [10]).flatten.length) = bytes "[General]\r\nMode: 1\r\n") :=
  have h1 : Reaches eventsThenGeneral zeroBeatmap ⟨.SECTION_NONE, 0, zeroBeatmap⟩ :=
    reaches_of_reached 0 (by decide)
  have h2 : eventsThenGeneral.drop 0 = 91 :: 69 :: bytes "vents]\r" ++ 10 ::
      (([bytes "//Background and Video events\r", bytes "0,0,bg.jpg,0,0\r", bytes "\r"].map
        fun l => l ++ [10]).flatten ++ bytes "[General]\r\nMode: 1\r\n") := by decide
  have h3 : isSectionLetter 69 = false := by decide
  have h4 : 10 ∉ 69 :: bytes "vents]\r" := by decide
  have h5 : ∀ l ∈ [bytes "//Background and Video events\r", bytes "0,0,bg.jpg,0,0\r",
      bytes "\r"], isSkipped l := by decide
  ⟨h1, h2, h3, h4, h5,
    unknown_header_skipped eventsThenGeneral zeroBeatmap ⟨.SECTION_NONE, 0, zeroBeatmap⟩ 69
      (bytes "vents]\r") [bytes "//Background and Video events\r", bytes "0,0,bg.jpg,0,0\r",
        bytes "\r"] (bytes "[General]\r\nMode: 1\r\n") h1 h2 h3 h4 h5⟩

/-- The five parts of the theorem, each at a buffer with the delimiter in
question missing. -/
theorem missing_delimiter_undefined_witness :
    FastOsuParser__Parse noSection zeroBeatmap = .undefined ∧
    FastOsuParser__Parse titleWithoutReturn zeroBeatmap = .undefined ∧
    FastOsuParser__Parse shortTimingLine zeroBeatmap = .undefined ∧
    FastOsuParser__Parse shortHitLine zeroBeatmap = .undefined ∧
    (FastOsuParser__Parse openDifficulty zeroBeatmap = .undefined ∨
      ∃ e, e ≠ .SUCCESS ∧ FastOsuParser__Parse openDifficulty zeroBeatmap = .ret e zeroBeatmap) :=
  ⟨(missing_delimiter_undefined noSection zeroBeatmap).1 (by decide),
    (missing_delimiter_undefined titleWithoutReturn zeroBeatmap).2.1 .Title 12 zeroBeatmap
      (bytes "Song")
      (switches_of_reached 0 ⟨.SECTION_NONE, 0, zeroBeatmap⟩ 12 (by decide) (by decide)
        (by decide))
      (by decide) (by decide),
    (missing_delimiter_undefined shortTimingLine zeroBeatmap).2.2.1 16 zeroBeatmap
      (switches_of_reached 0 ⟨.SECTION_NONE, 0, zeroBeatmap⟩ 16 (by decide) (by decide)
        (by decide))
      (by decide) (by decide),
    (missing_delimiter_undefined shortHitLine zeroBeatmap).2.2.2.1 14 zeroBeatmap
      (switches_of_reached 0 ⟨.SECTION_NONE, 0, zeroBeatmap⟩ 14 (by decide) (by decide)
        (by decide))
      (by decide) (by decide),
    (missing_delimiter_undefined openDifficulty zeroBeatmap).2.2.2.2 .SECTION_DIFFICULTY 14
      zeroBeatmap
      (switches_of_reached 0 ⟨.SECTION_NONE, 0, zeroBeatmap⟩ 14 (by decide) (by decide)
        (by decide))
      (by decide) (by decide)⟩

/-- The theorem at `unknownKey`: the `SampleSet` line is skipped whole. -/
theorem unmatched_line_skipped_witness :
    Switches unknownKey zeroBeatmap .SECTION_GENERAL 11 zeroBeatmap ∧
    unknownKey.drop 11 = bytes "SampleSet: Normal\r" ++ 10 :: bytes "Mode: 3\r\n" ∧
    10 ∉ bytes "SampleSet: Normal\r" ∧
    unmatched .SECTION_GENERAL (bytes "SampleSet: Normal\r" ++ [10]) = true ∧
    (Reaches unknownKey zeroBeatmap
        ⟨.SECTION_GENERAL, 11 + (bytes "SampleSet: Normal\r").length + 1, zeroBeatmap⟩ ∧
      unknownKey.drop (11 + (bytes "SampleSet: Normal\r").length + 1) = bytes "Mode: 3\r\n") :=
  have h1 : Switches unknownKey zeroBeatmap .SECTION_GENERAL 11 zeroBeatmap :=
    switches_of_reached 0 ⟨.SECTION_NONE, 0, zeroBeatmap⟩ 11 (by decide) (by decide) (by decide)
  have h2 : unknownKey.drop 11 = bytes "SampleSet: Normal\r" ++ 10 :: bytes "Mode: 3\r\n" := by
    decide
  have h3 : 10 ∉ bytes "SampleSet: Normal\r" := by decide
  have h4 : unmatched .SECTION_GENERAL (bytes "SampleSet: Normal\r" ++ [10]) = true := by decide
  ⟨h1, h2, h3, h4,
    unmatched_line_skipped .SECTION_GENERAL unknownKey zeroBeatmap zeroBeatmap 11
      (bytes "SampleSet: Normal\r") (bytes "Mode: 3\r\n") h1 h2 h3 h4⟩

/-- The theorem at `timingThenLine`: the line `10,250,4,2,0,100,1` after the
blank line is skipped. -/
theorem timing_section_closed_witness :
    Reaches timingThenLine zeroBeatmap ⟨.SECTION_NONE, 0, zeroBeatmap⟩ ∧
    timingThenLine.drop 0 = bytes "[TimingPoints]\r\n" ++
      ([scenarioTimingLine].map TimingLine.text).flatten ++ bytes "\r\n" ++
      (([bytes "10,250,4,2,0,100,1\r"].map fun l => l ++ [10]).flatten ++
        bytes "[Colours]\r\n") ∧
    (∀ l ∈ [scenarioTimingLine], l.wf) ∧
    (∀ l ∈ [bytes "10,250,4,2,0,100,1\r"], isSkipped l) ∧
    ∃ tps, tps.length = [scenarioTimingLine].length ∧
      iteration timingThenLine ⟨.SECTION_NONE, 0, zeroBeatmap⟩ = .next ⟨.SECTION_NONE,
        0 + (16 + ([scenarioTimingLine].map TimingLine.text).flatten.length + 2),
        { zeroBeatmap with
          timing_points := tps, timing_points_count := [scenarioTimingLine].length }⟩ ∧
      Reaches timingThenLine zeroBeatmap ⟨.SECTION_NONE,
        0 + (16 + ([scenarioTimingLine].map TimingLine.text).flatten.length + 2) +
          ([bytes "10,250,4,2,0,100,1\r"].map fun l => l ++ [10]).flatten.length,
        { zeroBeatmap with
          timing_points := tps, timing_points_count := [scenarioTimingLine].length }⟩ ∧
      timingThenLine.drop
          (0 + (16 + ([scenarioTimingLine].map TimingLine.text).flatten.length + 2) +
            ([bytes "10,250,4,2,0,100,1\r"].map fun l => l ++ [10]).flatten.length) =
        bytes "[Colours]\r\n" :=
  have h1 : Reaches timingThenLine zeroBeatmap ⟨.SECTION_NONE, 0, zeroBeatmap⟩ :=
    reaches_of_reached 0 (by decide)
  have h2 : timingThenLine.drop 0 = bytes "[TimingPoints]\r\n" ++
      ([scenarioTimingLine].map TimingLine.text).flatten ++ bytes "\r\n" ++
      (([bytes "10,250,4,2,0,100,1\r"].map fun l => l ++ [10]).flatten ++
        bytes "[Colours]\r\n") := by decide
  have h3 : ∀ l ∈ [scenarioTimingLine], l.wf := by decide
  have h4 : ∀ l ∈ [bytes "10,250,4,2,0,100,1\r"], isSkipped l := by decide
  ⟨h1, h2, h3, h4,
    timing_section_closed timingThenLine zeroBeatmap ⟨.SECTION_NONE, 0, zeroBeatmap⟩
      [scenarioTimingLine] [bytes "10,250,4,2,0,100,1\r"] (bytes "[Colours]\r\n") h1 h2 h3 h4⟩

/-- The theorem at `stemKeys`, between the second and the fifth test of the
loop condition. -/
theorem cursor_never_backward_witness :
    1 ≤ 4 ∧
    reached stemKeys zeroBeatmap 1 =
      some ⟨.SECTION_GENERAL, 25, { zeroBeatmap with countdown := 1 }⟩ ∧
    reached stemKeys zeroBeatmap 4 =
      some ⟨.SECTION_METADATA, 73,
        { zeroBeatmap with countdown := 1, countdown_offset := 5, beatmap_id := 12 }⟩ ∧
    (25 ≤ 73 ∧ (1 < 4 → 25 < 73) ∧
      ∀ s2, iteration stemKeys ⟨.SECTION_GENERAL, 25, { zeroBeatmap with countdown := 1 }⟩ =
          .next s2 →
        ∃ sec k k1 k2, newSection .SECTION_GENERAL (stemKeys.drop 25) = some (sec, k) ∧
          caseSection sec (stemKeys.drop (25 + k)) { zeroBeatmap with countdown := 1 } =
            some (.next s2.current_section k1 s2.out) ∧
          skipLine (stemKeys.drop (25 + k + k1)) = some k2 ∧
          25 ≤ 25 + k ∧ 25 + k ≤ 25 + k + k1 ∧ 25 + k + k1 < 25 + k + k1 + k2 ∧
          s2.i = 25 + k + k1 + k2) :=
  have h1 : reached stemKeys zeroBeatmap 1 =
      some ⟨.SECTION_GENERAL, 25, { zeroBeatmap with countdown := 1 }⟩ := by decide
  have h2 : reached stemKeys zeroBeatmap 4 =
      some ⟨.SECTION_METADATA, 73,
        { zeroBeatmap with countdown := 1, countdown_offset := 5, beatmap_id := 12 }⟩ := by
    decide
  ⟨by decide, h1, h2,
    cursor_never_backward stemKeys zeroBeatmap 1 4 _ _ (by decide) h1 h2⟩

/-- The theorem at `formatLine ++ generalAndMetadata`. -/
theorem bytes_before_header_ignored_witness :
    91 ∉ formatLine ∧
    FastOsuParser__Parse (formatLine ++ generalAndMetadata) presetCircleSize =
      FastOsuParser__Parse generalAndMetadata presetCircleSize :=
  have h1 : 91 ∉ formatLine := by decide
  ⟨h1, bytes_before_header_ignored formatLine generalAndMetadata presetCircleSize h1⟩

/-- The theorem at `formatLine ++ generalAndMetadata`, which has no
`[Difficulty]` section: `circle_size` keeps the value the caller passed. -/
theorem absent_section_untouched_witness :
    headerLetter .SECTION_DIFFICULTY = some 68 ∧
    noHeaderLine 68 (formatLine ++ generalAndMetadata) = true ∧
    FastOsuParser__Parse (formatLine ++ generalAndMetadata) presetCircleSize =
      .ret .SUCCESS generalAndMetadataRecord ∧
    sectionPart .SECTION_DIFFICULTY generalAndMetadataRecord =
      sectionPart .SECTION_DIFFICULTY presetCircleSize :=
  have h1 : noHeaderLine 68 (formatLine ++ generalAndMetadata) = true := by decide
  have h2 : FastOsuParser__Parse (formatLine ++ generalAndMetadata) presetCircleSize =
      .ret .SUCCESS generalAndMetadataRecord := by decide
  ⟨rfl, h1, h2,
    absent_section_untouched .SECTION_DIFFICULTY 68 (formatLine ++ generalAndMetadata)
      presetCircleSize generalAndMetadataRecord .SUCCESS rfl h1 h2⟩

/-- The theorem at `fourHitObjects`: two sliders among four hit objects, two
registry entries. -/
theorem registry_one_entry_per_slider_witness :
    zeroBeatmap.hit_objects = [] ∧ zeroBeatmap._total_curve_points_count = 0 ∧
    FastOsuParser__Parse fourHitObjects zeroBeatmap = .ret .SUCCESS fourHitRecord ∧
    (fourHitRecord._total_curve_points_count =
        (fourHitRecord.hit_objects.filter fun ho => bitAnd ho.type 2).length ∧
      fourHitRecord._total_curve_points =
        (fourHitRecord.hit_objects.filter fun ho => bitAnd ho.type 2).map curvePointsOf ∧
      FastOsuParser__Free fourHitRecord =
        some ((fourHitRecord.hit_objects.filter fun ho => bitAnd ho.type 2).map
          curvePointsOf)) :=
  have h1 : FastOsuParser__Parse fourHitObjects zeroBeatmap = .ret .SUCCESS fourHitRecord := by
    decide
  ⟨rfl, rfl, h1,
    registry_one_entry_per_slider fourHitObjects zeroBeatmap fourHitRecord .SUCCESS rfl rfl h1⟩

/-- The theorem at `smallestBeatmapID`, where `n` is the smallest `int`, and
at `countdownBeyondInt`, where `n` is one more than the largest. -/
theorem sibling_int_keys_witness :
    Switches smallestBeatmapID zeroBeatmap IntKey.BeatmapID.sec 12 zeroBeatmap ∧
    smallestBeatmapID.drop 12 =
      bytes IntKey.BeatmapID.text ++ IntLit.text ⟨true, bytes "2147483648"⟩ ++ 13 :: 10 :: [] ∧
    IntLit.isDecimal ⟨true, bytes "2147483648"⟩ ∧ IntLit.inInt ⟨true, bytes "2147483648"⟩ ∧
    (Reaches smallestBeatmapID zeroBeatmap
        ⟨IntKey.BeatmapID.sec,
          12 + (bytes IntKey.BeatmapID.text ++ IntLit.text ⟨true, bytes "2147483648"⟩).length + 2,
          IntKey.BeatmapID.set zeroBeatmap (IntLit.val ⟨true, bytes "2147483648"⟩)⟩ ∧
      smallestBeatmapID.drop
          (12 + (bytes IntKey.BeatmapID.text ++
            IntLit.text ⟨true, bytes "2147483648"⟩).length + 2) = [] ∧
      IntKey.BeatmapID.field
          (IntKey.BeatmapID.set zeroBeatmap (IntLit.val ⟨true, bytes "2147483648"⟩)) =
        IntLit.val ⟨true, bytes "2147483648"⟩ ∧
      IntKey.BeatmapID.sibling.field
          (IntKey.BeatmapID.set zeroBeatmap (IntLit.val ⟨true, bytes "2147483648"⟩)) =
        IntKey.BeatmapID.sibling.field zeroBeatmap) ∧
    Switches countdownBeyondInt zeroBeatmap IntKey.Countdown.sec 11 zeroBeatmap ∧
    countdownBeyondInt.drop 11 =
      bytes IntKey.Countdown.text ++ IntLit.text ⟨false, bytes "2147483648"⟩ ++ 13 :: 10 :: [] ∧
    IntLit.isDecimal ⟨false, bytes "2147483648"⟩ ∧ ¬ IntLit.inInt ⟨false, bytes "2147483648"⟩ ∧
    FastOsuParser__Parse countdownBeyondInt zeroBeatmap = .undefined :=
  have h1 : Switches smallestBeatmapID zeroBeatmap IntKey.BeatmapID.sec 12 zeroBeatmap :=
    switches_of_reached 0 ⟨.SECTION_NONE, 0, zeroBeatmap⟩ 12 (by decide) (by decide) (by decide)
  have h2 : smallestBeatmapID.drop 12 =
      bytes IntKey.BeatmapID.text ++ IntLit.text ⟨true, bytes "2147483648"⟩ ++
        13 :: 10 :: [] := by decide
  have h3 : IntLit.isDecimal ⟨true, bytes "2147483648"⟩ := by decide
  have h4 : IntLit.inInt ⟨true, bytes "2147483648"⟩ := by decide
  have h5 : Switches countdownBeyondInt zeroBeatmap IntKey.Countdown.sec 11 zeroBeatmap :=
    switches_of_reached 0 ⟨.SECTION_NONE, 0, zeroBeatmap⟩ 11 (by decide) (by decide) (by decide)
  have h6 : countdownBeyondInt.drop 11 =
      bytes IntKey.Countdown.text ++ IntLit.text ⟨false, bytes "2147483648"⟩ ++
        13 :: 10 :: [] := by decide
  have h7 : IntLit.isDecimal ⟨false, bytes "2147483648"⟩ := by decide
  have h8 : ¬ IntLit.inInt ⟨false, bytes "2147483648"⟩ := by decide
  ⟨h1, h2, h3, h4,
    (sibling_int_keys .BeatmapID smallestBeatmapID zeroBeatmap zeroBeatmap 12
      ⟨true, bytes "2147483648"⟩ [] h1 h2 h3).1 h4,
    h5, h6, h7, h8,
    (sibling_int_keys .Countdown countdownBeyondInt zeroBeatmap zeroBeatmap 11
      ⟨false, bytes "2147483648"⟩ [] h5 h6 h7).2 h8⟩

/-- The four parts of the theorem: the `[Metadata]` header of
`headerAfterBlank` at the head of a pass, the first `[` of an input behind a
format line, the same `[Metadata]` header behind its blank line, and the
`[Metadata]` header of `headerAfterHeader`, which gets no pass. -/
theorem header_line_dispatch_witness :
    Switches headerAfterBlank zeroBeatmap (sectionOfLetter 77) (22 + (sectionHeader 77).2)
      { zeroBeatmap with mode := 1 } ∧
    Reaches (formatLine ++ generalAndMetadata) zeroBeatmap
      ⟨.SECTION_NONE, formatLine.length, { zeroBeatmap with _total_curve_points := [] }⟩ ∧
    (Reaches headerAfterBlank zeroBeatmap
        ⟨.SECTION_GENERAL, 20 + [13].length + 1, { zeroBeatmap with mode := 1 }⟩ ∧
      Switches headerAfterBlank zeroBeatmap (sectionOfLetter 77)
        (20 + [13].length + 1 + (sectionHeader 77).2) { zeroBeatmap with mode := 1 }) ∧
    iteration headerAfterHeader ⟨.SECTION_NONE, 0, zeroBeatmap⟩ =
      .next ⟨.SECTION_GENERAL,
        0 + (bytes (headerText .SECTION_GENERAL)).length + ((bytes "Metadata]\r").length + 2),
        zeroBeatmap⟩ :=
  ⟨(header_line_dispatch headerAfterBlank zeroBeatmap).1
      ⟨.SECTION_GENERAL, 22, { zeroBeatmap with mode := 1 }⟩ 77
      (bytes "etadata]\r\nTitle:Song\r\n") (reaches_of_reached 2 (by decide)) (by decide),
    (header_line_dispatch (formatLine ++ generalAndMetadata) zeroBeatmap).2.1 formatLine
      (bytes "General]\r\nMode: 1\r\n\r\n[Metadata]\r\nTitle:Song\r\n") (by decide) (by decide),
    (header_line_dispatch headerAfterBlank zeroBeatmap).2.2.1 .SECTION_GENERAL 20
      { zeroBeatmap with mode := 1 } [13] (bytes "etadata]\r\nTitle:Song\r\n") 77
      (switches_of_reached 1 ⟨.SECTION_GENERAL, 20, { zeroBeatmap with mode := 1 }⟩ 0
        (by decide) (by decide) (by decide))
      (by decide) (by decide) (Or.inr (by decide)),
    (header_line_dispatch headerAfterHeader zeroBeatmap).2.2.2 ⟨.SECTION_NONE, 0, zeroBeatmap⟩
      .SECTION_GENERAL (bytes "Metadata]\r") (bytes "Title:Song\r\n")
      (reaches_of_reached 0 (by decide)) (by decide) (by decide) (by decide)⟩

end FastOsuParser
